import Mathlib

/-!
# Wobbly: a mass-spring surface model

A shallow embedding of `wobbly.c` / `wobbly.h` and a verification of its
natural-language specification.

Modelling conventions.

* A C `float` is a rational number (`ℚ`), the one the float denotes;
  infinities and NaN are outside the model.  `fabs` is `abs`, `floor` is
  `Int.floor`.  The arithmetic is embedded twice.  In the first part every
  operation is exact, and every function that calls `sqrt` takes the
  square-root function as its first argument: this part carries the statements
  about the structure of the code, which fields a call reads and writes and
  which branch it takes.  In the second part (namespace `Binary32`) every
  operation is rounded as IEEE 754 binary32 arithmetic rounds it, and `sqrt` is
  the correctly rounded square root: this part carries the statements about
  the values that the code computes.
* A C `int` is an unbounded `Int` (signed overflow is undefined in C).  The
  animation bitmask `ww->wobbly` only ever holds `0`, a result of `modelStep`
  or a value or-ed with `WobblyInitial`; it is a `Nat`.
* Flags that the code only writes with `0`/`1` and reads for truth
  (`immobile`, `grabbed`, `synced`) are `Bool`.
* `Object *` pointers (spring endpoints, `anchorObject`) always point into
  `model->objects`; they are indices, and a null pointer is `none`.
* `model->objects` with `numObjects` is a `List Object`; `springs` with
  `numSprings` is a `List Spring` (the slots beyond `numSprings` are never read).
* A `malloc` is a Boolean argument telling whether it succeeds.
* A function that dereferences a pointer without testing it returns `none`
  when the pointer is null.
-/

namespace Wobbly

/-! ## Constants -/

def GRID_WIDTH : Nat := 4

def GRID_HEIGHT : Nat := 4

def MASS : ℚ := 50

/-- `MAXSHORT` of `<values.h>`. -/
def MAXSHORT : ℚ := 32767

/-- `MINSHORT` of `<values.h>`. -/
def MINSHORT : ℚ := -32768

def WOBBLY_FRICTION : ℚ := 3

def WOBBLY_SPRING_K : ℚ := 8

def WobblyInitial : Nat := 1 <<< 0

def WobblyForce : Nat := 1 <<< 1

def WobblyVelocity : Nat := 1 <<< 2

/-! ## Data model -/

/-- C `struct _xy_pair`, used under the two names `Point` and `Vector`. -/
structure Point where
  x : ℚ
  y : ℚ
deriving DecidableEq, Repr

abbrev Vector := Point

/-- C `Edge`.  Only `next` is ever accessed by the code (written by
`objectInit`); the other five fields are never read or written. -/
structure Edge where
  next : ℚ
deriving DecidableEq, Repr

structure Object where
  force : Vector
  position : Point
  velocity : Vector
  theta : ℚ
  immobile : Bool
  vertEdge : Edge
  horzEdge : Edge
deriving DecidableEq, Repr

structure Spring where
  a : Nat
  b : Nat
  offset : Vector
deriving DecidableEq, Repr

structure Model where
  objects : List Object
  springs : List Spring
  anchorObject : Option Nat
  steps : ℚ
  topLeft : Point
  bottomRight : Point
deriving DecidableEq, Repr

/-- C `WobblyWindow`; the field `velocity` is never accessed and is left out. -/
structure WobblyWindow where
  model : Option Model
  wobbly : Nat
  grabbed : Bool
  state : Nat
deriving DecidableEq, Repr

/-- C `struct surface`.  `v` and `uv` are the vertex and texture-coordinate
buffers (`surface->v`, `surface->tex.uv`). -/
structure Surface where
  ww : WobblyWindow
  x : Int
  y : Int
  width : Int
  height : Int
  x_cells : Int
  y_cells : Int
  grabbed : Bool
  synced : Bool
  v : List ℚ
  uv : List ℚ
deriving DecidableEq, Repr

/-- The content of memory that was never written. -/
def Object.blank : Object :=
  { force := ⟨0, 0⟩, position := ⟨0, 0⟩, velocity := ⟨0, 0⟩, theta := 0,
    immobile := false, vertEdge := ⟨0⟩, horzEdge := ⟨0⟩ }

/-- Read `objects[i]`. -/
def getObject (objects : List Object) (i : Nat) : Object :=
  objects.getD i Object.blank

/-- Update `objects[i]` in place. -/
def modifyObject (objects : List Object) (i : Nat) (f : Object → Object) : List Object :=
  objects.set i (f (getObject objects i))

def Model.numObjects (model : Model) : Nat := model.objects.length

def Model.numSprings (model : Model) : Nat := model.springs.length

/-- C conversion of a `float` to an `int`: truncation toward zero. -/
def floatToInt (q : ℚ) : Int :=
  if 0 ≤ q then Int.floor q else Int.ceil q

/-! ## The grid model -/

def objectInit (object : Object) (positionX positionY velocityX velocityY : ℚ) : Object :=
  { object with
    force := ⟨0, 0⟩
    position := ⟨positionX, positionY⟩
    velocity := ⟨velocityX, velocityY⟩
    theta := 0
    immobile := false
    vertEdge := { object.vertEdge with next := 0 }
    horzEdge := { object.horzEdge with next := 0 } }

def springInit (a b : Nat) (offsetX offsetY : ℚ) : Spring :=
  { a := a, b := b, offset := ⟨offsetX, offsetY⟩ }

/-- One iteration of the loop of `modelCalcBounds`, on one axis: `lohi` is
`(topLeft, bottomRight)` on that axis and `p` the position. -/
def boundsAxis (lohi : ℚ × ℚ) (p : ℚ) : ℚ × ℚ :=
  if p < lohi.1 then (p, lohi.2)
  else if p > lohi.2 then (lohi.1, p)
  else lohi

/-- One iteration of the loop of `modelCalcBounds`. -/
def boundsStep (b : Point × Point) (object : Object) : Point × Point :=
  let bx := boundsAxis (b.1.x, b.2.x) object.position.x
  let by_ := boundsAxis (b.1.y, b.2.y) object.position.y
  (⟨bx.1, by_.1⟩, ⟨bx.2, by_.2⟩)

def modelCalcBounds (model : Model) : Model :=
  let b := model.objects.foldl boundsStep (⟨MAXSHORT, MAXSHORT⟩, ⟨MINSHORT, MINSHORT⟩)
  { model with topLeft := b.1, bottomRight := b.2 }

def modelAddSpring (model : Model) (a b : Nat) (offsetX offsetY : ℚ) : Model :=
  { model with springs := model.springs ++ [springInit a b offsetX offsetY] }

def modelSetMiddleAnchor (model : Model) (x y width height : Int) : Model :=
  let gx : ℚ := ((((GRID_WIDTH - 1) / 2 : Nat) * width : Int) : ℚ) / ((GRID_WIDTH - 1 : Nat) : ℚ)
  let gy : ℚ := ((((GRID_HEIGHT - 1) / 2 : Nat) * height : Int) : ℚ) / ((GRID_HEIGHT - 1 : Nat) : ℚ)
  let objects0 :=
    match model.anchorObject with
    | some a => modifyObject model.objects a (fun o => { o with immobile := false })
    | none => model.objects
  let mid := GRID_WIDTH * ((GRID_HEIGHT - 1) / 2) + (GRID_WIDTH - 1) / 2
  let objects1 := modifyObject objects0 mid (fun o => { o with position := ⟨x + gx, y + gy⟩ })
  let objects2 := modifyObject objects1 mid (fun o => { o with immobile := true })
  { model with objects := objects2, anchorObject := some mid }

/-- The loop counter `i` of the source equals `gridY * GRID_WIDTH + gridX`. -/
def modelInitObjects (model : Model) (x y width height : Int) : Model :=
  let gw : ℚ := ((GRID_WIDTH - 1 : Nat) : ℚ)
  let gh : ℚ := ((GRID_HEIGHT - 1 : Nat) : ℚ)
  let objects := (List.range GRID_HEIGHT).foldl (fun objs gridY =>
    (List.range GRID_WIDTH).foldl (fun objs gridX =>
      modifyObject objs (gridY * GRID_WIDTH + gridX) (fun o =>
        objectInit o (x + (((gridX : Int) * width : Int) : ℚ) / gw)
          (y + (((gridY : Int) * height : Int) : ℚ) / gh) 0 0)) objs) model.objects
  modelSetMiddleAnchor { model with objects := objects } x y width height

/-- The loop counter `i` of the source equals `gridY * GRID_WIDTH + gridX`. -/
def modelInitSprings (model : Model) (_x _y width height : Int) : Model :=
  let hpad : ℚ := (width : ℚ) / ((GRID_WIDTH - 1 : Nat) : ℚ)
  let vpad : ℚ := (height : ℚ) / ((GRID_HEIGHT - 1 : Nat) : ℚ)
  (List.range GRID_HEIGHT).foldl (fun m gridY =>
    (List.range GRID_WIDTH).foldl (fun m gridX =>
      let i := gridY * GRID_WIDTH + gridX
      let m1 := if gridX > 0 then modelAddSpring m (i - 1) i hpad 0 else m
      if gridY > 0 then modelAddSpring m1 (i - GRID_WIDTH) i 0 vpad else m1) m)
    { model with springs := [] }

/-- The two arguments tell whether `malloc (sizeof (Model))` and the `malloc`
of the object array succeed. -/
def createModel (mallocModel mallocObjects : Bool) (x y width height : Int) : Option Model :=
  if !mallocModel then none
  else if !mallocObjects then none
  else
    let model : Model :=
      { objects := List.replicate (GRID_WIDTH * GRID_HEIGHT) Object.blank
        springs := []
        anchorObject := none
        steps := 0
        topLeft := ⟨0, 0⟩
        bottomRight := ⟨0, 0⟩ }
    let model := modelInitObjects model x y width height
    let model := modelInitSprings model x y width height
    some (modelCalcBounds model)

/-! ## Force and integration step -/

def objectApplyForce (object : Object) (fx fy : ℚ) : Object :=
  { object with force := ⟨object.force.x + fx, object.force.y + fy⟩ }

def springExertForces (objects : List Object) (spring : Spring) (k : ℚ) : List Object :=
  let a := (getObject objects spring.a).position
  let b := (getObject objects spring.b).position
  let da : Vector :=
    ⟨(1 / 2) * (b.x - a.x - spring.offset.x), (1 / 2) * (b.y - a.y - spring.offset.y)⟩
  let db : Vector :=
    ⟨(1 / 2) * (a.x - b.x + spring.offset.x), (1 / 2) * (a.y - b.y + spring.offset.y)⟩
  let objects1 := modifyObject objects spring.a (fun o => objectApplyForce o (k * da.x) (k * da.y))
  modifyObject objects1 spring.b (fun o => objectApplyForce o (k * db.x) (k * db.y))

/-- Result of `modelStepObject`: the object after the step, the value stored
through the `force` pointer, and the returned velocity magnitude. -/
structure StepObjectResult where
  object : Object
  force : ℚ
  velocity : ℚ
deriving DecidableEq, Repr

def modelStepObject (object : Object) (friction : ℚ) : StepObjectResult :=
  let object := { object with theta := object.theta + 1 / 20 }
  if object.immobile then
    { object := { object with velocity := ⟨0, 0⟩, force := ⟨0, 0⟩ }
      force := 0
      velocity := 0 }
  else
    let force : Vector :=
      ⟨object.force.x - friction * object.velocity.x, object.force.y - friction * object.velocity.y⟩
    let velocity : Vector :=
      ⟨object.velocity.x + force.x / MASS, object.velocity.y + force.y / MASS⟩
    let position : Point :=
      ⟨object.position.x + velocity.x, object.position.y + velocity.y⟩
    { object := { object with force := ⟨0, 0⟩, velocity := velocity, position := position }
      force := |force.x| + |force.y|
      velocity := |velocity.x| + |velocity.y| }

/-- State of the loops of `modelStep`: the object array and the two running sums. -/
structure StepState where
  objects : List Object
  velocitySum : ℚ
  forceSum : ℚ
deriving DecidableEq, Repr

/-- The loop `for (i = 0; i < model->numObjects; i++)` of `modelStep`. -/
def stepObjects (friction : ℚ) : List Object → ℚ → ℚ → StepState
  | [], velocitySum, forceSum =>
    { objects := [], velocitySum := velocitySum, forceSum := forceSum }
  | object :: rest, velocitySum, forceSum =>
    let r := modelStepObject object friction
    let st := stepObjects friction rest (velocitySum + r.velocity) (forceSum + r.force)
    { st with objects := r.object :: st.objects }

/-- One iteration of the loop `for (j = 0; j < steps; j++)` of `modelStep`. -/
def subStep (springs : List Spring) (friction k : ℚ) (st : StepState) : StepState :=
  let objects := springs.foldl (fun objs spring => springExertForces objs spring k) st.objects
  stepObjects friction objects st.velocitySum st.forceSum

/-- Returns the model after the step and the returned bitmask. -/
def modelStep (model : Model) (friction k time : ℚ) : Model × Nat :=
  let steps0 : ℚ := model.steps + time / 15
  let steps : Int := Int.floor steps0
  let model := { model with steps := steps0 - steps }
  if steps = 0 then (model, 1)
  else
    let st := Nat.iterate (subStep model.springs friction k) steps.toNat
      { objects := model.objects, velocitySum := 0, forceSum := 0 }
    let model := modelCalcBounds { model with objects := st.objects }
    let wobbly : Nat := 0
    let wobbly := if st.velocitySum > 1 / 2 then wobbly ||| WobblyVelocity else wobbly
    let wobbly := if st.forceSum > 20 then wobbly ||| WobblyForce else wobbly
    (model, wobbly)

/-! ## Surface evaluator -/

def bezierPatchEvaluate (model : Model) (u v : ℚ) : ℚ × ℚ :=
  let coeffsU : List ℚ :=
    [(1 - u) * (1 - u) * (1 - u), 3 * u * (1 - u) * (1 - u), 3 * u * u * (1 - u), u * u * u]
  let coeffsV : List ℚ :=
    [(1 - v) * (1 - v) * (1 - v), 3 * v * (1 - v) * (1 - v), 3 * v * v * (1 - v), v * v * v]
  (List.range 4).foldl (fun acc i =>
    (List.range 4).foldl (fun acc j =>
      (acc.1 + coeffsU.getD i 0 * coeffsV.getD j 0 *
          (getObject model.objects (j * GRID_WIDTH + i)).position.x,
       acc.2 + coeffsU.getD i 0 * coeffsV.getD j 0 *
          (getObject model.objects (j * GRID_HEIGHT + i)).position.y)) acc) (0, 0)

/-! ## Interaction controller -/

/-- Returns the surface and the returned `int` as a Boolean. -/
def wobblyEnsureModel (mallocModel mallocObjects : Bool) (surface : Surface) : Surface × Bool :=
  match surface.ww.model with
  | some _ => (surface, true)
  | none =>
    match createModel mallocModel mallocObjects surface.x surface.y surface.width surface.height with
    | none => (surface, false)
    | some model => ({ surface with ww := { surface.ww with model := some model } }, true)

def objectDistance (sqrt : ℚ → ℚ) (object : Object) (x y : ℚ) : ℚ :=
  let dx := object.position.x - x
  let dy := object.position.y - y
  sqrt (dx * dx + dy * dy)

/-- One iteration of the loop of `modelFindNearestObject`; the state is
`(object, minDistance)`. -/
def nearestStep (sqrt : ℚ → ℚ) (objects : List Object) (x y : ℚ) (acc : Nat × ℚ) (i : Nat) :
    Nat × ℚ :=
  let distance := objectDistance sqrt (getObject objects i) x y
  if i = 0 ∨ distance < acc.2 then (i, distance) else acc

/-- Returns the index of the object the returned pointer points to. -/
def modelFindNearestObject (sqrt : ℚ → ℚ) (model : Model) (x y : ℚ) : Nat :=
  ((List.range model.numObjects).foldl (nearestStep sqrt model.objects x y) (0, 0)).1

/-- Returns `none` when `ww->model` is dereferenced while null. -/
def wobbly_prepare_paint (surface : Surface) (msSinceLastPaint : Int) : Option Surface :=
  let ww := surface.ww
  let friction := WOBBLY_FRICTION
  let springK := WOBBLY_SPRING_K
  if ww.wobbly ≠ 0 then
    if ww.wobbly &&& (WobblyInitial ||| WobblyVelocity ||| WobblyForce) ≠ 0 then
      match ww.model with
      | none => none
      | some model =>
        let time : ℚ := if ww.wobbly &&& WobblyVelocity ≠ 0 then (msSinceLastPaint : ℚ) else 16
        let r := modelStep model friction springK time
        if r.2 ≠ 0 then
          some { surface with
            ww := { ww with model := some (modelCalcBounds r.1), wobbly := r.2 } }
        else
          some { surface with
            ww := { ww with model := some r.1, wobbly := r.2 }
            x := floatToInt r.1.topLeft.x
            y := floatToInt r.1.topLeft.y
            synced := true }
    else some surface
  else some surface

/-- Returns `none` when `ww->model` is dereferenced while null. -/
def wobbly_done_paint (surface : Surface) : Option Surface :=
  if surface.ww.wobbly ≠ 0 then
    match surface.ww.model with
    | none => none
    | some model =>
      some { surface with x := floatToInt model.topLeft.x, y := floatToInt model.topLeft.y }
  else some surface

/-- The two Boolean arguments tell whether the `realloc` of `surface->v` and
of `surface->tex.uv` succeed; the source does not test their results, so
writing the first vertex through a failed one is `none`, as is dereferencing
`ww->model` while null.  The buffers are filled in the order of the loops:
row `y` by row, column `x` by column, two floats per point. -/
def wobbly_add_geometry (reallocV reallocUV : Bool) (surface : Surface) : Option Surface :=
  let ww := surface.ww
  if ww.wobbly ≠ 0 then
    let width : ℚ := surface.width
    let height : ℚ := surface.height
    let cell_w : ℚ := width / surface.x_cells
    let cell_h : ℚ := height / surface.y_cells
    let iw : Int := surface.x_cells + 1
    let ih : Int := surface.y_cells + 1
    if 0 < ih ∧ 0 < iw then
      if !reallocV || !reallocUV then none
      else
        match ww.model with
        | none => none
        | some model =>
          some { surface with
            v := (List.range ih.toNat).flatMap (fun y =>
              (List.range iw.toNat).flatMap (fun x =>
                [(bezierPatchEvaluate model ((x * cell_w) / width) ((y * cell_h) / height)).1,
                 (bezierPatchEvaluate model ((x * cell_w) / width) ((y * cell_h) / height)).2]))
            uv := (List.range ih.toNat).flatMap (fun y =>
              (List.range iw.toNat).flatMap (fun x =>
                [(x * cell_w) / width, 1 - (y * cell_h) / height])) }
    else some { surface with v := [], uv := [] }
  else some surface

def wobbly_resize_notify (surface : Surface) : Surface :=
  let ww := surface.ww
  let x := surface.x
  let y := surface.y
  let w := surface.width
  let h := surface.height
  match ww.model with
  | some model =>
    let model1 := if ww.wobbly = 0 then modelInitObjects model x y w h else model
    { surface with ww := { ww with model := some (modelInitSprings model1 x y w h) } }
  | none => surface

/-- Returns `none` when `ww->model` or `anchorObject` is dereferenced while null. -/
def wobbly_move_notify (surface : Surface) (dx dy : Int) : Option Surface :=
  let ww := surface.ww
  if ww.grabbed then
    match ww.model with
    | none => none
    | some model =>
      match model.anchorObject with
      | none => none
      | some a =>
        let objects := modifyObject model.objects a (fun o =>
          { o with position := ⟨o.position.x + dx, o.position.y + dy⟩ })
        some { surface with
          ww := { ww with
            model := some { model with objects := objects }
            wobbly := ww.wobbly ||| WobblyInitial }
          synced := false }
  else some surface

/-- One iteration of the spring loop of `wobbly_grab_notify`. -/
def grabKick (anchor : Nat) (objects : List Object) (s : Spring) : List Object :=
  if s.a = anchor then
    modifyObject objects s.b (fun o =>
      { o with velocity :=
          ⟨o.velocity.x - s.offset.x * (1 / 20), o.velocity.y - s.offset.y * (1 / 20)⟩ })
  else if s.b = anchor then
    modifyObject objects s.a (fun o =>
      { o with velocity :=
          ⟨o.velocity.x + s.offset.x * (1 / 20), o.velocity.y + s.offset.y * (1 / 20)⟩ })
  else objects

def wobbly_grab_notify (sqrt : ℚ → ℚ) (mallocModel mallocObjects : Bool) (surface : Surface)
    (x y : Int) : Surface :=
  let r := wobblyEnsureModel mallocModel mallocObjects surface
  let surface := r.1
  if r.2 then
    match surface.ww.model with
    | none => surface
    | some model =>
      let objects0 :=
        match model.anchorObject with
        | some a => modifyObject model.objects a (fun o => { o with immobile := false })
        | none => model.objects
      let anchor := modelFindNearestObject sqrt { model with objects := objects0 } x y
      let objects1 := modifyObject objects0 anchor (fun o => { o with immobile := true })
      let objects2 := model.springs.foldl (grabKick anchor) objects1
      { surface with
        ww := { surface.ww with
          model := some { model with objects := objects2, anchorObject := some anchor }
          grabbed := true
          wobbly := surface.ww.wobbly ||| WobblyInitial } }
  else surface

def wobbly_ungrab_notify (surface : Surface) : Surface :=
  let ww := surface.ww
  if ww.grabbed then
    match ww.model with
    | some model =>
      let objects :=
        match model.anchorObject with
        | some a => modifyObject model.objects a (fun o => { o with immobile := false })
        | none => model.objects
      { surface with
        ww := { ww with
          model := some { model with objects := objects, anchorObject := none }
          wobbly := ww.wobbly ||| WobblyInitial
          grabbed := false } }
    | none => { surface with ww := { ww with grabbed := false } }
  else surface

/-- The first argument tells whether `malloc (sizeof (WobblyWindow))` succeeds,
the next two are those of `createModel`.  Returns `none` when the function
returns `0`. -/
def wobbly_init (mallocWW mallocModel mallocObjects : Bool) (surface : Surface) :
    Option Surface :=
  if !mallocWW then none
  else
    let ww : WobblyWindow := { model := none, wobbly := 0, grabbed := false, state := 0 }
    let r := wobblyEnsureModel mallocModel mallocObjects { surface with ww := ww }
    if !r.2 then none else some r.1

/-! ## Reachable states -/

/-- The states of a surface that the program can be in: after a successful
`wobbly_init`, any sequence of grab, move, resize, ungrab and per-frame tick
notifications, between which the owner of the surface may change every field
of it other than `ww`. -/
inductive Reachable (sqrt : ℚ → ℚ) : Surface → Prop
  | init (mallocWW mallocModel mallocObjects : Bool) (s0 s : Surface) :
      wobbly_init mallocWW mallocModel mallocObjects s0 = some s → Reachable sqrt s
  | grab (mallocModel mallocObjects : Bool) (s : Surface) (x y : Int) :
      Reachable sqrt s → Reachable sqrt (wobbly_grab_notify sqrt mallocModel mallocObjects s x y)
  | move (s s' : Surface) (dx dy : Int) :
      Reachable sqrt s → wobbly_move_notify s dx dy = some s' → Reachable sqrt s'
  | resize (s : Surface) : Reachable sqrt s → Reachable sqrt (wobbly_resize_notify s)
  | ungrab (s : Surface) : Reachable sqrt s → Reachable sqrt (wobbly_ungrab_notify s)
  | tick (s s' : Surface) (ms : Int) :
      Reachable sqrt s → wobbly_prepare_paint s ms = some s' → Reachable sqrt s'
  | owner (s t : Surface) : Reachable sqrt s → Reachable sqrt { t with ww := s.ww }

/-! ## Auxiliary definitions used to state the properties -/

/-- The mass of grid cell `(gridX, gridY)` as `objectInit` leaves it on the
undeformed lattice of the rectangle, with the given `immobile` flag. -/
def latticeObject (x y width height : Int) (immobile : Bool) (gridX gridY : Nat) : Object :=
  { force := ⟨0, 0⟩
    position := ⟨x + ((gridX * width : Int) : ℚ) / ((GRID_WIDTH - 1 : Nat) : ℚ),
                 y + ((gridY * height : Int) : ℚ) / ((GRID_HEIGHT - 1 : Nat) : ℚ)⟩
    velocity := ⟨0, 0⟩
    theta := 0
    immobile := immobile
    vertEdge := ⟨0⟩
    horzEdge := ⟨0⟩ }

/-- The sixteen masses of the undeformed lattice, mass 5 pinned. -/
def lattice (x y width height : Int) : List Object :=
  (List.range 16).map (fun i => latticeObject x y width height (i == 5) (i % 4) (i / 4))

/-- The springs of the grid: for each mass `i` in row-major order, the spring
to its left neighbour (if any), then the spring to its upper neighbour (if any). -/
def gridSprings (width height : Int) : List Spring :=
  (List.range 16).flatMap (fun i =>
    (if i % 4 > 0 then
      [springInit (i - 1) i ((width : ℚ) / ((GRID_WIDTH - 1 : Nat) : ℚ)) 0] else []) ++
    (if i / 4 > 0 then
      [springInit (i - GRID_WIDTH) i 0 ((height : ℚ) / ((GRID_HEIGHT - 1 : Nat) : ℚ))] else []))

/-- The `immobile` flags of the masses, in index order. -/
def immobileFlags (objects : List Object) : List Bool :=
  objects.map (fun o => o.immobile)

/-- Well-formedness of a model: sixteen masses, the pinned mass is exactly the
anchor, the time accumulator holds a fraction of a sub-step, and the springs
are those of the grid for some rectangle size. -/
structure ModelInv (m : Model) : Prop where
  length : m.objects.length = 16
  anchor : ∀ i, (getObject m.objects i).immobile = true ↔ m.anchorObject = some i
  steps : 0 ≤ m.steps ∧ m.steps < 1
  springs : ∃ w h : Int, m.springs = gridSprings w h

/-- Well-formedness of a surface: it has a well-formed model and, while it is
grabbed, an anchor. -/
def SurfaceInv (s : Surface) : Prop :=
  ∃ m, s.ww.model = some m ∧ ModelInv m ∧ (s.ww.grabbed = true → m.anchorObject ≠ none)

/-- The object array after `if (model->anchorObject) model->anchorObject->immobile = 0`. -/
def releaseAnchor (m : Model) : List Object :=
  match m.anchorObject with
  | some a => modifyObject m.objects a (fun o => { o with immobile := false })
  | none => m.objects

/-- The square of the Euclidean distance from an object to the point `(x, y)`:
the argument that `objectDistance` hands to `sqrt`. -/
def squaredDistance (object : Object) (x y : ℚ) : ℚ :=
  (object.position.x - x) * (object.position.x - x)
    + (object.position.y - y) * (object.position.y - y)

/-- `n` consecutive calls of `wobbly_move_notify` with the same `(dx, dy)`. -/
def moveTimes (dx dy : Int) : Nat → Surface → Option Surface
  | 0, s => some s
  | n + 1, s => (wobbly_move_notify s dx dy).bind (moveTimes dx dy n)

/-- The number of iterations of the sub-step loop of `modelStep` for the given
model and time: the value of its local `steps` (no iteration when negative). -/
def subStepCount (model : Model) (time : ℚ) : Nat :=
  (Int.floor (model.steps + time / 15)).toNat

/-- The model after a sequence of `modelStep` calls with the given times. -/
def stepTimes (friction k : ℚ) : List ℚ → Model → Model
  | [], m => m
  | t :: ts, m => stepTimes friction k ts (modelStep m friction k t).1

/-- The total number of sub-steps run by a sequence of `modelStep` calls. -/
def totalSubSteps (friction k : ℚ) : List ℚ → Model → Nat
  | [], _ => 0
  | t :: ts, m => subStepCount m t + totalSubSteps friction k ts (modelStep m friction k t).1

/-! ## Concrete states of the scenario -/

/-- A strictly increasing stand-in for the C library's `sqrt` on concrete
inputs: `modelFindNearestObject` only compares the distances it computes, so
with any strictly increasing function it selects the same object. -/
def sqrtOrder : ℚ → ℚ := fun q => q

/-- The surface of the scenario before `wobbly_init`: rectangle `(0, 0, 400, 200)`. -/
def scenarioSurface : Surface :=
  { ww := { model := none, wobbly := 0, grabbed := false, state := 0 }
    x := 0, y := 0, width := 400, height := 200
    x_cells := 8, y_cells := 8
    grabbed := false, synced := true
    v := [], uv := [] }

/-- The scenario's surface after a successful `wobbly_init`. -/
def initSurface : Surface :=
  (wobbly_init true true true scenarioSurface).getD scenarioSurface

/-- The scenario's surface after `wobbly_init` and a grab at `(200, 100)`. -/
def grabbedSurface : Surface :=
  wobbly_grab_notify sqrtOrder true true initSurface 200 100

/-- The scenario's surface after `wobbly_init`, a grab at `(200, 100)` and one
per-frame tick. -/
def tickedSurface : Surface :=
  (wobbly_prepare_paint grabbedSurface 0).getD grabbedSurface

/-- A small surface before `wobbly_init`: rectangle `(0, 0, 10, 10)`. -/
def smallSurface : Surface :=
  { scenarioSurface with width := 10, height := 10 }

/-- The small surface after `wobbly_init`, a grab at `(1, 1)` (nearest mass: the
corner mass 0) and one tick of 16 ms, which settles it while it is still
grabbed. -/
def settledGrabbedSurface : Surface :=
  ((wobbly_init true true true smallSurface).bind (fun s =>
    wobbly_prepare_paint (wobbly_grab_notify sqrtOrder true true s 1 1) 16)).getD smallSurface

/-- The scenario's surface after `wobbly_init`, a grab at `(1, 1)` (nearest
mass: the corner mass 0), a move by `(500, 300)` and one tick of 16 ms. -/
def draggedSurface : Surface :=
  ((wobbly_move_notify (wobbly_grab_notify sqrtOrder true true initSurface 1 1) 500 300).bind
    (fun s => wobbly_prepare_paint s 16)).getD initSurface

/-! ## Sums over the masses -/

/-- The sum of the velocity vectors of the masses. -/
def totalVelocity (objects : List Object) : Vector :=
  ⟨(objects.map (fun o => o.velocity.x)).sum, (objects.map (fun o => o.velocity.y)).sum⟩

/-- The sum of the accumulated forces of the masses. -/
def totalForce (objects : List Object) : Vector :=
  ⟨(objects.map (fun o => o.force.x)).sum, (objects.map (fun o => o.force.y)).sum⟩

/-- The spring loop of one sub-step of `modelStep`. -/
def exertAll (springs : List Spring) (k : ℚ) (objects : List Object) : List Object :=
  springs.foldl (fun objs spring => springExertForces objs spring k) objects

/-- The velocity magnitude of a mass, `|vx| + |vy|`: what `modelStepObject`
returns, read from the mass after the step. -/
def velocityMagnitude (o : Object) : ℚ := |o.velocity.x| + |o.velocity.y|

/-- The masses after `n` sub-steps of `modelStep`. -/
def objectsAfter (springs : List Spring) (friction k : ℚ) (n : Nat) (objects : List Object) :
    List Object :=
  (Nat.iterate (subStep springs friction k) n
    { objects := objects, velocitySum := 0, forceSum := 0 }).objects

/-- The sum, over the first `n` sub-steps and over the masses, of the velocity
magnitude of the mass after that sub-step. -/
def velocitySumOver (springs : List Spring) (friction k : ℚ) (n : Nat) (objects : List Object) :
    ℚ :=
  ((List.range n).map (fun j =>
    ((objectsAfter springs friction k (j + 1) objects).map velocityMagnitude).sum)).sum

/-- The sum, over the first `n` sub-steps and over the masses, of the value
`modelStepObject` stores through its `force` pointer in that sub-step: the
magnitude of the force before it is cleared. -/
def forceSumOver (springs : List Spring) (friction k : ℚ) (n : Nat) (objects : List Object) :
    ℚ :=
  ((List.range n).map (fun j =>
    ((exertAll springs k (objectsAfter springs friction k j objects)).map
      (fun o => (modelStepObject o friction).force)).sum)).sum

/-! ## Second embedding: binary32 arithmetic

In the definitions above a C `float` is an exact rational number.  The source
computes in IEEE 754 binary32 (`float`) and, for the library functions `fabs`,
`sqrt` and `floor` and for the `double` constant `1.0`, in binary64.  The
definitions of this part repeat the computing functions of `wobbly.c` with
every operation rounded as the hardware rounds it: to the nearest
representable number, ties to the even significand.  A value of type `float`
is still a rational number, namely the one the float denotes; overflow to an
infinity and NaN are outside the model (the exponent range is unbounded above),
gradual underflow is inside it.  The source is taken to be compiled with each
`float` operation rounded once to binary32 (`FLT_EVAL_METHOD` 0, no fused
multiply-add). -/

namespace Binary32

/-! ### Rounding -/

/-- The power `2 ^ k` for an integer exponent. -/
def pow2 (k : Int) : ℚ :=
  if 0 ≤ k then ((2 ^ k.toNat : Nat) : ℚ) else 1 / ((2 ^ (-k).toNat : Nat) : ℚ)

/-- Binary logarithm rounded down, by repeated division; the first argument
bounds the number of divisions. -/
def log2Fuel : Nat → Nat → Nat
  | 0, _ => 0
  | fuel + 1, n =>
    if 2 ^ 64 ≤ n then log2Fuel fuel (n / 2 ^ 64) + 64
    else if 2 ^ 16 ≤ n then log2Fuel fuel (n / 2 ^ 16) + 16
    else if 2 ^ 4 ≤ n then log2Fuel fuel (n / 2 ^ 4) + 4
    else if 2 ≤ n then log2Fuel fuel (n / 2) + 1
    else 0

/-- Binary logarithm of a positive natural number, rounded down. -/
def log2 (n : Nat) : Nat := log2Fuel n n

/-- The exponent `e` with `2 ^ e ≤ |q| < 2 ^ (e + 1)`, for `q ≠ 0`. -/
def floorLog2 (q : ℚ) : Int :=
  let a := log2 q.num.natAbs
  let b := log2 q.den
  if q.den * 2 ^ a ≤ q.num.natAbs * 2 ^ b then (a : Int) - b else (a : Int) - b - 1

/-- Nearest integer, ties to the even one. -/
def roundEven (x : ℚ) : Int :=
  let f := Int.floor x
  if x - f < 1 / 2 then f
  else if 1 / 2 < x - f then f + 1
  else if f % 2 = 0 then f else f + 1

/-- Round to the nearest number with `p` significant bits whose unit in the
last place is at least `2 ^ emin`, ties to even. -/
def roundTo (p : Nat) (emin : Int) (q : ℚ) : ℚ :=
  if q = 0 then 0
  else
    let k := max (floorLog2 q - ((p - 1 : Nat) : Int)) emin
    (roundEven (q / pow2 k) : ℚ) * pow2 k

/-- Rounding of a real value to a C `float` (binary32: 24 significant bits,
smallest subnormal `2 ^ (-149)`). -/
def fl (q : ℚ) : ℚ := roundTo 24 (-149) q

/-- Rounding of a real value to a C `double` (binary64: 53 significant bits,
smallest subnormal `2 ^ (-1074)`). -/
def dbl (q : ℚ) : ℚ := roundTo 53 (-1074) q

/-- C conversion of an `int` to a `float`. -/
def ofInt (n : Int) : ℚ := fl (n : ℚ)

/-- Integer square root, bit by bit: `isqrtBits i n r` decides the bits of the
root below `2 ^ i`, given the bits `r` above. -/
def isqrtBits : Nat → Nat → Nat → Nat
  | 0, _, r => r
  | i + 1, n, r =>
    if (r + 2 ^ i) * (r + 2 ^ i) ≤ n then isqrtBits i n (r + 2 ^ i) else isqrtBits i n r

/-- The square root of a natural number, rounded down. -/
def isqrt (n : Nat) : Nat := isqrtBits (log2 n / 2 + 1) n 0

/-- The C library's `sqrt` on a `double`: the square root rounded to the
nearest `double`, ties to even.  With `k` the exponent of the unit in the last
place of the result and `r = q / 4 ^ k`, the significand is `√r` rounded to an
integer, which is read off `s = ⌊2 √r⌋ = ⌊√(4 r)⌋`.  The square root of a
negative number (NaN in C) is outside the model. -/
def sqrt (q : ℚ) : ℚ :=
  if q ≤ 0 then 0
  else
    let k : Int := max (floorLog2 q / 2 - 52) (-1074)
    let r : ℚ := q / pow2 (2 * k)
    let s : Nat := isqrt (Int.floor (4 * r)).toNat
    let m : Nat :=
      if s % 2 = 0 then s / 2
      else if ((s * s : Nat) : ℚ) = 4 * r then (if (s / 2) % 2 = 0 then s / 2 else s / 2 + 1)
      else s / 2 + 1
    (m : ℚ) * pow2 k

/-! ### The program in binary32 arithmetic

The functions of `wobbly.c` that compute with `float` values, operation by
operation: every C operator on `float` operands is the exact operation
followed by `fl`, an `int` operand of such an operator is first converted by
`ofInt`, and where C computes in `double` (`fabs`, `sqrt`, `floor`, the
constant `1.0`) the operation is followed by `dbl` and the store into a
`float` by `fl`.  The functions that only copy and compare values
(`objectInit`, `springInit`, `modelAddSpring`, `modelCalcBounds`,
`wobbly_done_paint`, `wobbly_ungrab_notify`) are those of the first part. -/

def modelSetMiddleAnchor (model : Model) (x y width height : Int) : Model :=
  let gx : ℚ := fl (ofInt (((GRID_WIDTH - 1) / 2 : Nat) * width) / ofInt ((GRID_WIDTH - 1 : Nat) : Int))
  let gy : ℚ := fl (ofInt (((GRID_HEIGHT - 1) / 2 : Nat) * height) / ofInt ((GRID_HEIGHT - 1 : Nat) : Int))
  let objects0 :=
    match model.anchorObject with
    | some a => modifyObject model.objects a (fun o => { o with immobile := false })
    | none => model.objects
  let mid := GRID_WIDTH * ((GRID_HEIGHT - 1) / 2) + (GRID_WIDTH - 1) / 2
  let objects1 := modifyObject objects0 mid (fun o =>
    { o with position := ⟨fl (ofInt x + gx), fl (ofInt y + gy)⟩ })
  let objects2 := modifyObject objects1 mid (fun o => { o with immobile := true })
  { model with objects := objects2, anchorObject := some mid }

/-- The loop counter `i` of the source equals `gridY * GRID_WIDTH + gridX`. -/
def modelInitObjects (model : Model) (x y width height : Int) : Model :=
  let gw : ℚ := ofInt ((GRID_WIDTH - 1 : Nat) : Int)
  let gh : ℚ := ofInt ((GRID_HEIGHT - 1 : Nat) : Int)
  let objects := (List.range GRID_HEIGHT).foldl (fun objs gridY =>
    (List.range GRID_WIDTH).foldl (fun objs gridX =>
      modifyObject objs (gridY * GRID_WIDTH + gridX) (fun o =>
        objectInit o (fl (ofInt x + fl (ofInt ((gridX : Int) * width) / gw)))
          (fl (ofInt y + fl (ofInt ((gridY : Int) * height) / gh))) 0 0)) objs) model.objects
  modelSetMiddleAnchor { model with objects := objects } x y width height

/-- The loop counter `i` of the source equals `gridY * GRID_WIDTH + gridX`. -/
def modelInitSprings (model : Model) (_x _y width height : Int) : Model :=
  let hpad : ℚ := fl (ofInt width / ofInt ((GRID_WIDTH - 1 : Nat) : Int))
  let vpad : ℚ := fl (ofInt height / ofInt ((GRID_HEIGHT - 1 : Nat) : Int))
  (List.range GRID_HEIGHT).foldl (fun m gridY =>
    (List.range GRID_WIDTH).foldl (fun m gridX =>
      let i := gridY * GRID_WIDTH + gridX
      let m1 := if gridX > 0 then modelAddSpring m (i - 1) i hpad 0 else m
      if gridY > 0 then modelAddSpring m1 (i - GRID_WIDTH) i 0 vpad else m1) m)
    { model with springs := [] }

/-- The two arguments tell whether `malloc (sizeof (Model))` and the `malloc`
of the object array succeed. -/
def createModel (mallocModel mallocObjects : Bool) (x y width height : Int) : Option Model :=
  if !mallocModel then none
  else if !mallocObjects then none
  else
    let model : Model :=
      { objects := List.replicate (GRID_WIDTH * GRID_HEIGHT) Object.blank
        springs := []
        anchorObject := none
        steps := 0
        topLeft := ⟨0, 0⟩
        bottomRight := ⟨0, 0⟩ }
    let model := modelInitObjects model x y width height
    let model := modelInitSprings model x y width height
    some (modelCalcBounds model)

def objectApplyForce (object : Object) (fx fy : ℚ) : Object :=
  { object with force := ⟨fl (object.force.x + fx), fl (object.force.y + fy)⟩ }

def springExertForces (objects : List Object) (spring : Spring) (k : ℚ) : List Object :=
  let a := (getObject objects spring.a).position
  let b := (getObject objects spring.b).position
  let da : Vector :=
    ⟨fl ((1 / 2) * fl (fl (b.x - a.x) - spring.offset.x)),
     fl ((1 / 2) * fl (fl (b.y - a.y) - spring.offset.y))⟩
  let db : Vector :=
    ⟨fl ((1 / 2) * fl (fl (a.x - b.x) + spring.offset.x)),
     fl ((1 / 2) * fl (fl (a.y - b.y) + spring.offset.y))⟩
  let objects1 := modifyObject objects spring.a (fun o =>
    objectApplyForce o (fl (k * da.x)) (fl (k * da.y)))
  modifyObject objects1 spring.b (fun o => objectApplyForce o (fl (k * db.x)) (fl (k * db.y)))

/-- The value stored through `force` and the returned value are sums of two
`fabs` results, which C computes in `double` and then stores in a `float`. -/
def modelStepObject (object : Object) (friction : ℚ) : StepObjectResult :=
  let object := { object with theta := fl (object.theta + fl (1 / 20)) }
  if object.immobile then
    { object := { object with velocity := ⟨0, 0⟩, force := ⟨0, 0⟩ }
      force := 0
      velocity := 0 }
  else
    let force : Vector :=
      ⟨fl (object.force.x - fl (friction * object.velocity.x)),
       fl (object.force.y - fl (friction * object.velocity.y))⟩
    let velocity : Vector :=
      ⟨fl (object.velocity.x + fl (force.x / MASS)), fl (object.velocity.y + fl (force.y / MASS))⟩
    let position : Point :=
      ⟨fl (object.position.x + velocity.x), fl (object.position.y + velocity.y)⟩
    { object := { object with force := ⟨0, 0⟩, velocity := velocity, position := position }
      force := fl (dbl (|force.x| + |force.y|))
      velocity := fl (dbl (|velocity.x| + |velocity.y|)) }

/-- The loop `for (i = 0; i < model->numObjects; i++)` of `modelStep`. -/
def stepObjects (friction : ℚ) : List Object → ℚ → ℚ → StepState
  | [], velocitySum, forceSum =>
    { objects := [], velocitySum := velocitySum, forceSum := forceSum }
  | object :: rest, velocitySum, forceSum =>
    let r := modelStepObject object friction
    let st := stepObjects friction rest (fl (velocitySum + r.velocity)) (fl (forceSum + r.force))
    { st with objects := r.object :: st.objects }

/-- One iteration of the loop `for (j = 0; j < steps; j++)` of `modelStep`. -/
def subStep (springs : List Spring) (friction k : ℚ) (st : StepState) : StepState :=
  let objects := springs.foldl (fun objs spring => springExertForces objs spring k) st.objects
  stepObjects friction objects st.velocitySum st.forceSum

/-- Returns the model after the step and the returned bitmask. -/
def modelStep (model : Model) (friction k time : ℚ) : Model × Nat :=
  let steps0 : ℚ := fl (model.steps + fl (time / 15))
  let steps : Int := Int.floor steps0
  let model := { model with steps := fl (steps0 - ofInt steps) }
  if steps = 0 then (model, 1)
  else
    let st := Nat.iterate (subStep model.springs friction k) steps.toNat
      { objects := model.objects, velocitySum := 0, forceSum := 0 }
    let model := modelCalcBounds { model with objects := st.objects }
    let wobbly : Nat := 0
    let wobbly := if st.velocitySum > 1 / 2 then wobbly ||| WobblyVelocity else wobbly
    let wobbly := if st.forceSum > 20 then wobbly ||| WobblyForce else wobbly
    (model, wobbly)

/-- The four Bernstein coefficients that `bezierPatchEvaluate` computes for a
parameter value. -/
def coeffs (u : ℚ) : List ℚ :=
  [fl (fl (fl (1 - u) * fl (1 - u)) * fl (1 - u)),
   fl (fl (fl (3 * u) * fl (1 - u)) * fl (1 - u)),
   fl (fl (fl (3 * u) * u) * fl (1 - u)),
   fl (fl (u * u) * u)]

def bezierPatchEvaluate (model : Model) (u v : ℚ) : ℚ × ℚ :=
  let coeffsU : List ℚ := coeffs u
  let coeffsV : List ℚ := coeffs v
  (List.range 4).foldl (fun acc i =>
    (List.range 4).foldl (fun acc j =>
      (fl (acc.1 + fl (fl (coeffsU.getD i 0 * coeffsV.getD j 0) *
          (getObject model.objects (j * GRID_WIDTH + i)).position.x)),
       fl (acc.2 + fl (fl (coeffsU.getD i 0 * coeffsV.getD j 0) *
          (getObject model.objects (j * GRID_HEIGHT + i)).position.y)))) acc) (0, 0)

/-- Returns the surface and the returned `int` as a Boolean. -/
def wobblyEnsureModel (mallocModel mallocObjects : Bool) (surface : Surface) : Surface × Bool :=
  match surface.ww.model with
  | some _ => (surface, true)
  | none =>
    match createModel mallocModel mallocObjects surface.x surface.y surface.width surface.height with
    | none => (surface, false)
    | some model => ({ surface with ww := { surface.ww with model := some model } }, true)

/-- The argument of `sqrt` is a `float` expression; `sqrt` itself works on
`double` values and its result is returned as a `float`. -/
def objectDistance (object : Object) (x y : ℚ) : ℚ :=
  let dx := fl (object.position.x - x)
  let dy := fl (object.position.y - y)
  fl (sqrt (fl (fl (dx * dx) + fl (dy * dy))))

/-- One iteration of the loop of `modelFindNearestObject`; the state is
`(object, minDistance)`. -/
def nearestStep (objects : List Object) (x y : ℚ) (acc : Nat × ℚ) (i : Nat) : Nat × ℚ :=
  let distance := objectDistance (getObject objects i) x y
  if i = 0 ∨ distance < acc.2 then (i, distance) else acc

/-- Returns the index of the object the returned pointer points to. -/
def modelFindNearestObject (model : Model) (x y : ℚ) : Nat :=
  ((List.range model.numObjects).foldl (nearestStep model.objects x y) (0, 0)).1

/-- Returns `none` when `ww->model` is dereferenced while null. -/
def wobbly_prepare_paint (surface : Surface) (msSinceLastPaint : Int) : Option Surface :=
  let ww := surface.ww
  let friction := WOBBLY_FRICTION
  let springK := WOBBLY_SPRING_K
  if ww.wobbly ≠ 0 then
    if ww.wobbly &&& (WobblyInitial ||| WobblyVelocity ||| WobblyForce) ≠ 0 then
      match ww.model with
      | none => none
      | some model =>
        let time : ℚ := ofInt (if ww.wobbly &&& WobblyVelocity ≠ 0 then msSinceLastPaint else 16)
        let r := modelStep model friction springK time
        if r.2 ≠ 0 then
          some { surface with
            ww := { ww with model := some (modelCalcBounds r.1), wobbly := r.2 } }
        else
          some { surface with
            ww := { ww with model := some r.1, wobbly := r.2 }
            x := floatToInt r.1.topLeft.x
            y := floatToInt r.1.topLeft.y
            synced := true }
    else some surface
  else some surface

/-- The two Boolean arguments tell whether the `realloc` of `surface->v` and
of `surface->tex.uv` succeed, as in the first part.  The second texture
coordinate is computed in `double` (`1.0 - ...`) and stored as a `float`. -/
def wobbly_add_geometry (reallocV reallocUV : Bool) (surface : Surface) : Option Surface :=
  let ww := surface.ww
  if ww.wobbly ≠ 0 then
    let width : ℚ := ofInt surface.width
    let height : ℚ := ofInt surface.height
    let cell_w : ℚ := fl (width / ofInt surface.x_cells)
    let cell_h : ℚ := fl (height / ofInt surface.y_cells)
    let iw : Int := surface.x_cells + 1
    let ih : Int := surface.y_cells + 1
    if 0 < ih ∧ 0 < iw then
      if !reallocV || !reallocUV then none
      else
        match ww.model with
        | none => none
        | some model =>
          some { surface with
            v := (List.range ih.toNat).flatMap (fun y =>
              (List.range iw.toNat).flatMap (fun x =>
                [(bezierPatchEvaluate model (fl (fl (ofInt x * cell_w) / width))
                    (fl (fl (ofInt y * cell_h) / height))).1,
                 (bezierPatchEvaluate model (fl (fl (ofInt x * cell_w) / width))
                    (fl (fl (ofInt y * cell_h) / height))).2]))
            uv := (List.range ih.toNat).flatMap (fun y =>
              (List.range iw.toNat).flatMap (fun x =>
                [fl (fl (ofInt x * cell_w) / width),
                 fl (dbl (1 - fl (fl (ofInt y * cell_h) / height)))])) }
    else some { surface with v := [], uv := [] }
  else some surface

def wobbly_resize_notify (surface : Surface) : Surface :=
  let ww := surface.ww
  let x := surface.x
  let y := surface.y
  let w := surface.width
  let h := surface.height
  match ww.model with
  | some model =>
    let model1 := if ww.wobbly = 0 then modelInitObjects model x y w h else model
    { surface with ww := { ww with model := some (modelInitSprings model1 x y w h) } }
  | none => surface

/-- Returns `none` when `ww->model` or `anchorObject` is dereferenced while null. -/
def wobbly_move_notify (surface : Surface) (dx dy : Int) : Option Surface :=
  let ww := surface.ww
  if ww.grabbed then
    match ww.model with
    | none => none
    | some model =>
      match model.anchorObject with
      | none => none
      | some a =>
        let objects := modifyObject model.objects a (fun o =>
          { o with position := ⟨fl (o.position.x + ofInt dx), fl (o.position.y + ofInt dy)⟩ })
        some { surface with
          ww := { ww with
            model := some { model with objects := objects }
            wobbly := ww.wobbly ||| WobblyInitial }
          synced := false }
  else some surface

/-- One iteration of the spring loop of `wobbly_grab_notify`. -/
def grabKick (anchor : Nat) (objects : List Object) (s : Spring) : List Object :=
  if s.a = anchor then
    modifyObject objects s.b (fun o =>
      { o with velocity :=
          ⟨fl (o.velocity.x - fl (s.offset.x * fl (1 / 20))),
           fl (o.velocity.y - fl (s.offset.y * fl (1 / 20)))⟩ })
  else if s.b = anchor then
    modifyObject objects s.a (fun o =>
      { o with velocity :=
          ⟨fl (o.velocity.x + fl (s.offset.x * fl (1 / 20))),
           fl (o.velocity.y + fl (s.offset.y * fl (1 / 20)))⟩ })
  else objects

def wobbly_grab_notify (mallocModel mallocObjects : Bool) (surface : Surface) (x y : Int) :
    Surface :=
  let r := wobblyEnsureModel mallocModel mallocObjects surface
  let surface := r.1
  if r.2 then
    match surface.ww.model with
    | none => surface
    | some model =>
      let objects0 :=
        match model.anchorObject with
        | some a => modifyObject model.objects a (fun o => { o with immobile := false })
        | none => model.objects
      let anchor := modelFindNearestObject { model with objects := objects0 } (ofInt x) (ofInt y)
      let objects1 := modifyObject objects0 anchor (fun o => { o with immobile := true })
      let objects2 := model.springs.foldl (grabKick anchor) objects1
      { surface with
        ww := { surface.ww with
          model := some { model with objects := objects2, anchorObject := some anchor }
          grabbed := true
          wobbly := surface.ww.wobbly ||| WobblyInitial } }
  else surface

/-- The first argument tells whether `malloc (sizeof (WobblyWindow))` succeeds,
the next two are those of `createModel`.  Returns `none` when the function
returns `0`. -/
def wobbly_init (mallocWW mallocModel mallocObjects : Bool) (surface : Surface) :
    Option Surface :=
  if !mallocWW then none
  else
    let ww : WobblyWindow := { model := none, wobbly := 0, grabbed := false, state := 0 }
    let r := wobblyEnsureModel mallocModel mallocObjects { surface with ww := ww }
    if !r.2 then none else some r.1

/-! ### Auxiliary definitions used to state the properties in binary32 -/

/-- The mass of grid cell `(gridX, gridY)` as `objectInit` leaves it on the
undeformed lattice of the rectangle, with the given `immobile` flag. -/
def latticeObject (x y width height : Int) (immobile : Bool) (gridX gridY : Nat) : Object :=
  { force := ⟨0, 0⟩
    position :=
      ⟨fl (ofInt x + fl (ofInt ((gridX : Int) * width) / ofInt ((GRID_WIDTH - 1 : Nat) : Int))),
       fl (ofInt y + fl (ofInt ((gridY : Int) * height) / ofInt ((GRID_HEIGHT - 1 : Nat) : Int)))⟩
    velocity := ⟨0, 0⟩
    theta := 0
    immobile := immobile
    vertEdge := ⟨0⟩
    horzEdge := ⟨0⟩ }

/-- The sixteen masses of the undeformed lattice, mass 5 pinned. -/
def lattice (x y width height : Int) : List Object :=
  (List.range 16).map (fun i => latticeObject x y width height (i == 5) (i % 4) (i / 4))

/-- The springs of the grid: for each mass `i` in row-major order, the spring
to its left neighbour (if any), then the spring to its upper neighbour (if any). -/
def gridSprings (width height : Int) : List Spring :=
  (List.range 16).flatMap (fun i =>
    (if i % 4 > 0 then
      [springInit (i - 1) i (fl (ofInt width / ofInt ((GRID_WIDTH - 1 : Nat) : Int))) 0] else []) ++
    (if i / 4 > 0 then
      [springInit (i - GRID_WIDTH) i 0 (fl (ofInt height / ofInt ((GRID_HEIGHT - 1 : Nat) : Int)))]
      else []))

/-- The model that `createModel` builds for a rectangle. -/
def latticeModel (x y width height : Int) : Model :=
  modelCalcBounds
    { objects := lattice x y width height
      springs := gridSprings width height
      anchorObject := some 5
      steps := 0
      topLeft := ⟨0, 0⟩
      bottomRight := ⟨0, 0⟩ }

/-- All the springs exert their forces: the first inner loop of a sub-step. -/
def exertAll (springs : List Spring) (k : ℚ) (objects : List Object) : List Object :=
  springs.foldl (fun objs spring => springExertForces objs spring k) objects

/-- The number of iterations of the sub-step loop of `modelStep` for the given
model and time: the value of its local `steps` (no iteration when negative). -/
def subStepCount (model : Model) (time : ℚ) : Nat :=
  (Int.floor (fl (model.steps + fl (time / 15)))).toNat

/-- The states of a surface that the program can be in, in binary32
arithmetic: after a successful `wobbly_init`, any sequence of grab, move,
resize, ungrab and per-frame tick notifications, between which the owner of
the surface may change every field of it other than `ww`. -/
inductive Reachable : Surface → Prop
  | init (mallocWW mallocModel mallocObjects : Bool) (s0 s : Surface) :
      wobbly_init mallocWW mallocModel mallocObjects s0 = some s → Reachable s
  | grab (mallocModel mallocObjects : Bool) (s : Surface) (x y : Int) :
      Reachable s → Reachable (wobbly_grab_notify mallocModel mallocObjects s x y)
  | move (s s' : Surface) (dx dy : Int) :
      Reachable s → wobbly_move_notify s dx dy = some s' → Reachable s'
  | resize (s : Surface) : Reachable s → Reachable (wobbly_resize_notify s)
  | ungrab (s : Surface) : Reachable s → Reachable (wobbly_ungrab_notify s)
  | tick (s s' : Surface) (ms : Int) :
      Reachable s → wobbly_prepare_paint s ms = some s' → Reachable s'
  | owner (s t : Surface) : Reachable s → Reachable { t with ww := s.ww }

/-- `n` consecutive calls of `wobbly_move_notify` with the same `(dx, dy)`. -/
def moveTimes (dx dy : Int) : Nat → Surface → Option Surface
  | 0, s => some s
  | n + 1, s => (wobbly_move_notify s dx dy).bind (moveTimes dx dy n)

/-- The scenario's surface after a successful `wobbly_init`. -/
def initSurface : Surface :=
  (wobbly_init true true true scenarioSurface).getD scenarioSurface

/-- The scenario's surface after `wobbly_init` and a grab at `(200, 100)`. -/
def grabbedSurface : Surface :=
  wobbly_grab_notify true true initSurface 200 100

/-- What the notifications need of a surface: a model of sixteen masses and,
while the window is grabbed, an anchor among them. -/
def Grabbable (s : Surface) : Prop :=
  ∃ m, s.ww.model = some m ∧ m.objects.length = 16 ∧
    (s.ww.grabbed = true → ∃ a, m.anchorObject = some a ∧ a < 16)

/-- The model after a sequence of `modelStep` calls with the given times. -/
def stepTimes (friction k : ℚ) : List ℚ → Model → Model
  | [], m => m
  | t :: ts, m => stepTimes friction k ts (modelStep m friction k t).1

/-- The total number of sub-steps run by a sequence of `modelStep` calls. -/
def totalSubSteps (friction k : ℚ) : List ℚ → Model → Nat
  | [], _ => 0
  | t :: ts, m => subStepCount m t + totalSubSteps friction k ts (modelStep m friction k t).1

/-- The velocity magnitude of a mass as a sub-step records it, read from the
mass after the step: `fabs (vx) + fabs (vy)`, added in `double` and stored in
a `float`. -/
def velocityMagnitude (o : Object) : ℚ := fl (dbl (|o.velocity.x| + |o.velocity.y|))

/-- The force magnitude that a sub-step records for a mass, read from the mass
once the springs have exerted their forces: nothing for the immobile anchor,
and for every other mass `fabs (fx) + fabs (fy)` of the accumulated force less
the friction `friction * velocity`, the force just before it is cleared. -/
def forceMagnitude (friction : ℚ) (o : Object) : ℚ :=
  if o.immobile then 0
  else
    fl (dbl (|fl (o.force.x - fl (friction * o.velocity.x))|
      + |fl (o.force.y - fl (friction * o.velocity.y))|))

/-- The magnitude `|fx| + |fy|` of the force of a mass just before a sub-step
clears it, for every mass: for the immobile anchor it is the force that the
springs have accumulated on it. -/
def preClearForce (friction : ℚ) (o : Object) : ℚ :=
  if o.immobile then |o.force.x| + |o.force.y|
  else
    |fl (o.force.x - fl (friction * o.velocity.x))|
      + |fl (o.force.y - fl (friction * o.velocity.y))|

/-- A `float` sum accumulated term by term: `acc += x` for each `x` in order. -/
def accumulate (acc : ℚ) (xs : List ℚ) : ℚ := xs.foldl (fun a x => fl (a + x)) acc

/-- The masses after `n` sub-steps of `modelStep`. -/
def objectsAfter (springs : List Spring) (friction k : ℚ) (n : Nat) (objects : List Object) :
    List Object :=
  (Nat.iterate (subStep springs friction k) n
    { objects := objects, velocitySum := 0, forceSum := 0 }).objects

/-- The `float` sum, accumulated sub-step by sub-step and mass by mass in index
order, of the velocity magnitude of each mass after each of the first `n`
sub-steps. -/
def velocitySumOver (springs : List Spring) (friction k : ℚ) (n : Nat) (objects : List Object) :
    ℚ :=
  (List.range n).foldl (fun acc j =>
    accumulate acc ((objectsAfter springs friction k (j + 1) objects).map velocityMagnitude)) 0

/-- The `float` sum, accumulated sub-step by sub-step and mass by mass in index
order, of the force magnitude of each mass in each of the first `n` sub-steps. -/
def forceSumOver (springs : List Spring) (friction k : ℚ) (n : Nat) (objects : List Object) :
    ℚ :=
  (List.range n).foldl (fun acc j =>
    accumulate acc ((exertAll springs k (objectsAfter springs friction k j objects)).map
      (forceMagnitude friction))) 0

/-- The force that `springExertForces` applies to the first end of a spring,
`k * da` with every operation rounded; the second end receives its
negation. -/
def springPull (objects : List Object) (spring : Spring) (k : ℚ) : Vector :=
  let a := (getObject objects spring.a).position
  let b := (getObject objects spring.b).position
  ⟨fl (k * fl ((1 / 2) * fl (fl (b.x - a.x) - spring.offset.x))),
   fl (k * fl ((1 / 2) * fl (fl (b.y - a.y) - spring.offset.y)))⟩

/-- A bound for the rounding error that one sub-step makes in each component
of the sum of the velocities: `n` masses with velocity components of
magnitude at most `V`, `N` springs each pulling with at most `2^g` along each
axis. -/
def velocityErrorBound (n N : Nat) (g : Int) (V : ℚ) : ℚ :=
  n * (pow2 (-24) * (6 * V + N * pow2 g / 10) + 3 * pow2 (-150))
    + N * (pow2 (-24) * (N * pow2 g) + pow2 (-150)) / 25

/-! ### Concrete states in binary32 -/

/-- The model of `grabbedSurface`. -/
def grabbedModel : Model :=
  grabbedSurface.ww.model.getD (latticeModel 0 0 400 200)

/-- The scenario's surface after `wobbly_init`, the grab at `(200, 100)` and
five moves by `(+50, 0)`. -/
def movedSurface : Surface :=
  (moveTimes 50 0 5 grabbedSurface).getD grabbedSurface

/-- The model of `movedSurface`. -/
def movedModel : Model :=
  movedSurface.ww.model.getD (latticeModel 0 0 400 200)

/-- The scenario's surface after `wobbly_init` and a grab at `(1, 1)`, which
makes the corner mass 0 the anchor. -/
def cornerSurface : Surface :=
  wobbly_grab_notify true true initSurface 1 1

/-- The scenario's surface after `wobbly_init`, a grab at `(1, 1)` and a move
by `(500, 300)`. -/
def draggedSurface : Surface :=
  (wobbly_move_notify cornerSurface 500 300).getD cornerSurface

/-- The model of `draggedSurface`. -/
def draggedModel : Model :=
  draggedSurface.ww.model.getD (latticeModel 0 0 400 200)

/-- The scenario's surface after `wobbly_init`, a grab at `(1, 1)`, whose
velocity kick sets the neighbours 1 and 4 of the anchor in motion, and an
ungrab. -/
def kickedSurface : Surface :=
  wobbly_ungrab_notify cornerSurface

/-- The model of `kickedSurface`. -/
def kickedModel : Model :=
  kickedSurface.ww.model.getD (latticeModel 0 0 400 200)

/-- The scenario's surface after `wobbly_init`, a grab at `(267, 0)` (nearest
mass: mass 2) and a move by `(100, 30)`. -/
def pulledSurface : Surface :=
  (wobbly_move_notify (wobbly_grab_notify true true initSurface 267 0) 100 30).getD initSurface

/-- The model of `pulledSurface`. -/
def pulledModel : Model :=
  pulledSurface.ww.model.getD (latticeModel 0 0 400 200)

/-- The small surface `(0, 0, 10, 10)` after a successful `wobbly_init`. -/
def smallInit : Surface :=
  (wobbly_init true true true smallSurface).getD smallSurface

/-- The small surface after `wobbly_init`, a grab at `(3, 3)`, which keeps the
middle mass 5 as the anchor, and a move by `(1, 0)`. -/
def smallMoved : Surface :=
  (wobbly_move_notify (wobbly_grab_notify true true smallInit 3 3) 1 0).getD smallInit

/-- The model of `smallMoved`. -/
def smallMovedModel : Model :=
  smallMoved.ww.model.getD (latticeModel 0 0 10 10)

/-- A model for the scan of `modelFindNearestObject`: the lattice of the
rectangle `(1000, 1000, 400, 200)` with mass 0 moved to `(1, 1/8192)` and
mass 1 moved to `(1, 0)`. -/
def tieModel : Model :=
  { latticeModel 1000 1000 400 200 with
    objects := modifyObject
      (modifyObject (lattice 1000 1000 400 200) 0 (fun o => { o with position := ⟨1, 1 / 8192⟩ }))
      1 (fun o => { o with position := ⟨1, 0⟩ }) }

end Binary32

/-! # Theorems -/

/-! ## Lists of objects -/

theorem range4 : List.range 4 = [0, 1, 2, 3] := by decide

theorem list_length_16 {α : Type} (l : List α) (h : l.length = 16) :
    ∃ a0 a1 a2 a3 a4 a5 a6 a7 a8 a9 a10 a11 a12 a13 a14 a15,
      l = [a0, a1, a2, a3, a4, a5, a6, a7, a8, a9, a10, a11, a12, a13, a14, a15] := by
  rcases l with _ | ⟨a0, _ | ⟨a1, _ | ⟨a2, _ | ⟨a3, _ | ⟨a4, _ | ⟨a5, _ | ⟨a6, _ | ⟨a7,
    _ | ⟨a8, _ | ⟨a9, _ | ⟨a10, _ | ⟨a11, _ | ⟨a12, _ | ⟨a13, _ | ⟨a14, _ | ⟨a15,
    _ | ⟨a16, l⟩⟩⟩⟩⟩⟩⟩⟩⟩⟩⟩⟩⟩⟩⟩⟩⟩ <;>
    simp at h
  exact ⟨a0, a1, a2, a3, a4, a5, a6, a7, a8, a9, a10, a11, a12, a13, a14, a15, rfl⟩

theorem length_modifyObject (l : List Object) (i : Nat) (f : Object → Object) :
    (modifyObject l i f).length = l.length := by
  simp [modifyObject]

theorem getObject_of_le (l : List Object) (i : Nat) (h : l.length ≤ i) :
    getObject l i = Object.blank := by
  simp [getObject, List.getD_eq_getElem?_getD, List.getElem?_eq_none h]

theorem getObject_modifyObject (l : List Object) (i j : Nat) (f : Object → Object) :
    getObject (modifyObject l i f) j
      = if i = j ∧ i < l.length then f (getObject l i) else getObject l j := by
  unfold modifyObject getObject
  simp only [List.getD_eq_getElem?_getD, List.getElem?_set]
  by_cases hij : i = j
  · subst hij
    by_cases hi : i < l.length
    · simp [hi]
    · simp [hi, List.getElem?_eq_none (Nat.le_of_not_lt hi)]
  · simp [hij]

theorem modifyObject_eq_self (l : List Object) (i : Nat) (f : Object → Object)
    (h : f (getObject l i) = getObject l i) : modifyObject l i f = l := by
  unfold modifyObject
  rw [h]
  unfold getObject
  apply List.ext_getElem?
  intro n
  rw [List.getElem?_set]
  by_cases hin : i = n
  · subst hin
    by_cases hi : i < l.length
    · simp [hi, List.getD_eq_getElem?_getD]
    · simp [hi, List.getElem?_eq_none (Nat.le_of_not_lt hi)]
  · simp [hin]

/-! ## The undeformed lattice -/

theorem lattice_length (x y w h : Int) : (lattice x y w h).length = 16 := by
  simp [lattice]

theorem initLoop_eq (os : List Object) (x y w h : Int) (hl : os.length = 16) :
    (List.range GRID_HEIGHT).foldl (fun objs gridY =>
    (List.range GRID_WIDTH).foldl (fun objs gridX =>
      modifyObject objs (gridY * GRID_WIDTH + gridX) (fun o =>
        objectInit o (x + (((gridX : Int) * w : Int) : ℚ) / ((GRID_WIDTH - 1 : Nat) : ℚ))
          (y + (((gridY : Int) * h : Int) : ℚ) / ((GRID_HEIGHT - 1 : Nat) : ℚ)) 0 0)) objs) os
    = (List.range 16).map (fun i => latticeObject x y w h false (i % 4) (i / 4)) := by
  obtain ⟨a0, a1, a2, a3, a4, a5, a6, a7, a8, a9, a10, a11, a12, a13, a14, a15, rfl⟩ :=
    list_length_16 os hl
  rfl

theorem getObject_unpinned_immobile (x y w h : Int) (a : Nat) :
    (getObject ((List.range 16).map (fun i => latticeObject x y w h false (i % 4) (i / 4))) a).immobile
      = false := by
  by_cases ha : a < 16
  · simp [getObject, List.getD_eq_getElem?_getD, List.getElem?_map, List.getElem?_range ha,
      latticeObject]
  · rw [getObject_of_le _ _ (by simpa using ha)]
    rfl

theorem modelInitObjects_eq (m : Model) (x y w h : Int) (hl : m.objects.length = 16) :
    modelInitObjects m x y w h
      = { m with objects := lattice x y w h, anchorObject := some 5 } := by
  unfold modelInitObjects
  simp only [initLoop_eq m.objects x y w h hl]
  unfold modelSetMiddleAnchor
  have hclear : (match m.anchorObject with
      | some a => modifyObject ((List.range 16).map
          (fun i => latticeObject x y w h false (i % 4) (i / 4))) a
            (fun o => { o with immobile := false })
      | none => (List.range 16).map (fun i => latticeObject x y w h false (i % 4) (i / 4)))
      = (List.range 16).map (fun i => latticeObject x y w h false (i % 4) (i / 4)) := by
    cases m.anchorObject with
    | none => rfl
    | some a =>
      apply modifyObject_eq_self
      have := getObject_unpinned_immobile x y w h a
      cases hg : getObject ((List.range 16).map
          (fun i => latticeObject x y w h false (i % 4) (i / 4))) a
      simp_all
  simp only [hclear]
  rfl

theorem range16 : List.range 16 = [0, 1, 2, 3, 4, 5, 6, 7, 8, 9, 10, 11, 12, 13, 14, 15] := by
  decide

theorem modelInitSprings_eq (m : Model) (x y w h : Int) :
    modelInitSprings m x y w h = { m with springs := gridSprings w h } := by
  simp [modelInitSprings, modelAddSpring, gridSprings, range4, range16, GRID_WIDTH, GRID_HEIGHT]

theorem foldl_boundsStep (objs : List Object) (b : Point × Point) :
    objs.foldl boundsStep b
      = (⟨((objs.map (fun o => o.position.x)).foldl boundsAxis (b.1.x, b.2.x)).1,
          ((objs.map (fun o => o.position.y)).foldl boundsAxis (b.1.y, b.2.y)).1⟩,
         ⟨((objs.map (fun o => o.position.x)).foldl boundsAxis (b.1.x, b.2.x)).2,
          ((objs.map (fun o => o.position.y)).foldl boundsAxis (b.1.y, b.2.y)).2⟩) := by
  induction objs generalizing b with
  | nil => rfl
  | cons o rest ih =>
    simp only [List.foldl_cons, List.map_cons]
    rw [ih]
    rfl

theorem boundsAxis_of_le (lo hi p : ℚ) (h : lo ≤ p) : boundsAxis (lo, hi) p = (lo, max hi p) := by
  unfold boundsAxis
  simp only [not_lt.mpr h, if_false]
  by_cases hp : p > hi
  · simp [hp, max_eq_right (le_of_lt hp)]
  · simp [hp, max_eq_left (not_lt.mp hp)]

theorem foldl_boundsAxis_of_le (ps : List ℚ) (lo hi : ℚ) (h : ∀ p ∈ ps, lo ≤ p) :
    ps.foldl boundsAxis (lo, hi) = (lo, ps.foldl max hi) := by
  induction ps generalizing hi with
  | nil => rfl
  | cons p rest ih =>
    simp only [List.foldl_cons]
    rw [boundsAxis_of_le lo hi p (h p (List.mem_cons_self _ _))]
    exact ih _ (fun q hq => h q (List.mem_cons_of_mem _ hq))

theorem foldl_max_le (ps : List ℚ) (hi top : ℚ) (hhi : hi ≤ top) (h : ∀ p ∈ ps, p ≤ top) :
    ps.foldl max hi ≤ top := by
  induction ps generalizing hi with
  | nil => exact hhi
  | cons p rest ih =>
    simp only [List.foldl_cons]
    exact ih _ (max_le hhi (h p (List.mem_cons_self _ _)))
      (fun q hq => h q (List.mem_cons_of_mem _ hq))

theorem le_foldl_max (ps : List ℚ) (hi : ℚ) : hi ≤ ps.foldl max hi := by
  induction ps generalizing hi with
  | nil => exact le_refl _
  | cons p rest ih =>
    simp only [List.foldl_cons]
    exact le_trans (le_max_left _ _) (ih _)

theorem mem_le_foldl_max (ps : List ℚ) (hi p : ℚ) (hp : p ∈ ps) : p ≤ ps.foldl max hi := by
  induction ps generalizing hi with
  | nil => cases hp
  | cons q rest ih =>
    simp only [List.foldl_cons]
    rcases List.mem_cons.mp hp with h | h
    · subst h
      exact le_trans (le_max_right _ _) (le_foldl_max _ _)
    · exact ih _ h

theorem foldl_max_eq (ps : List ℚ) (hi top : ℚ) (hmem : top ∈ ps) (h : ∀ p ∈ ps, p ≤ top) :
    ps.foldl max hi = max hi top := by
  apply le_antisymm
  · exact foldl_max_le ps hi _ (le_max_left _ _) (fun p hp => le_trans (h p hp) (le_max_right _ _))
  · exact max_le (le_foldl_max _ _) (mem_le_foldl_max _ _ _ hmem)

/-- The scan of `modelCalcBounds` on one axis, over positions that start at
`p0` and never go below it, reach `top` and never exceed it. -/
theorem foldl_boundsAxis_from_sentinels (p0 top : ℚ) (rest : List ℚ)
    (hlow : ∀ p ∈ rest, p0 ≤ p) (hmem : top ∈ rest) (htop : ∀ p ∈ rest, p ≤ top) :
    (p0 :: rest).foldl boundsAxis (MAXSHORT, MINSHORT) = (min p0 MAXSHORT, max top MINSHORT) := by
  have h0top : p0 ≤ top := hlow top hmem
  by_cases h0 : p0 < MAXSHORT
  · have h1 : boundsAxis (MAXSHORT, MINSHORT) p0 = (p0, MINSHORT) := by
      simp [boundsAxis, h0]
    simp only [List.foldl_cons, h1]
    rw [foldl_boundsAxis_of_le rest p0 MINSHORT hlow, foldl_max_eq rest MINSHORT top hmem htop,
      min_eq_left (le_of_lt h0), max_comm]
  · have h0 : MAXSHORT ≤ p0 := not_lt.mp h0
    rw [foldl_boundsAxis_of_le (p0 :: rest) MAXSHORT MINSHORT]
    · rw [foldl_max_eq (p0 :: rest) MINSHORT top (List.mem_cons_of_mem _ hmem), min_eq_right h0,
        max_comm]
      intro p hp
      rcases List.mem_cons.mp hp with h | h
      · rw [h]; exact h0top
      · exact htop p h
    · intro p hp
      rcases List.mem_cons.mp hp with h | h
      · rw [h]; exact h0
      · exact le_trans h0 (hlow p h)

theorem createModel_eq (x y w h : Int) :
    createModel true true x y w h
      = some (modelCalcBounds
          { objects := lattice x y w h
            springs := gridSprings w h
            anchorObject := some 5
            steps := 0
            topLeft := ⟨0, 0⟩
            bottomRight := ⟨0, 0⟩ }) := by
  unfold createModel
  simp only [Bool.not_true, Bool.false_eq_true, if_false]
  rw [modelInitObjects_eq _ _ _ _ _ (by simp [GRID_WIDTH, GRID_HEIGHT]), modelInitSprings_eq]

/-! ## C2: corners of the Bezier patch -/

/-- C2: for every model, `bezierPatchEvaluate` at `(u, v) = (0, 0)`, `(1, 0)`,
`(0, 1)` and `(1, 1)` returns exactly the positions of masses 0, 3, 12 and 15. -/
theorem bezierPatchEvaluate_corners (model : Model) :
    bezierPatchEvaluate model 0 0
      = ((getObject model.objects 0).position.x, (getObject model.objects 0).position.y) ∧
    bezierPatchEvaluate model 1 0
      = ((getObject model.objects 3).position.x, (getObject model.objects 3).position.y) ∧
    bezierPatchEvaluate model 0 1
      = ((getObject model.objects 12).position.x, (getObject model.objects 12).position.y) ∧
    bezierPatchEvaluate model 1 1
      = ((getObject model.objects 15).position.x, (getObject model.objects 15).position.y) := by
  refine ⟨?_, ?_, ?_, ?_⟩ <;>
    simp [bezierPatchEvaluate, range4, GRID_WIDTH, GRID_HEIGHT]

/-! ## The `immobile` flags are only changed by the anchor operations -/

theorem getObject_immobile (l : List Object) (i : Nat) :
    (getObject l i).immobile = (immobileFlags l).getD i false := by
  unfold getObject immobileFlags
  simp only [List.getD_eq_getElem?_getD, List.getElem?_map]
  cases l[i]? <;> rfl

theorem immobileFlags_length (l : List Object) : (immobileFlags l).length = l.length := by
  simp [immobileFlags]

theorem immobileFlags_modifyObject (l : List Object) (i : Nat) (f : Object → Object)
    (hf : ∀ o, (f o).immobile = o.immobile) :
    immobileFlags (modifyObject l i f) = immobileFlags l := by
  unfold immobileFlags modifyObject getObject
  apply List.ext_getElem?
  intro n
  simp only [List.getElem?_map, List.getElem?_set, List.getD_eq_getElem?_getD]
  by_cases hin : i = n
  · subst hin
    by_cases hi : i < l.length
    · simp [hi, hf]
    · simp [hi, List.getElem?_eq_none (Nat.le_of_not_lt hi)]
  · simp [hin]

theorem immobileFlags_springExertForces (l : List Object) (sp : Spring) (k : ℚ) :
    immobileFlags (springExertForces l sp k) = immobileFlags l := by
  unfold springExertForces
  simp only
  rw [immobileFlags_modifyObject, immobileFlags_modifyObject]
  · intro o; rfl
  · intro o; rfl

theorem immobileFlags_foldl_springs (sps : List Spring) (l : List Object) (k : ℚ) :
    immobileFlags (sps.foldl (fun objs spring => springExertForces objs spring k) l)
      = immobileFlags l := by
  induction sps generalizing l with
  | nil => rfl
  | cons sp rest ih =>
    simp only [List.foldl_cons]
    rw [ih, immobileFlags_springExertForces]

theorem modelStepObject_immobile (o : Object) (friction : ℚ) :
    (modelStepObject o friction).object.immobile = o.immobile := by
  unfold modelStepObject
  simp only
  split_ifs <;> rfl

theorem immobileFlags_stepObjects (friction : ℚ) (l : List Object) (vs fs : ℚ) :
    immobileFlags (stepObjects friction l vs fs).objects = immobileFlags l := by
  induction l generalizing vs fs with
  | nil => rfl
  | cons o rest ih =>
    simp only [stepObjects, immobileFlags, List.map_cons, modelStepObject_immobile]
    congr 1
    exact ih _ _

theorem immobileFlags_subStep (sps : List Spring) (friction k : ℚ) (st : StepState) :
    immobileFlags (subStep sps friction k st).objects = immobileFlags st.objects := by
  unfold subStep
  simp only
  rw [immobileFlags_stepObjects, immobileFlags_foldl_springs]

theorem immobileFlags_iterate_subStep (sps : List Spring) (friction k : ℚ) (n : Nat)
    (st : StepState) :
    immobileFlags (Nat.iterate (subStep sps friction k) n st).objects
      = immobileFlags st.objects := by
  induction n generalizing st with
  | zero => rfl
  | succ n ih =>
    rw [Function.iterate_succ_apply, ih, immobileFlags_subStep]

/-! ## What `modelCalcBounds` and `modelStep` leave alone -/

theorem modelCalcBounds_objects (m : Model) : (modelCalcBounds m).objects = m.objects := rfl

theorem modelCalcBounds_anchorObject (m : Model) :
    (modelCalcBounds m).anchorObject = m.anchorObject := rfl

theorem modelStep_fst (m : Model) (friction k time : ℚ) :
    (modelStep m friction k time).1
      = if Int.floor (m.steps + time / 15) = 0 then
          { m with steps := m.steps + time / 15 - Int.floor (m.steps + time / 15) }
        else
          modelCalcBounds
            { m with
              steps := m.steps + time / 15 - Int.floor (m.steps + time / 15)
              objects := (Nat.iterate (subStep m.springs friction k)
                (Int.floor (m.steps + time / 15)).toNat
                { objects := m.objects, velocitySum := 0, forceSum := 0 }).objects } := by
  unfold modelStep
  simp only
  split_ifs <;> rfl

theorem modelStep_steps (m : Model) (friction k time : ℚ) :
    (modelStep m friction k time).1.steps = Int.fract (m.steps + time / 15) := by
  rw [modelStep_fst]
  split_ifs <;> rfl

theorem modelStep_springs (m : Model) (friction k time : ℚ) :
    (modelStep m friction k time).1.springs = m.springs := by
  rw [modelStep_fst]
  split_ifs <;> rfl

theorem modelStep_anchorObject (m : Model) (friction k time : ℚ) :
    (modelStep m friction k time).1.anchorObject = m.anchorObject := by
  rw [modelStep_fst]
  split_ifs <;> rfl

theorem modelStep_immobileFlags (m : Model) (friction k time : ℚ) :
    immobileFlags (modelStep m friction k time).1.objects = immobileFlags m.objects := by
  rw [modelStep_fst]
  split_ifs
  · rfl
  · simp only [modelCalcBounds_objects]
    rw [immobileFlags_iterate_subStep]

theorem modelInv_of_frame (m m' : Model) (hm : ModelInv m)
    (hflags : immobileFlags m'.objects = immobileFlags m.objects)
    (hanchor : m'.anchorObject = m.anchorObject)
    (hsteps : 0 ≤ m'.steps ∧ m'.steps < 1)
    (hsprings : ∃ w h : Int, m'.springs = gridSprings w h) : ModelInv m' := by
  refine ⟨?_, ?_, hsteps, hsprings⟩
  · have := congrArg List.length hflags
    rw [immobileFlags_length, immobileFlags_length] at this
    rw [this, hm.length]
  · intro i
    rw [getObject_immobile, hflags, ← getObject_immobile, hanchor]
    exact hm.anchor i

theorem modelInv_modelCalcBounds (m : Model) (hm : ModelInv m) : ModelInv (modelCalcBounds m) :=
  modelInv_of_frame m _ hm rfl rfl hm.steps hm.springs

theorem modelInv_modelStep (m : Model) (friction k time : ℚ) (hm : ModelInv m) :
    ModelInv (modelStep m friction k time).1 := by
  apply modelInv_of_frame m _ hm (modelStep_immobileFlags _ _ _ _) (modelStep_anchorObject _ _ _ _)
  · rw [modelStep_steps]
    exact ⟨Int.fract_nonneg _, Int.fract_lt_one _⟩
  · rw [modelStep_springs]
    exact hm.springs

/-! ## The nearest-object scan -/

theorem nearest_fold_spec (sqrt : ℚ → ℚ) (objs : List Object) (x y : ℚ) (n : Nat) :
    ((List.range (n + 1)).foldl (nearestStep sqrt objs x y) (0, 0)).1 < n + 1 ∧
    ((List.range (n + 1)).foldl (nearestStep sqrt objs x y) (0, 0)).2
      = objectDistance sqrt (getObject objs
          ((List.range (n + 1)).foldl (nearestStep sqrt objs x y) (0, 0)).1) x y ∧
    (∀ j, j < n + 1 →
      ((List.range (n + 1)).foldl (nearestStep sqrt objs x y) (0, 0)).2
        ≤ objectDistance sqrt (getObject objs j) x y) ∧
    (∀ j, j < ((List.range (n + 1)).foldl (nearestStep sqrt objs x y) (0, 0)).1 →
      ((List.range (n + 1)).foldl (nearestStep sqrt objs x y) (0, 0)).2
        < objectDistance sqrt (getObject objs j) x y) := by
  induction n with
  | zero =>
    have h0 : (List.range (0 + 1)).foldl (nearestStep sqrt objs x y) (0, 0)
        = (0, objectDistance sqrt (getObject objs 0) x y) := by
      simp [List.range_succ, nearestStep]
    rw [h0]
    refine ⟨Nat.zero_lt_one, rfl, ?_, ?_⟩
    · intro j hj
      have : j = 0 := by omega
      subst this
      exact le_refl _
    · intro j hj
      exact absurd hj (Nat.not_lt_zero _)
  | succ n ih =>
    obtain ⟨h1, h2, h3, h4⟩ := ih
    rw [List.range_succ, List.foldl_append, List.foldl_cons, List.foldl_nil]
    generalize (List.range (n + 1)).foldl (nearestStep sqrt objs x y) (0, 0) = r at h1 h2 h3 h4
    unfold nearestStep
    simp only [Nat.add_one_ne_zero, false_or]
    by_cases hlt : objectDistance sqrt (getObject objs (n + 1)) x y < r.2
    · rw [if_pos hlt]
      refine ⟨Nat.lt_succ_self _, rfl, ?_, ?_⟩
      · intro j hj
        rcases Nat.lt_succ_iff_lt_or_eq.mp hj with h | h
        · exact le_trans (le_of_lt hlt) (h3 j h)
        · rw [h]
      · intro j hj
        exact lt_of_lt_of_le hlt (h3 j hj)
    · rw [if_neg hlt]
      refine ⟨Nat.lt_succ_of_lt h1, h2, ?_, h4⟩
      intro j hj
      rcases Nat.lt_succ_iff_lt_or_eq.mp hj with h | h
      · exact h3 j h
      · rw [h]
        exact not_lt.mp hlt

theorem modelFindNearestObject_lt (sqrt : ℚ → ℚ) (m : Model) (x y : ℚ)
    (hl : m.objects.length = 16) : modelFindNearestObject sqrt m x y < 16 := by
  unfold modelFindNearestObject Model.numObjects
  rw [hl]
  exact (nearest_fold_spec sqrt m.objects x y 15).1

/-! ## Releasing the anchor -/

theorem releaseAnchor_length (m : Model) : (releaseAnchor m).length = m.objects.length := by
  unfold releaseAnchor
  cases m.anchorObject <;> simp [length_modifyObject]

theorem releaseAnchor_immobile (m : Model) (hm : ModelInv m) (i : Nat) :
    (getObject (releaseAnchor m) i).immobile = false := by
  unfold releaseAnchor
  cases ha : m.anchorObject with
  | none =>
    have := hm.anchor i
    rw [ha] at this
    simp only [reduceCtorEq, iff_false] at this
    simpa using this
  | some a =>
    simp only
    rw [getObject_modifyObject]
    split_ifs with h
    · rfl
    · have := hm.anchor i
      rw [ha] at this
      by_cases hai : a = i
      · subst hai
        have hlen : m.objects.length ≤ a := by
          by_contra hc
          exact h ⟨rfl, Nat.lt_of_not_le hc⟩
        rw [getObject_of_le _ _ hlen]
        rfl
      · have hne : ¬ (getObject m.objects i).immobile = true := by
          intro hc
          exact hai (Option.some.inj (this.mp hc))
        simpa using hne

theorem getObject_lattice_immobile (x y w h : Int) (i : Nat) :
    (getObject (lattice x y w h) i).immobile = (i == 5) := by
  by_cases hi : i < 16
  · simp [getObject, lattice, List.getD_eq_getElem?_getD, List.getElem?_map,
      List.getElem?_range hi, latticeObject]
  · rw [getObject_of_le _ _ (by rw [lattice_length]; omega)]
    have : i ≠ 5 := by omega
    simp [Object.blank, this]

theorem immobileFlags_grabKick (anchor : Nat) (l : List Object) (s : Spring) :
    immobileFlags (grabKick anchor l s) = immobileFlags l := by
  unfold grabKick
  split_ifs
  · apply immobileFlags_modifyObject
    intro o
    rfl
  · apply immobileFlags_modifyObject
    intro o
    rfl
  · rfl

theorem immobileFlags_foldl_grabKick (anchor : Nat) (sps : List Spring) (l : List Object) :
    immobileFlags (sps.foldl (grabKick anchor) l) = immobileFlags l := by
  induction sps generalizing l with
  | nil => rfl
  | cons sp rest ih =>
    simp only [List.foldl_cons]
    rw [ih, immobileFlags_grabKick]

/-! ## The notifications on a surface that has a model -/

theorem wobbly_grab_notify_eq (sqrt : ℚ → ℚ) (a b : Bool) (s : Surface) (x y : Int) (m : Model)
    (hm : s.ww.model = some m) :
    wobbly_grab_notify sqrt a b s x y
      = { s with
          ww := { s.ww with
            model := some { m with
              objects := m.springs.foldl
                (grabKick (modelFindNearestObject sqrt { m with objects := releaseAnchor m } x y))
                (modifyObject (releaseAnchor m)
                  (modelFindNearestObject sqrt { m with objects := releaseAnchor m } x y)
                  (fun o => { o with immobile := true }))
              anchorObject :=
                some (modelFindNearestObject sqrt { m with objects := releaseAnchor m } x y) }
            grabbed := true
            wobbly := s.ww.wobbly ||| WobblyInitial } } := by
  unfold wobbly_grab_notify wobblyEnsureModel
  simp only [hm, if_true]
  rfl

theorem wobbly_ungrab_notify_eq (s : Surface) (m : Model) (hm : s.ww.model = some m)
    (hg : s.ww.grabbed = true) :
    wobbly_ungrab_notify s
      = { s with
          ww := { s.ww with
            model := some { m with objects := releaseAnchor m, anchorObject := none }
            wobbly := s.ww.wobbly ||| WobblyInitial
            grabbed := false } } := by
  unfold wobbly_ungrab_notify
  simp only [hm, hg, if_true]
  rfl

theorem wobbly_ungrab_notify_not_grabbed (s : Surface) (hg : s.ww.grabbed = false) :
    wobbly_ungrab_notify s = s := by
  unfold wobbly_ungrab_notify
  simp [hg]

theorem wobbly_move_notify_not_grabbed (s : Surface) (dx dy : Int) (hg : s.ww.grabbed = false) :
    wobbly_move_notify s dx dy = some s := by
  unfold wobbly_move_notify
  simp [hg]

theorem wobbly_move_notify_eq (s : Surface) (dx dy : Int) (m : Model) (a : Nat)
    (hm : s.ww.model = some m) (ha : m.anchorObject = some a) (hg : s.ww.grabbed = true) :
    wobbly_move_notify s dx dy
      = some { s with
          ww := { s.ww with
            model := some { m with
              objects := modifyObject m.objects a (fun o =>
                { o with position := ⟨o.position.x + dx, o.position.y + dy⟩ }) }
            wobbly := s.ww.wobbly ||| WobblyInitial }
          synced := false } := by
  unfold wobbly_move_notify
  simp only [hm, ha, hg, if_true]

theorem wobbly_resize_notify_idle (s : Surface) (m : Model) (hm : s.ww.model = some m)
    (hl : m.objects.length = 16) (hw : s.ww.wobbly = 0) :
    wobbly_resize_notify s
      = { s with
          ww := { s.ww with
            model := some { m with
              objects := lattice s.x s.y s.width s.height
              anchorObject := some 5
              springs := gridSprings s.width s.height } } } := by
  unfold wobbly_resize_notify
  simp only [hm, hw, if_true]
  rw [modelInitObjects_eq _ _ _ _ _ hl, modelInitSprings_eq]

theorem wobbly_resize_notify_animating (s : Surface) (m : Model) (hm : s.ww.model = some m)
    (hw : s.ww.wobbly ≠ 0) :
    wobbly_resize_notify s
      = { s with
          ww := { s.ww with
            model := some { m with springs := gridSprings s.width s.height } } } := by
  unfold wobbly_resize_notify
  simp only [hm, hw, if_false]
  rw [modelInitSprings_eq]

/-- The time handed to `modelStep` by `wobbly_prepare_paint`. -/
theorem wobbly_prepare_paint_eq (s : Surface) (ms : Int) (m : Model) (hm : s.ww.model = some m)
    (hw : s.ww.wobbly ≠ 0)
    (hbits : s.ww.wobbly &&& (WobblyInitial ||| WobblyVelocity ||| WobblyForce) ≠ 0) :
    wobbly_prepare_paint s ms
      = if (modelStep m WOBBLY_FRICTION WOBBLY_SPRING_K
            (if s.ww.wobbly &&& WobblyVelocity ≠ 0 then (ms : ℚ) else 16)).2 ≠ 0 then
          some { s with
            ww := { s.ww with
              model := some (modelCalcBounds (modelStep m WOBBLY_FRICTION WOBBLY_SPRING_K
                (if s.ww.wobbly &&& WobblyVelocity ≠ 0 then (ms : ℚ) else 16)).1)
              wobbly := (modelStep m WOBBLY_FRICTION WOBBLY_SPRING_K
                (if s.ww.wobbly &&& WobblyVelocity ≠ 0 then (ms : ℚ) else 16)).2 } }
        else
          some { s with
            ww := { s.ww with
              model := some (modelStep m WOBBLY_FRICTION WOBBLY_SPRING_K
                (if s.ww.wobbly &&& WobblyVelocity ≠ 0 then (ms : ℚ) else 16)).1
              wobbly := (modelStep m WOBBLY_FRICTION WOBBLY_SPRING_K
                (if s.ww.wobbly &&& WobblyVelocity ≠ 0 then (ms : ℚ) else 16)).2 }
            x := floatToInt (modelStep m WOBBLY_FRICTION WOBBLY_SPRING_K
                (if s.ww.wobbly &&& WobblyVelocity ≠ 0 then (ms : ℚ) else 16)).1.topLeft.x
            y := floatToInt (modelStep m WOBBLY_FRICTION WOBBLY_SPRING_K
                (if s.ww.wobbly &&& WobblyVelocity ≠ 0 then (ms : ℚ) else 16)).1.topLeft.y
            synced := true } := by
  unfold wobbly_prepare_paint
  simp only [hm, hw, hbits, ne_eq, not_false_eq_true, if_true]

theorem wobbly_prepare_paint_idle (s : Surface) (ms : Int) (hw : s.ww.wobbly = 0) :
    wobbly_prepare_paint s ms = some s := by
  unfold wobbly_prepare_paint
  simp [hw]

theorem wobbly_prepare_paint_no_bits (s : Surface) (ms : Int)
    (hbits : s.ww.wobbly &&& (WobblyInitial ||| WobblyVelocity ||| WobblyForce) = 0) :
    wobbly_prepare_paint s ms = some s := by
  unfold wobbly_prepare_paint
  simp [hbits]

/-! ## Every reachable surface is well-formed -/

theorem surfaceInv_init (a b c : Bool) (s0 s : Surface) (h : wobbly_init a b c s0 = some s) :
    SurfaceInv s := by
  unfold wobbly_init wobblyEnsureModel at h
  cases a
  · simp at h
  · cases b
    · simp [createModel] at h
    · cases c
      · simp [createModel] at h
      · simp only [Bool.not_true, Bool.false_eq_true, if_false, createModel_eq] at h
        have hs := Option.some.inj h
        subst hs
        refine ⟨_, rfl, ⟨?_, ?_, ?_, ?_⟩, ?_⟩
        · exact lattice_length _ _ _ _
        · intro i
          rw [modelCalcBounds_objects, modelCalcBounds_anchorObject]
          simp only
          rw [getObject_lattice_immobile]
          constructor
          · intro hi
            have : i = 5 := by simpa using hi
            rw [this]
          · intro hi
            have : i = 5 := (Option.some.inj hi).symm
            simp [this]
        · exact ⟨le_refl _, by norm_num [modelCalcBounds]⟩
        · exact ⟨_, _, rfl⟩
        · intro hg
          simp at hg

theorem surfaceInv_grab (sqrt : ℚ → ℚ) (a b : Bool) (s : Surface) (x y : Int)
    (h : SurfaceInv s) : SurfaceInv (wobbly_grab_notify sqrt a b s x y) := by
  obtain ⟨m, hm, hinv, _⟩ := h
  rw [wobbly_grab_notify_eq sqrt a b s x y m hm]
  have hlen0 : (releaseAnchor m).length = 16 := by rw [releaseAnchor_length, hinv.length]
  have hlt := modelFindNearestObject_lt sqrt { m with objects := releaseAnchor m } x y hlen0
  generalize modelFindNearestObject sqrt { m with objects := releaseAnchor m } x y = anchor at hlt
  refine ⟨_, rfl, ⟨?_, ?_, hinv.steps, hinv.springs⟩, ?_⟩
  · have := congrArg List.length (immobileFlags_foldl_grabKick anchor m.springs
      (modifyObject (releaseAnchor m) anchor (fun o => { o with immobile := true })))
    rw [immobileFlags_length, immobileFlags_length, length_modifyObject, hlen0] at this
    exact this
  · intro i
    simp only
    rw [getObject_immobile, immobileFlags_foldl_grabKick, ← getObject_immobile,
      getObject_modifyObject]
    by_cases hai : anchor = i
    · subst hai
      simp [hlen0, hlt]
    · have hne : ¬ (anchor = i ∧ anchor < (releaseAnchor m).length) := fun hc => hai hc.1
      rw [if_neg hne, releaseAnchor_immobile m hinv i]
      simp [hai]
  · intro _
    simp

theorem surfaceInv_ungrab (s : Surface) (h : SurfaceInv s) :
    SurfaceInv (wobbly_ungrab_notify s) := by
  obtain ⟨m, hm, hinv, hgr⟩ := h
  cases hg : s.ww.grabbed with
  | false =>
    rw [wobbly_ungrab_notify_not_grabbed s hg]
    exact ⟨m, hm, hinv, hgr⟩
  | true =>
    rw [wobbly_ungrab_notify_eq s m hm hg]
    refine ⟨_, rfl, ⟨?_, ?_, hinv.steps, hinv.springs⟩, ?_⟩
    · simp only
      rw [releaseAnchor_length, hinv.length]
    · intro i
      simp only
      rw [releaseAnchor_immobile m hinv i]
      simp
    · intro hc
      simp at hc

theorem surfaceInv_move (s s' : Surface) (dx dy : Int) (h : SurfaceInv s)
    (hs : wobbly_move_notify s dx dy = some s') : SurfaceInv s' := by
  obtain ⟨m, hm, hinv, hgr⟩ := h
  cases hg : s.ww.grabbed with
  | false =>
    rw [wobbly_move_notify_not_grabbed s dx dy hg] at hs
    rw [← Option.some.inj hs]
    exact ⟨m, hm, hinv, hgr⟩
  | true =>
    cases ha : m.anchorObject with
    | none => exact absurd ha (hgr hg)
    | some a =>
      rw [wobbly_move_notify_eq s dx dy m a hm ha hg] at hs
      rw [← Option.some.inj hs]
      refine ⟨_, rfl, ?_, ?_⟩
      · refine modelInv_of_frame m _ hinv ?_ ?_ ?_ ?_
        · simp only
          apply immobileFlags_modifyObject
          intro o
          rfl
        · rfl
        · exact hinv.steps
        · exact hinv.springs
      · intro _
        simp [ha]

theorem surfaceInv_resize (s : Surface) (h : SurfaceInv s) :
    SurfaceInv (wobbly_resize_notify s) := by
  obtain ⟨m, hm, hinv, hgr⟩ := h
  by_cases hw : s.ww.wobbly = 0
  · rw [wobbly_resize_notify_idle s m hm hinv.length hw]
    refine ⟨_, rfl, ⟨lattice_length _ _ _ _, ?_, hinv.steps, ⟨_, _, rfl⟩⟩, ?_⟩
    · intro i
      simp only
      rw [getObject_lattice_immobile]
      constructor
      · intro hi
        have : i = 5 := by simpa using hi
        rw [this]
      · intro hi
        have : i = 5 := (Option.some.inj hi).symm
        simp [this]
    · intro _
      simp
  · rw [wobbly_resize_notify_animating s m hm hw]
    exact ⟨_, rfl, modelInv_of_frame m _ hinv rfl rfl hinv.steps ⟨_, _, rfl⟩, hgr⟩

theorem surfaceInv_tick (s s' : Surface) (ms : Int) (h : SurfaceInv s)
    (hs : wobbly_prepare_paint s ms = some s') : SurfaceInv s' := by
  obtain ⟨m, hm, hinv, hgr⟩ := h
  by_cases hw : s.ww.wobbly = 0
  · rw [wobbly_prepare_paint_idle s ms hw] at hs
    rw [← Option.some.inj hs]
    exact ⟨m, hm, hinv, hgr⟩
  · by_cases hbits : s.ww.wobbly &&& (WobblyInitial ||| WobblyVelocity ||| WobblyForce) = 0
    · rw [wobbly_prepare_paint_no_bits s ms hbits] at hs
      rw [← Option.some.inj hs]
      exact ⟨m, hm, hinv, hgr⟩
    · rw [wobbly_prepare_paint_eq s ms m hm hw hbits] at hs
      generalize (if s.ww.wobbly &&& WobblyVelocity ≠ 0 then (ms : ℚ) else 16) = time at hs
      split_ifs at hs
      · rw [← Option.some.inj hs]
        refine ⟨_, rfl, modelInv_modelCalcBounds _ (modelInv_modelStep _ _ _ _ hinv), ?_⟩
        intro hg
        rw [modelCalcBounds_anchorObject, modelStep_anchorObject]
        exact hgr hg
      · rw [← Option.some.inj hs]
        refine ⟨_, rfl, modelInv_modelStep _ _ _ _ hinv, ?_⟩
        intro hg
        rw [modelStep_anchorObject]
        exact hgr hg

theorem reachable_surfaceInv (sqrt : ℚ → ℚ) (s : Surface) (h : Reachable sqrt s) :
    SurfaceInv s := by
  induction h with
  | init a b c s0 s hs => exact surfaceInv_init a b c s0 s hs
  | grab a b s x y _ ih => exact surfaceInv_grab sqrt a b s x y ih
  | move s s' dx dy _ hs ih => exact surfaceInv_move s s' dx dy ih hs
  | resize s _ ih => exact surfaceInv_resize s ih
  | ungrab s _ ih => exact surfaceInv_ungrab s ih
  | tick s s' ms _ hs ih => exact surfaceInv_tick s s' ms ih hs
  | owner s t _ ih => exact ih

/-! ## The concrete states are reachable -/

theorem wobbly_init_scenario : wobbly_init true true true scenarioSurface = some initSurface := by
  decide!

theorem reachable_initSurface (sqrt : ℚ → ℚ) : Reachable sqrt initSurface :=
  Reachable.init true true true scenarioSurface initSurface wobbly_init_scenario

theorem reachable_grabbedSurface : Reachable sqrtOrder grabbedSurface :=
  Reachable.grab true true initSurface 200 100 (reachable_initSurface sqrtOrder)

theorem wobbly_prepare_paint_grabbedSurface :
    wobbly_prepare_paint grabbedSurface 0 = some tickedSurface := by
  decide!

theorem reachable_tickedSurface : Reachable sqrtOrder tickedSurface :=
  Reachable.tick grabbedSurface tickedSurface 0 reachable_grabbedSurface
    wobbly_prepare_paint_grabbedSurface

/-! ## C3: anchor exclusivity -/

/-- C3: in every state reachable from a successful `wobbly_init` by grab, move,
resize, ungrab and tick notifications, the model exists with its sixteen
masses, at most one mass has `immobile` set, a mass that has it set is the one
referenced by `anchorObject`, the mass referenced by `anchorObject` has it set,
and when `anchorObject` is null no mass is immobile. -/
theorem anchor_exclusive (sqrt : ℚ → ℚ) (s : Surface) (hr : Reachable sqrt s) :
    ∃ m, s.ww.model = some m ∧ m.objects.length = 16 ∧
      (∀ i j, (getObject m.objects i).immobile = true →
        (getObject m.objects j).immobile = true → i = j) ∧
      (∀ i, (getObject m.objects i).immobile = true → m.anchorObject = some i) ∧
      (∀ a, m.anchorObject = some a → a < 16 ∧ (getObject m.objects a).immobile = true) ∧
      (m.anchorObject = none → ∀ i, (getObject m.objects i).immobile = false) := by
  obtain ⟨m, hm, hinv, _⟩ := reachable_surfaceInv sqrt s hr
  refine ⟨m, hm, hinv.length, ?_, ?_, ?_, ?_⟩
  · intro i j hi hj
    have h1 := (hinv.anchor i).mp hi
    have h2 := (hinv.anchor j).mp hj
    rw [h1] at h2
    exact Option.some.inj h2
  · intro i hi
    exact (hinv.anchor i).mp hi
  · intro a ha
    have himm := (hinv.anchor a).mpr ha
    refine ⟨?_, himm⟩
    by_contra hc
    rw [getObject_of_le _ _ (by rw [hinv.length]; omega)] at himm
    exact absurd himm (by decide)
  · intro hnone i
    have := hinv.anchor i
    rw [hnone] at this
    simp only [reduceCtorEq, iff_false] at this
    simpa using this

/-- C3, witness: the state after `wobbly_init`, a grab and a tick. -/
theorem anchor_exclusive_witness :
    ∃ m, tickedSurface.ww.model = some m ∧ m.objects.length = 16 ∧
      (∀ i j, (getObject m.objects i).immobile = true →
        (getObject m.objects j).immobile = true → i = j) ∧
      (∀ i, (getObject m.objects i).immobile = true → m.anchorObject = some i) ∧
      (∀ a, m.anchorObject = some a → a < 16 ∧ (getObject m.objects a).immobile = true) ∧
      (m.anchorObject = none → ∀ i, (getObject m.objects i).immobile = false) :=
  anchor_exclusive sqrtOrder tickedSurface reachable_tickedSurface

/-! ## C4: a tick with no elapsed time -/

theorem lor_one_land_one (w : Nat) : (w ||| 1) &&& 1 = 1 := by
  rw [Nat.and_one_is_mod]
  exact Nat.or_mod_two_eq_one.mpr (Or.inr rfl)

theorem bits_ne_zero_of_velocity (w : Nat) (h : w &&& WobblyVelocity ≠ 0) :
    w &&& (WobblyInitial ||| WobblyVelocity ||| WobblyForce) ≠ 0 := by
  intro hc
  apply h
  have : w &&& WobblyVelocity
      = (w &&& (WobblyInitial ||| WobblyVelocity ||| WobblyForce)) &&& WobblyVelocity := by
    rw [Nat.land_assoc]
    rfl
  rw [this, hc]
  rfl

theorem modelStep_zero (m : Model) (friction k : ℚ) (h : 0 ≤ m.steps ∧ m.steps < 1) :
    modelStep m friction k 0 = (m, 1) := by
  have hfl : Int.floor (m.steps + 0 / 15) = 0 := by
    rw [zero_div, add_zero]
    exact Int.floor_eq_zero_iff.mpr ⟨h.1, h.2⟩
  unfold modelStep
  simp only [hfl, if_true]
  cases m
  simp

/-- C4, counterexample: in the reachable state after `wobbly_init` on the
rectangle `(0, 0, 400, 200)` and a grab at `(200, 100)`, where the bitmask is
`Initial`, a tick with `elapsedMs = 0` consumes a sub-step: the time
accumulator goes from `0` to `1/15` and the masses move; and ticking twice
with `elapsedMs = 0` does not give the state reached by ticking once. -/
theorem tick_zero_counterexample :
    Reachable sqrtOrder grabbedSurface ∧
    grabbedSurface.ww.model.map (fun m => m.steps) = some 0 ∧
    (wobbly_prepare_paint grabbedSurface 0).map (fun s => s.ww.model.map (fun m => m.steps))
      = some (some (1 / 15)) ∧
    (wobbly_prepare_paint grabbedSurface 0).map (fun s => s.ww.model.map (fun m => m.objects))
      ≠ some (grabbedSurface.ww.model.map (fun m => m.objects)) ∧
    (wobbly_prepare_paint grabbedSurface 0).bind (fun s => wobbly_prepare_paint s 0)
      ≠ wobbly_prepare_paint grabbedSurface 0 :=
  ⟨reachable_grabbedSurface, by decide!, by decide!, by decide!, by decide!⟩

/-- C4, as amended: in every reachable state, a tick with `elapsedMs = 0`
(1) changes nothing when the bitmask is zero; (2) when the bitmask has
`HasVelocity` set, consumes no sub-step: masses, springs, anchor and time
accumulator are unchanged, only the bounding box is recomputed, `synced` is
unchanged and the bitmask becomes `Initial`, so the animation stays active;
(3) when the bitmask has `HasVelocity` clear, ignores the elapsed time and does
what a tick with 16 ms does. -/
theorem tick_zero (sqrt : ℚ → ℚ) (s : Surface) (hr : Reachable sqrt s) :
    (s.ww.wobbly = 0 → wobbly_prepare_paint s 0 = some s) ∧
    (s.ww.wobbly &&& WobblyVelocity ≠ 0 →
      ∃ m, s.ww.model = some m ∧
        wobbly_prepare_paint s 0
          = some { s with
              ww := { s.ww with model := some (modelCalcBounds m), wobbly := WobblyInitial } }) ∧
    (s.ww.wobbly &&& WobblyVelocity = 0 →
      ∀ ms, wobbly_prepare_paint s ms = wobbly_prepare_paint s 16) := by
  refine ⟨fun hw => wobbly_prepare_paint_idle s 0 hw, ?_, ?_⟩
  · intro hv
    obtain ⟨m, hm, hinv, _⟩ := reachable_surfaceInv sqrt s hr
    have hw : s.ww.wobbly ≠ 0 := by
      intro hc
      rw [hc] at hv
      exact hv (Nat.zero_and _)
    refine ⟨m, hm, ?_⟩
    rw [wobbly_prepare_paint_eq s 0 m hm hw (bits_ne_zero_of_velocity _ hv)]
    simp only [hv, ne_eq, not_false_eq_true, if_true, Int.cast_zero,
      modelStep_zero m _ _ hinv.steps]
    rfl
  · intro hv ms
    unfold wobbly_prepare_paint
    simp only [hv, ne_eq, not_true_eq_false, if_false]

/-- C4, witness: the state after `wobbly_init`, a grab and a tick, whose
bitmask has `HasVelocity` set. -/
theorem tick_zero_witness :
    (tickedSurface.ww.wobbly = 0 → wobbly_prepare_paint tickedSurface 0 = some tickedSurface) ∧
    (tickedSurface.ww.wobbly &&& WobblyVelocity ≠ 0 →
      ∃ m, tickedSurface.ww.model = some m ∧
        wobbly_prepare_paint tickedSurface 0
          = some { tickedSurface with
              ww := { tickedSurface.ww with
                model := some (modelCalcBounds m), wobbly := WobblyInitial } }) ∧
    (tickedSurface.ww.wobbly &&& WobblyVelocity = 0 →
      ∀ ms, wobbly_prepare_paint tickedSurface ms = wobbly_prepare_paint tickedSurface 16) :=
  tick_zero sqrtOrder tickedSurface reachable_tickedSurface

/-! ## C7: move and ungrab while not grabbed -/

/-- C7: when the window is not grabbed, `wobbly_move_notify` (for every `dx`,
`dy`) and `wobbly_ungrab_notify` return the whole surface state unchanged:
model, anchor, immobile flags, bitmask, grabbed flag and synced flag. -/
theorem not_grabbed_noop (s : Surface) (hg : s.ww.grabbed = false) :
    (∀ dx dy, wobbly_move_notify s dx dy = some s) ∧ wobbly_ungrab_notify s = s :=
  ⟨fun dx dy => wobbly_move_notify_not_grabbed s dx dy hg, wobbly_ungrab_notify_not_grabbed s hg⟩

/-- C7, witness: the surface of the scenario after `wobbly_init`, not grabbed. -/
theorem not_grabbed_noop_witness :
    (∀ dx dy, wobbly_move_notify initSurface dx dy = some initSurface) ∧
      wobbly_ungrab_notify initSurface = initSurface :=
  not_grabbed_noop initSurface (by decide!)

/-! ## C8, C9, C10: resize -/

theorem modelStep_snd_lt (m : Model) (friction k time : ℚ) :
    (modelStep m friction k time).2 < 8 := by
  unfold modelStep
  simp only
  split_ifs <;> dsimp only <;> decide

theorem lor_initial_lt (w : Nat) (h : w < 8) : w ||| WobblyInitial < 8 :=
  Nat.or_lt_two_pow (n := 3) h (by decide)

theorem bits_ne_zero_of_lt (w : Nat) (h : w < 8) (h0 : w ≠ 0) :
    w &&& (WobblyInitial ||| WobblyVelocity ||| WobblyForce) ≠ 0 := by
  interval_cases w <;> first | exact absurd rfl h0 | decide

theorem reachable_wobbly_lt (sqrt : ℚ → ℚ) (s : Surface) (h : Reachable sqrt s) :
    s.ww.wobbly < 8 := by
  induction h with
  | init a b c s0 s hs =>
    unfold wobbly_init wobblyEnsureModel at hs
    cases a
    · simp at hs
    · cases hc : createModel b c s0.x s0.y s0.width s0.height with
      | none => simp [hc] at hs
      | some m =>
        simp [hc] at hs
        rw [← hs]
        exact Nat.zero_lt_succ 7
  | grab a b s x y hr ih =>
    obtain ⟨m, hm, _, _⟩ := reachable_surfaceInv sqrt s hr
    rw [wobbly_grab_notify_eq sqrt a b s x y m hm]
    exact lor_initial_lt _ ih
  | move s s' dx dy hr hs ih =>
    obtain ⟨m, hm, _, hgr⟩ := reachable_surfaceInv sqrt s hr
    cases hg : s.ww.grabbed with
    | false =>
      rw [wobbly_move_notify_not_grabbed s dx dy hg] at hs
      rw [← Option.some.inj hs]
      exact ih
    | true =>
      cases ha : m.anchorObject with
      | none => exact absurd ha (hgr hg)
      | some a =>
        rw [wobbly_move_notify_eq s dx dy m a hm ha hg] at hs
        rw [← Option.some.inj hs]
        exact lor_initial_lt _ ih
  | resize s hr ih =>
    obtain ⟨m, hm, hinv, _⟩ := reachable_surfaceInv sqrt s hr
    by_cases hw : s.ww.wobbly = 0
    · rw [wobbly_resize_notify_idle s m hm hinv.length hw]
      exact ih
    · rw [wobbly_resize_notify_animating s m hm hw]
      exact ih
  | ungrab s hr ih =>
    obtain ⟨m, hm, _, _⟩ := reachable_surfaceInv sqrt s hr
    cases hg : s.ww.grabbed with
    | false =>
      rw [wobbly_ungrab_notify_not_grabbed s hg]
      exact ih
    | true =>
      rw [wobbly_ungrab_notify_eq s m hm hg]
      exact lor_initial_lt _ ih
  | tick s s' ms hr hs ih =>
    obtain ⟨m, hm, _, _⟩ := reachable_surfaceInv sqrt s hr
    by_cases hw : s.ww.wobbly = 0
    · rw [wobbly_prepare_paint_idle s ms hw] at hs
      rw [← Option.some.inj hs]
      exact ih
    · rw [wobbly_prepare_paint_eq s ms m hm hw (bits_ne_zero_of_lt _ ih hw)] at hs
      generalize (if s.ww.wobbly &&& WobblyVelocity ≠ 0 then (ms : ℚ) else 16) = time at hs
      split_ifs at hs
      · rw [← Option.some.inj hs]
        exact modelStep_snd_lt _ _ _ _
      · rw [← Option.some.inj hs]
        exact modelStep_snd_lt _ _ _ _
  | owner s t _ ih => exact ih

/-- A tick of a reachable, animating surface, in terms of `modelStep` run with
the given time. -/
theorem tick_of_time (sqrt : ℚ → ℚ) (s : Surface) (hr : Reachable sqrt s)
    (hw : s.ww.wobbly ≠ 0) (ms : Int) (time : ℚ)
    (htime : (if s.ww.wobbly &&& WobblyVelocity ≠ 0 then (ms : ℚ) else 16) = time) :
    ∃ m s', s.ww.model = some m ∧ wobbly_prepare_paint s ms = some s' ∧
      s'.ww.wobbly = (modelStep m WOBBLY_FRICTION WOBBLY_SPRING_K time).2 ∧
      s'.ww.model
        = some (if (modelStep m WOBBLY_FRICTION WOBBLY_SPRING_K time).2 = 0
            then (modelStep m WOBBLY_FRICTION WOBBLY_SPRING_K time).1
            else modelCalcBounds (modelStep m WOBBLY_FRICTION WOBBLY_SPRING_K time).1) ∧
      s'.ww.grabbed = s.ww.grabbed ∧
      ((modelStep m WOBBLY_FRICTION WOBBLY_SPRING_K time).2 = 0 →
        s'.x = floatToInt (modelStep m WOBBLY_FRICTION WOBBLY_SPRING_K time).1.topLeft.x ∧
        s'.y = floatToInt (modelStep m WOBBLY_FRICTION WOBBLY_SPRING_K time).1.topLeft.y ∧
        s'.synced = true) ∧
      ((modelStep m WOBBLY_FRICTION WOBBLY_SPRING_K time).2 ≠ 0 →
        s'.x = s.x ∧ s'.y = s.y ∧ s'.synced = s.synced) := by
  obtain ⟨m, hm, _, _⟩ := reachable_surfaceInv sqrt s hr
  have hbits := bits_ne_zero_of_lt _ (reachable_wobbly_lt sqrt s hr) hw
  have heq := wobbly_prepare_paint_eq s ms m hm hw hbits
  rw [htime] at heq
  by_cases hz : (modelStep m WOBBLY_FRICTION WOBBLY_SPRING_K time).2 = 0
  · rw [if_neg (not_not.mpr hz)] at heq
    exact ⟨m, _, hm, heq, rfl, by simp only [hz, if_true], rfl,
      fun _ => ⟨rfl, rfl, rfl⟩, fun h => absurd hz h⟩
  · rw [if_pos hz] at heq
    exact ⟨m, _, hm, heq, rfl, by simp only [hz, if_false], rfl,
      fun h => absurd h hz, fun _ => ⟨rfl, rfl, rfl⟩⟩

/-! ## More concrete reachable states -/

theorem reachable_settledGrabbedSurface : Reachable sqrtOrder settledGrabbedSurface :=
  Reachable.tick _ settledGrabbedSurface 16
    (Reachable.grab true true _ 1 1
      (Reachable.init true true true smallSurface
        ((wobbly_init true true true smallSurface).getD smallSurface) (by decide!)))
    (by decide!)

/-! ## C11: resize and the anchor -/

theorem getObject_immobile_congr (l l' : List Object)
    (h : immobileFlags l' = immobileFlags l) (i : Nat) :
    (getObject l' i).immobile = (getObject l i).immobile := by
  rw [getObject_immobile, getObject_immobile, h]

/-- C11, counterexample: the surface `(0, 0, 10, 10)` after `wobbly_init`, a
grab at `(1, 1)` and one tick of 16 ms is reachable, its bitmask is zero and
its anchor is mass 0; `wobbly_resize_notify` makes mass 5 the anchor and
changes the immobile flags (mass 0 is released, mass 5 is pinned). -/
theorem resize_anchor_counterexample :
    Reachable sqrtOrder settledGrabbedSurface ∧ settledGrabbedSurface.ww.wobbly = 0 ∧
    settledGrabbedSurface.ww.model.map (fun m => m.anchorObject) = some (some 0) ∧
    (wobbly_resize_notify settledGrabbedSurface).ww.model.map (fun m => m.anchorObject)
      = some (some 5) ∧
    settledGrabbedSurface.ww.model.map (fun m => immobileFlags m.objects)
      ≠ (wobbly_resize_notify settledGrabbedSurface).ww.model.map
          (fun m => immobileFlags m.objects) :=
  ⟨reachable_settledGrabbedSurface, by decide!, by decide!, by decide!, by decide!⟩

/-- C11, as amended: in every reachable state, `wobbly_resize_notify` leaves
the anchor reference and every immobile flag unchanged while the bitmask is
non-zero; while the bitmask is zero it makes mass 5 the anchor, pinned, and
no other mass immobile.  A move and a tick never change the anchor reference
or an immobile flag: the anchor reference is changed only by grab, ungrab and
a resize of an idle surface. -/
theorem resize_anchor (sqrt : ℚ → ℚ) (s : Surface) (hr : Reachable sqrt s) :
    ∃ m m', s.ww.model = some m ∧ (wobbly_resize_notify s).ww.model = some m' ∧
      (s.ww.wobbly ≠ 0 →
        m'.anchorObject = m.anchorObject ∧
        ∀ i, (getObject m'.objects i).immobile = (getObject m.objects i).immobile) ∧
      (s.ww.wobbly = 0 →
        m'.anchorObject = some 5 ∧
        ∀ i, (getObject m'.objects i).immobile = true ↔ i = 5) ∧
      (∀ dx dy s1, wobbly_move_notify s dx dy = some s1 →
        ∃ m1, s1.ww.model = some m1 ∧ m1.anchorObject = m.anchorObject ∧
          ∀ i, (getObject m1.objects i).immobile = (getObject m.objects i).immobile) ∧
      (∀ ms s1, wobbly_prepare_paint s ms = some s1 →
        ∃ m1, s1.ww.model = some m1 ∧ m1.anchorObject = m.anchorObject ∧
          ∀ i, (getObject m1.objects i).immobile = (getObject m.objects i).immobile) := by
  obtain ⟨m, hm, hinv, hgr⟩ := reachable_surfaceInv sqrt s hr
  have hresize : ∃ m', (wobbly_resize_notify s).ww.model = some m' ∧
      (s.ww.wobbly ≠ 0 →
        m'.anchorObject = m.anchorObject ∧
        ∀ i, (getObject m'.objects i).immobile = (getObject m.objects i).immobile) ∧
      (s.ww.wobbly = 0 →
        m'.anchorObject = some 5 ∧
        ∀ i, (getObject m'.objects i).immobile = true ↔ i = 5) := by
    by_cases hw : s.ww.wobbly = 0
    · rw [wobbly_resize_notify_idle s m hm hinv.length hw]
      refine ⟨_, rfl, fun h => absurd hw h, fun _ => ⟨rfl, ?_⟩⟩
      intro i
      simp only
      rw [getObject_lattice_immobile]
      simp
    · rw [wobbly_resize_notify_animating s m hm hw]
      exact ⟨_, rfl, fun _ => ⟨rfl, fun _ => rfl⟩, fun h => absurd h hw⟩
  obtain ⟨m', hm', h1, h2⟩ := hresize
  refine ⟨m, m', hm, hm', h1, h2, ?_, ?_⟩
  · intro dx dy s1 hs1
    cases hg : s.ww.grabbed with
    | false =>
      rw [wobbly_move_notify_not_grabbed s dx dy hg] at hs1
      rw [← Option.some.inj hs1]
      exact ⟨m, hm, rfl, fun _ => rfl⟩
    | true =>
      cases ha : m.anchorObject with
      | none => exact absurd ha (hgr hg)
      | some a =>
        rw [wobbly_move_notify_eq s dx dy m a hm ha hg] at hs1
        rw [← Option.some.inj hs1]
        refine ⟨_, rfl, ha, ?_⟩
        apply getObject_immobile_congr
        simp only
        apply immobileFlags_modifyObject
        intro o
        rfl
  · intro ms s1 hs1
    by_cases hw : s.ww.wobbly = 0
    · rw [wobbly_prepare_paint_idle s ms hw] at hs1
      rw [← Option.some.inj hs1]
      exact ⟨m, hm, rfl, fun _ => rfl⟩
    · obtain ⟨m0, s', hm0, hs', _, hmodel, _⟩ := tick_of_time sqrt s hr hw ms _ rfl
      rw [hm] at hm0
      rw [← Option.some.inj hm0] at hmodel
      rw [hs'] at hs1
      rw [← Option.some.inj hs1]
      generalize (if s.ww.wobbly &&& WobblyVelocity ≠ 0 then (ms : ℚ) else 16) = time at hmodel
      refine ⟨_, hmodel, ?_, ?_⟩
      · split_ifs
        · exact modelStep_anchorObject _ _ _ _
        · rw [modelCalcBounds_anchorObject]
          exact modelStep_anchorObject _ _ _ _
      · apply getObject_immobile_congr
        split_ifs
        · exact modelStep_immobileFlags _ _ _ _
        · rw [modelCalcBounds_objects]
          exact modelStep_immobileFlags _ _ _ _

/-- C11, witness: the settled, still grabbed surface of the counterexample. -/
theorem resize_anchor_witness :
    ∃ m m', settledGrabbedSurface.ww.model = some m ∧
      (wobbly_resize_notify settledGrabbedSurface).ww.model = some m' ∧
      (settledGrabbedSurface.ww.wobbly ≠ 0 →
        m'.anchorObject = m.anchorObject ∧
        ∀ i, (getObject m'.objects i).immobile = (getObject m.objects i).immobile) ∧
      (settledGrabbedSurface.ww.wobbly = 0 →
        m'.anchorObject = some 5 ∧
        ∀ i, (getObject m'.objects i).immobile = true ↔ i = 5) ∧
      (∀ dx dy s1, wobbly_move_notify settledGrabbedSurface dx dy = some s1 →
        ∃ m1, s1.ww.model = some m1 ∧ m1.anchorObject = m.anchorObject ∧
          ∀ i, (getObject m1.objects i).immobile = (getObject m.objects i).immobile) ∧
      (∀ ms s1, wobbly_prepare_paint settledGrabbedSurface ms = some s1 →
        ∃ m1, s1.ww.model = some m1 ∧ m1.anchorObject = m.anchorObject ∧
          ∀ i, (getObject m1.objects i).immobile = (getObject m.objects i).immobile) :=
  resize_anchor sqrtOrder settledGrabbedSurface reachable_settledGrabbedSurface

/-! ## C12, C13: what a tick does -/

/-- C12, counterexample: in the reachable state after `wobbly_init` on
`(0, 0, 400, 200)` and a grab at `(200, 100)`, whose bitmask `Initial` is
non-zero, a tick with `elapsedMs = 30` does not advance the model as
`modelStep` run with time 30 does: the tick leaves the time accumulator at
`1/15` (one sub-step of the 16 ms it used), `modelStep` with 30 ms leaves it
at `0` (two sub-steps), and the models differ. -/
theorem tick_step_time_counterexample :
    Reachable sqrtOrder grabbedSurface ∧ grabbedSurface.ww.wobbly ≠ 0 ∧ (0 : Int) ≤ 30 ∧
    (wobbly_prepare_paint grabbedSurface 30).map (fun s => s.ww.model.map (fun m => m.steps))
      = some (some (1 / 15)) ∧
    grabbedSurface.ww.model.map
        (fun m => (modelStep m WOBBLY_FRICTION WOBBLY_SPRING_K ((30 : Int) : ℚ)).1.steps)
      = some 0 ∧
    (wobbly_prepare_paint grabbedSurface 30).map (fun s => s.ww.model)
      ≠ some (grabbedSurface.ww.model.map
          (fun m => (modelStep m WOBBLY_FRICTION WOBBLY_SPRING_K ((30 : Int) : ℚ)).1)) :=
  ⟨reachable_grabbedSurface, by decide!, by decide!, by decide!, by decide!, by decide!⟩

/-- C12, as amended: in every reachable state whose bitmask is non-zero, for
every `elapsedMs`, the tick succeeds, sets the bitmask to the result of
`modelStep` and the model to the model that `modelStep` returns (with the
bounding box recomputed when the result is non-zero), where `modelStep` is run
with time `elapsedMs` when the bitmask has `HasVelocity` set and with time 16
when it has not. -/
theorem tick_step_time (sqrt : ℚ → ℚ) (s : Surface) (hr : Reachable sqrt s)
    (hw : s.ww.wobbly ≠ 0) (ms : Int) :
    ∃ m s', s.ww.model = some m ∧ wobbly_prepare_paint s ms = some s' ∧
      (s.ww.wobbly &&& WobblyVelocity ≠ 0 →
        s'.ww.wobbly = (modelStep m WOBBLY_FRICTION WOBBLY_SPRING_K ms).2 ∧
        s'.ww.model
          = some (if (modelStep m WOBBLY_FRICTION WOBBLY_SPRING_K ms).2 = 0
              then (modelStep m WOBBLY_FRICTION WOBBLY_SPRING_K ms).1
              else modelCalcBounds (modelStep m WOBBLY_FRICTION WOBBLY_SPRING_K ms).1)) ∧
      (s.ww.wobbly &&& WobblyVelocity = 0 →
        s'.ww.wobbly = (modelStep m WOBBLY_FRICTION WOBBLY_SPRING_K 16).2 ∧
        s'.ww.model
          = some (if (modelStep m WOBBLY_FRICTION WOBBLY_SPRING_K 16).2 = 0
              then (modelStep m WOBBLY_FRICTION WOBBLY_SPRING_K 16).1
              else modelCalcBounds (modelStep m WOBBLY_FRICTION WOBBLY_SPRING_K 16).1)) := by
  by_cases hv : s.ww.wobbly &&& WobblyVelocity = 0
  · obtain ⟨m, s', hm, hs', hwob, hmodel, _⟩ :=
      tick_of_time sqrt s hr hw ms 16 (by simp [hv])
    exact ⟨m, s', hm, hs', fun h => absurd hv h, fun _ => ⟨hwob, hmodel⟩⟩
  · obtain ⟨m, s', hm, hs', hwob, hmodel, _⟩ :=
      tick_of_time sqrt s hr hw ms ms (by simp [hv])
    exact ⟨m, s', hm, hs', fun _ => ⟨hwob, hmodel⟩, fun h => absurd h hv⟩

/-- C12, witness: the state after `wobbly_init`, a grab and a tick, whose
bitmask has `HasVelocity` set, with `elapsedMs = 30`. -/
theorem tick_step_time_witness :
    ∃ m s', tickedSurface.ww.model = some m ∧ wobbly_prepare_paint tickedSurface 30 = some s' ∧
      (tickedSurface.ww.wobbly &&& WobblyVelocity ≠ 0 →
        s'.ww.wobbly = (modelStep m WOBBLY_FRICTION WOBBLY_SPRING_K ((30 : Int) : ℚ)).2 ∧
        s'.ww.model
          = some (if (modelStep m WOBBLY_FRICTION WOBBLY_SPRING_K ((30 : Int) : ℚ)).2 = 0
              then (modelStep m WOBBLY_FRICTION WOBBLY_SPRING_K ((30 : Int) : ℚ)).1
              else modelCalcBounds
                (modelStep m WOBBLY_FRICTION WOBBLY_SPRING_K ((30 : Int) : ℚ)).1)) ∧
      (tickedSurface.ww.wobbly &&& WobblyVelocity = 0 →
        s'.ww.wobbly = (modelStep m WOBBLY_FRICTION WOBBLY_SPRING_K 16).2 ∧
        s'.ww.model
          = some (if (modelStep m WOBBLY_FRICTION WOBBLY_SPRING_K 16).2 = 0
              then (modelStep m WOBBLY_FRICTION WOBBLY_SPRING_K 16).1
              else modelCalcBounds (modelStep m WOBBLY_FRICTION WOBBLY_SPRING_K 16).1)) :=
  tick_step_time sqrtOrder tickedSurface reachable_tickedSurface (by decide!) 30

/-- C13: in every reachable state whose bitmask is non-zero, the tick runs
`modelStep` (with the time the tick chooses) and sets the bitmask to its
result.  When that result is 0, the bitmask is 0, the surface position
`(x, y)` becomes the top-left corner of the stepped model's bounding box
converted to integers, and `synced` becomes true; when it is non-zero, `synced`
(and the surface position) is left unchanged. -/
theorem tick_settle (sqrt : ℚ → ℚ) (s : Surface) (hr : Reachable sqrt s)
    (hw : s.ww.wobbly ≠ 0) (ms : Int) :
    ∃ m s' r, s.ww.model = some m ∧ wobbly_prepare_paint s ms = some s' ∧
      r = modelStep m WOBBLY_FRICTION WOBBLY_SPRING_K
        (if s.ww.wobbly &&& WobblyVelocity ≠ 0 then (ms : ℚ) else 16) ∧
      s'.ww.wobbly = r.2 ∧
      (r.2 = 0 →
        s'.ww.wobbly = 0 ∧ s'.ww.model = some r.1 ∧
        s'.x = floatToInt r.1.topLeft.x ∧ s'.y = floatToInt r.1.topLeft.y ∧
        s'.synced = true) ∧
      (r.2 ≠ 0 → s'.synced = s.synced ∧ s'.x = s.x ∧ s'.y = s.y) := by
  obtain ⟨m, s', hm, hs', hwob, hmodel, _, hzero, hnz⟩ := tick_of_time sqrt s hr hw ms _ rfl
  refine ⟨m, s', _, hm, hs', rfl, hwob, ?_, ?_⟩
  · intro hz
    obtain ⟨hx, hy, hsync⟩ := hzero hz
    refine ⟨by rw [hwob, hz], ?_, hx, hy, hsync⟩
    rw [hmodel, if_pos hz]
  · intro hz
    obtain ⟨hx, hy, hsync⟩ := hnz hz
    exact ⟨hsync, hx, hy⟩

/-- C13, witness: the grabbed surface of the scenario, ticked with 16 ms. -/
theorem tick_settle_witness :
    ∃ m s' r, grabbedSurface.ww.model = some m ∧
      wobbly_prepare_paint grabbedSurface 16 = some s' ∧
      r = modelStep m WOBBLY_FRICTION WOBBLY_SPRING_K
        (if grabbedSurface.ww.wobbly &&& WobblyVelocity ≠ 0 then (((16 : Int)) : ℚ) else 16) ∧
      s'.ww.wobbly = r.2 ∧
      (r.2 = 0 →
        s'.ww.wobbly = 0 ∧ s'.ww.model = some r.1 ∧
        s'.x = floatToInt r.1.topLeft.x ∧ s'.y = floatToInt r.1.topLeft.y ∧
        s'.synced = true) ∧
      (r.2 ≠ 0 → s'.synced = grabbedSurface.synced ∧ s'.x = grabbedSurface.x ∧
        s'.y = grabbedSurface.y) :=
  tick_settle sqrtOrder grabbedSurface reachable_grabbedSurface (by decide!) 16

/-! ## C15: ungrab -/

theorem getObject_releaseAnchor (m : Model) (i : Nat) :
    (getObject (releaseAnchor m) i).position = (getObject m.objects i).position ∧
    (getObject (releaseAnchor m) i).velocity = (getObject m.objects i).velocity := by
  unfold releaseAnchor
  cases m.anchorObject with
  | none => exact ⟨rfl, rfl⟩
  | some a =>
    simp only
    rw [getObject_modifyObject]
    split_ifs with h
    · rw [h.1]
      exact ⟨rfl, rfl⟩
    · exact ⟨rfl, rfl⟩

/-- C15: after `wobbly_ungrab_notify` on a grabbed window, in every reachable
state, no mass is immobile, the anchor reference is null, the grabbed flag is
cleared, the bitmask is the old one with `Initial` set, and the position and
velocity of every mass are unchanged. -/
theorem ungrab_releases (sqrt : ℚ → ℚ) (s : Surface) (hr : Reachable sqrt s)
    (hg : s.ww.grabbed = true) :
    ∃ m m', s.ww.model = some m ∧ (wobbly_ungrab_notify s).ww.model = some m' ∧
      (∀ i, (getObject m'.objects i).immobile = false) ∧
      m'.anchorObject = none ∧
      (wobbly_ungrab_notify s).ww.grabbed = false ∧
      (wobbly_ungrab_notify s).ww.wobbly = s.ww.wobbly ||| WobblyInitial ∧
      (wobbly_ungrab_notify s).ww.wobbly &&& WobblyInitial = WobblyInitial ∧
      (∀ i, (getObject m'.objects i).position = (getObject m.objects i).position ∧
        (getObject m'.objects i).velocity = (getObject m.objects i).velocity) := by
  obtain ⟨m, hm, hinv, _⟩ := reachable_surfaceInv sqrt s hr
  rw [wobbly_ungrab_notify_eq s m hm hg]
  exact ⟨m, _, hm, rfl, fun i => releaseAnchor_immobile m hinv i, rfl, rfl, rfl,
    lor_one_land_one _, fun i => getObject_releaseAnchor m i⟩

/-- C15, witness: the grabbed surface of the scenario. -/
theorem ungrab_releases_witness :
    ∃ m m', grabbedSurface.ww.model = some m ∧
      (wobbly_ungrab_notify grabbedSurface).ww.model = some m' ∧
      (∀ i, (getObject m'.objects i).immobile = false) ∧
      m'.anchorObject = none ∧
      (wobbly_ungrab_notify grabbedSurface).ww.grabbed = false ∧
      (wobbly_ungrab_notify grabbedSurface).ww.wobbly
        = grabbedSurface.ww.wobbly ||| WobblyInitial ∧
      (wobbly_ungrab_notify grabbedSurface).ww.wobbly &&& WobblyInitial = WobblyInitial ∧
      (∀ i, (getObject m'.objects i).position = (getObject m.objects i).position ∧
        (getObject m'.objects i).velocity = (getObject m.objects i).velocity) :=
  ungrab_releases sqrtOrder grabbedSurface reachable_grabbedSurface (by decide!)

/-! ## C16: a call of `modelStep` with too little time -/

/-- C30: in every state reachable from a successful `wobbly_init` by grab, move,
resize, ungrab and tick notifications, the model exists; whenever the grabbed
flag is set the anchor reference is non-null and points to one of the sixteen
masses; and `wobbly_move_notify` and the tick return a state for all their
arguments: they never dereference a null pointer. -/
theorem reachable_safe (sqrt : ℚ → ℚ) (s : Surface) (hr : Reachable sqrt s) :
    ∃ m, s.ww.model = some m ∧
      (s.ww.grabbed = true → ∃ a, m.anchorObject = some a ∧ a < 16) ∧
      (∀ dx dy, ∃ s', wobbly_move_notify s dx dy = some s') ∧
      (∀ ms, ∃ s', wobbly_prepare_paint s ms = some s') := by
  obtain ⟨m, hm, hinv, hgr⟩ := reachable_surfaceInv sqrt s hr
  have hanchor : s.ww.grabbed = true → ∃ a, m.anchorObject = some a ∧ a < 16 := by
    intro hg
    cases ha : m.anchorObject with
    | none => exact absurd ha (hgr hg)
    | some a =>
      refine ⟨a, rfl, ?_⟩
      by_contra hc
      have himm := (hinv.anchor a).mpr ha
      rw [getObject_of_le _ _ (by rw [hinv.length]; omega)] at himm
      exact absurd himm (by decide)
  refine ⟨m, hm, hanchor, ?_, ?_⟩
  · intro dx dy
    cases hg : s.ww.grabbed with
    | false => exact ⟨s, wobbly_move_notify_not_grabbed s dx dy hg⟩
    | true =>
      obtain ⟨a, ha, _⟩ := hanchor hg
      exact ⟨_, wobbly_move_notify_eq s dx dy m a hm ha hg⟩
  · intro ms
    by_cases hw : s.ww.wobbly = 0
    · exact ⟨s, wobbly_prepare_paint_idle s ms hw⟩
    · obtain ⟨_, s', _, hs', _⟩ := tick_of_time sqrt s hr hw ms _ rfl
      exact ⟨s', hs'⟩

/-- C30, witness: the grabbed surface of the scenario. -/
theorem reachable_safe_witness :
    ∃ m, grabbedSurface.ww.model = some m ∧
      (grabbedSurface.ww.grabbed = true → ∃ a, m.anchorObject = some a ∧ a < 16) ∧
      (∀ dx dy, ∃ s', wobbly_move_notify grabbedSurface dx dy = some s') ∧
      (∀ ms, ∃ s', wobbly_prepare_paint grabbedSurface ms = some s') :=
  reachable_safe sqrtOrder grabbedSurface reachable_grabbedSurface

/-! ## C21: one sub-step on one mass -/

theorem getObject_map_of_lt (l : List Object) (g : Object → Object) (i : Nat)
    (h : i < l.length) : getObject (l.map g) i = g (getObject l i) := by
  unfold getObject
  simp [List.getD_eq_getElem?_getD, List.getElem?_map, List.getElem?_eq_getElem h]

theorem nearestStep_congr (sqrt : ℚ → ℚ) (l1 l2 : List Object) (x y : ℚ)
    (h : ∀ i, (getObject l1 i).position = (getObject l2 i).position) :
    nearestStep sqrt l1 x y = nearestStep sqrt l2 x y := by
  funext acc i
  unfold nearestStep objectDistance
  rw [h i]

theorem modelFindNearestObject_releaseAnchor (sqrt : ℚ → ℚ) (m : Model) (x y : ℚ) :
    modelFindNearestObject sqrt { m with objects := releaseAnchor m } x y
      = modelFindNearestObject sqrt m x y := by
  unfold modelFindNearestObject Model.numObjects
  simp only
  rw [releaseAnchor_length,
    nearestStep_congr sqrt (releaseAnchor m) m.objects x y
      (fun i => (getObject_releaseAnchor m i).1)]

/-- C24 (amended), counterexample to the claim as stated: a grab at
`(200, 100)` on the scenario's surface right after `wobbly_init`, whose
`synced` flag is set, leaves the flag set. -/
theorem grab_synced_counterexample :
    initSurface.synced = true ∧
    (wobbly_grab_notify sqrtOrder true true initSurface 200 100).synced = true := by
  decide!

/-- C24 (amended): after `wobbly_grab_notify(x, y)` on a reachable surface,
the anchor is the mass that `modelFindNearestObject(x, y)` returns on the model
as it was before the call, that mass is immobile, the grabbed flag is set and
the bitmask includes `Initial`; the surface's `synced` flag is left as it was
(marking the surface unsynced is left to the caller). -/
theorem grab_anchor (sqrt : ℚ → ℚ) (a b : Bool) (s : Surface) (hr : Reachable sqrt s)
    (x y : Int) :
    ∃ m m', s.ww.model = some m ∧
      (wobbly_grab_notify sqrt a b s x y).ww.model = some m' ∧
      m'.anchorObject = some (modelFindNearestObject sqrt m x y) ∧
      (getObject m'.objects (modelFindNearestObject sqrt m x y)).immobile = true ∧
      (wobbly_grab_notify sqrt a b s x y).ww.grabbed = true ∧
      (wobbly_grab_notify sqrt a b s x y).ww.wobbly &&& WobblyInitial = WobblyInitial ∧
      (wobbly_grab_notify sqrt a b s x y).synced = s.synced := by
  obtain ⟨m, hm, hinv, hgr⟩ := reachable_surfaceInv sqrt s hr
  obtain ⟨m', hm', hinv', _⟩ := surfaceInv_grab sqrt a b s x y ⟨m, hm, hinv, hgr⟩
  have heq := wobbly_grab_notify_eq sqrt a b s x y m hm
  have hanchor : m'.anchorObject = some (modelFindNearestObject sqrt m x y) := by
    rw [heq] at hm'
    simp only [Option.some.injEq] at hm'
    rw [← hm', modelFindNearestObject_releaseAnchor]
  refine ⟨m, m', hm, hm', hanchor, (hinv'.anchor _).mpr hanchor, ?_, ?_, ?_⟩
  · rw [heq]
  · rw [heq]
    exact lor_one_land_one _
  · rw [heq]

/-- C24, witness: the scenario's surface after `wobbly_init`, grabbed at
`(200, 100)`. -/
theorem grab_anchor_witness :
    ∃ m m', initSurface.ww.model = some m ∧
      (wobbly_grab_notify sqrtOrder true true initSurface 200 100).ww.model = some m' ∧
      m'.anchorObject = some (modelFindNearestObject sqrtOrder m 200 100) ∧
      (getObject m'.objects (modelFindNearestObject sqrtOrder m 200 100)).immobile = true ∧
      (wobbly_grab_notify sqrtOrder true true initSurface 200 100).ww.grabbed = true ∧
      (wobbly_grab_notify sqrtOrder true true initSurface 200 100).ww.wobbly &&& WobblyInitial
        = WobblyInitial ∧
      (wobbly_grab_notify sqrtOrder true true initSurface 200 100).synced = initSurface.synced :=
  grab_anchor sqrtOrder true true initSurface (reachable_initSurface sqrtOrder) 200 100

/-! ## Sums over the masses after an update -/

theorem sum_map_set (f : Object → ℚ) (l : List Object) (i : Nat) (v : Object)
    (hi : i < l.length) :
    ((l.set i v).map f).sum = (l.map f).sum + (f v - f (getObject l i)) := by
  induction l generalizing i with
  | nil => exact absurd hi (Nat.not_lt_zero _)
  | cons o rest ih =>
    cases i with
    | zero =>
      simp only [List.set_cons_zero, List.map_cons, List.sum_cons, getObject, List.getD_cons_zero]
      ring
    | succ i =>
      have hi2 : i < rest.length := Nat.lt_of_succ_lt_succ hi
      simp only [List.set_cons_succ, List.map_cons, List.sum_cons, getObject, List.getD_cons_succ]
      have := ih i hi2
      simp only [getObject] at this
      rw [this]
      ring

theorem sum_map_modifyObject (f : Object → ℚ) (l : List Object) (i : Nat) (g : Object → Object)
    (hi : i < l.length) :
    ((modifyObject l i g).map f).sum
      = (l.map f).sum + (f (g (getObject l i)) - f (getObject l i)) := by
  unfold modifyObject
  exact sum_map_set f l i _ hi

theorem map_modifyObject {α : Type} (f : Object → α) (l : List Object) (i : Nat)
    (g : Object → Object) (hg : ∀ o, f (g o) = f o) :
    (modifyObject l i g).map f = l.map f := by
  unfold modifyObject getObject
  apply List.ext_getElem?
  intro n
  simp only [List.getElem?_map, List.getElem?_set, List.getD_eq_getElem?_getD]
  by_cases hin : i = n
  · subst hin
    by_cases hi : i < l.length
    · simp [hi, hg]
    · simp [hi, List.getElem?_eq_none (Nat.le_of_not_lt hi)]
  · simp [hin]

theorem totalForce_of_zero (l : List Object) (h : ∀ o ∈ l, o.force = ⟨0, 0⟩) :
    totalForce l = ⟨0, 0⟩ := by
  unfold totalForce
  induction l with
  | nil => rfl
  | cons o rest ih =>
    have ho := h o (List.mem_cons_self _ _)
    have hrest := ih (fun o2 ho2 => h o2 (List.mem_cons_of_mem _ ho2))
    simp only [Point.mk.injEq] at hrest
    simp only [List.map_cons, List.sum_cons, ho, hrest.1, hrest.2, add_zero]

theorem totalVelocity_eq_of_map (l1 l2 : List Object)
    (h : l1.map (fun o => o.velocity) = l2.map (fun o => o.velocity)) :
    totalVelocity l1 = totalVelocity l2 := by
  have hx := congrArg (List.map (fun p : Vector => p.x)) h
  have hy := congrArg (List.map (fun p : Vector => p.y)) h
  simp only [List.map_map] at hx hy
  unfold totalVelocity
  have hx1 : l1.map (fun o => o.velocity.x) = l2.map (fun o => o.velocity.x) := hx
  have hy1 : l1.map (fun o => o.velocity.y) = l2.map (fun o => o.velocity.y) := hy
  rw [hx1, hy1]

/-! ## C23: the velocity kick of a grab -/

theorem flatMap_block_length {α : Type} (c : Nat) (f : Nat → List α)
    (hf : ∀ j, (f j).length = c) (n : Nat) :
    ((List.range n).flatMap f).length = n * c := by
  induction n with
  | zero => simp
  | succ n ih =>
    rw [List.range_succ, List.flatMap_append, List.length_append, ih]
    simp only [List.flatMap_cons, List.flatMap_nil, List.append_nil, hf]
    ring

theorem flatMap_block_getD {α : Type} (c : Nat) (f : Nat → List α)
    (hf : ∀ j, (f j).length = c) (d : α) (n j r : Nat) (hj : j < n) (hr : r < c) :
    ((List.range n).flatMap f).getD (j * c + r) d = (f j).getD r d := by
  induction n with
  | zero => exact absurd hj (Nat.not_lt_zero _)
  | succ n ih =>
    rw [List.range_succ, List.flatMap_append]
    simp only [List.flatMap_cons, List.flatMap_nil, List.append_nil]
    rcases Nat.lt_succ_iff_lt_or_eq.mp hj with hlt | heq
    · have hidx : j * c + r < ((List.range n).flatMap f).length := by
        rw [flatMap_block_length c f hf n]
        calc j * c + r < j * c + c := Nat.add_lt_add_left hr _
          _ = (j + 1) * c := by ring
          _ ≤ n * c := Nat.mul_le_mul_right c hlt
      rw [List.getD_append _ _ _ _ hidx]
      exact ih hlt
    · subst heq
      have hidx : ((List.range j).flatMap f).length ≤ j * c + r := by
        rw [flatMap_block_length c f hf j]
        exact Nat.le_add_right _ _
      rw [List.getD_append_right _ _ _ _ hidx, flatMap_block_length c f hf j,
        Nat.add_sub_cancel_left]

theorem grid_getD (g : Nat → Nat → ℚ × ℚ) (rows cols i j : Nat) (hi : i < cols) (hj : j < rows) :
    ((List.range rows).flatMap (fun y => (List.range cols).flatMap (fun x =>
        [(g x y).1, (g x y).2]))).length = 2 * (cols * rows) ∧
    ((List.range rows).flatMap (fun y => (List.range cols).flatMap (fun x =>
        [(g x y).1, (g x y).2]))).getD (2 * (j * cols + i)) 0 = (g i j).1 ∧
    ((List.range rows).flatMap (fun y => (List.range cols).flatMap (fun x =>
        [(g x y).1, (g x y).2]))).getD (2 * (j * cols + i) + 1) 0 = (g i j).2 := by
  have hinner : ∀ y, ((List.range cols).flatMap (fun x => [(g x y).1, (g x y).2])).length
      = cols * 2 :=
    fun y => flatMap_block_length 2 (fun x => [(g x y).1, (g x y).2]) (fun _ => rfl) cols
  have hin_get : ∀ y r, r < 2 →
      ((List.range cols).flatMap (fun x => [(g x y).1, (g x y).2])).getD (i * 2 + r) 0
        = [(g i y).1, (g i y).2].getD r 0 :=
    fun y r hr =>
      flatMap_block_getD 2 (fun x => [(g x y).1, (g x y).2]) (fun _ => rfl) 0 cols i r hi hr
  have h0 : 2 * (j * cols + i) = j * (cols * 2) + (i * 2 + 0) := by ring
  have h1 : 2 * (j * cols + i) + 1 = j * (cols * 2) + (i * 2 + 1) := by ring
  have hr0 : i * 2 + 0 < cols * 2 := by omega
  have hr1 : i * 2 + 1 < cols * 2 := by omega
  have hout0 := flatMap_block_getD (cols * 2)
    (fun y => (List.range cols).flatMap (fun x => [(g x y).1, (g x y).2])) hinner 0 rows j
    (i * 2 + 0) hj hr0
  have hout1 := flatMap_block_getD (cols * 2)
    (fun y => (List.range cols).flatMap (fun x => [(g x y).1, (g x y).2])) hinner 0 rows j
    (i * 2 + 1) hj hr1
  refine ⟨?_, ?_, ?_⟩
  · rw [flatMap_block_length (cols * 2)
      (fun y => (List.range cols).flatMap (fun x => [(g x y).1, (g x y).2])) hinner rows]
    ring
  · rw [h0, hout0]
    exact hin_get j 0 (by decide)
  · rw [h1, hout1]
    exact hin_get j 1 (by decide)

namespace Binary32

/-! ## Binary32: properties of the rounding -/

theorem pow2_eq (k : Int) : pow2 k = (2 : ℚ) ^ k := by
  unfold pow2
  split_ifs with h
  · lift k to Nat using h
    simp
  · push_neg at h
    obtain ⟨n, rfl⟩ : ∃ n : Nat, k = -(n : Int) := ⟨(-k).toNat, by omega⟩
    simp [zpow_neg]

theorem pow2_pos (k : Int) : 0 < pow2 k := by
  rw [pow2_eq]; positivity

theorem pow2_add (a b : Int) : pow2 (a + b) = pow2 a * pow2 b := by
  simp only [pow2_eq]; exact zpow_add₀ (by norm_num) a b

theorem pow2_le {a b : Int} (h : a ≤ b) : pow2 a ≤ pow2 b := by
  simp only [pow2_eq]; exact zpow_le_zpow_right₀ (by norm_num) h

theorem pow2_lt {a b : Int} (h : a < b) : pow2 a < pow2 b := by
  simp only [pow2_eq]; exact zpow_lt_zpow_right₀ (by norm_num) h

theorem pow2_natCast (n : Nat) : pow2 (n : Int) = ((2 ^ n : Nat) : ℚ) := by
  simp [pow2]

theorem log2Fuel_spec (fuel n : Nat) (hf : n ≤ fuel) (hn : 0 < n) :
    2 ^ log2Fuel fuel n ≤ n ∧ n < 2 ^ (log2Fuel fuel n + 1) := by
  induction fuel generalizing n with
  | zero => omega
  | succ fuel ih =>
    have step : ∀ s : Nat, 0 < s → 2 ^ s ≤ n →
        2 ^ (log2Fuel fuel (n / 2 ^ s) + s) ≤ n ∧ n < 2 ^ (log2Fuel fuel (n / 2 ^ s) + s + 1) := by
      intro s hs h
      have hp : 0 < 2 ^ s := by positivity
      have h2 : 2 ≤ 2 ^ s := by
        calc 2 = 2 ^ 1 := by norm_num
          _ ≤ 2 ^ s := Nat.pow_le_pow_right (by norm_num) hs
      have hpos : 0 < n / 2 ^ s := Nat.div_pos h hp
      have hlt : n / 2 ^ s < n := Nat.div_lt_self hn (by omega)
      obtain ⟨h1, h3⟩ := ih (n / 2 ^ s) (by omega) hpos
      constructor
      · rw [pow_add]
        calc 2 ^ log2Fuel fuel (n / 2 ^ s) * 2 ^ s ≤ n / 2 ^ s * 2 ^ s :=
              Nat.mul_le_mul_right _ h1
          _ ≤ n := Nat.div_mul_le_self n (2 ^ s)
      · have : n < (n / 2 ^ s + 1) * 2 ^ s := by
          have := Nat.lt_succ_iff.mpr (le_refl (n / 2 ^ s))
          exact (Nat.div_lt_iff_lt_mul hp).mp this
        calc n < (n / 2 ^ s + 1) * 2 ^ s := this
          _ ≤ 2 ^ (log2Fuel fuel (n / 2 ^ s) + 1) * 2 ^ s :=
              Nat.mul_le_mul_right _ h3
          _ = 2 ^ (log2Fuel fuel (n / 2 ^ s) + s + 1) := by ring
    unfold log2Fuel
    split_ifs with h64 h16 h4 h2
    · exact step 64 (by norm_num) h64
    · exact step 16 (by norm_num) h16
    · exact step 4 (by norm_num) h4
    · have := step 1 (by norm_num) (by simpa using h2)
      simpa using this
    · constructor
      · simpa using hn
      · simpa using (by omega : n < 2)

theorem log2_spec (n : Nat) (hn : 0 < n) : 2 ^ log2 n ≤ n ∧ n < 2 ^ (log2 n + 1) :=
  log2Fuel_spec n n (le_refl n) hn

theorem abs_eq_natAbs_div (q : ℚ) : |q| = (q.num.natAbs : ℚ) / (q.den : ℚ) := by
  conv_lhs => rw [← Rat.num_div_den q]
  rw [abs_div, Nat.abs_cast, Nat.cast_natAbs, Int.cast_abs]

theorem floorLog2_aux (n d : Nat) (hn : 0 < n) (hd : 0 < d) :
    pow2 (if d * 2 ^ log2 n ≤ n * 2 ^ log2 d then (log2 n : Int) - log2 d
      else (log2 n : Int) - log2 d - 1) ≤ (n : ℚ) / d ∧
    (n : ℚ) / d < pow2 ((if d * 2 ^ log2 n ≤ n * 2 ^ log2 d then (log2 n : Int) - log2 d
      else (log2 n : Int) - log2 d - 1) + 1) := by
  obtain ⟨ha1, ha2⟩ := log2_spec _ hn
  obtain ⟨hb1, hb2⟩ := log2_spec _ hd
  have hdq : (0 : ℚ) < d := by exact_mod_cast hd
  have h2a : (0 : ℚ) < 2 ^ (log2 n) := by positivity
  have h2b : (0 : ℚ) < 2 ^ (log2 d) := by positivity
  have e1 : pow2 ((log2 n : Int) - (log2 d : Int)) = (2 : ℚ) ^ (log2 n) / 2 ^ (log2 d) := by
    rw [pow2_eq, zpow_sub₀ (by norm_num), zpow_natCast, zpow_natCast]
  have e2 : pow2 ((log2 n : Int) - (log2 d : Int) + 1) = (2 : ℚ) ^ (log2 n + 1) / 2 ^ (log2 d) := by
    rw [pow2_add, e1, pow_succ]
    have : pow2 1 = 2 := by simp [pow2]
    rw [this]; ring
  have e3 : pow2 ((log2 n : Int) - (log2 d : Int) - 1) = (2 : ℚ) ^ (log2 n) / 2 ^ (log2 d + 1) := by
    have : (log2 n : Int) - (log2 d : Int) - 1 = (log2 n : Int) - ((log2 d + 1 : Nat) : Int) := by
      push_cast; ring
    rw [this, pow2_eq, zpow_sub₀ (by norm_num), zpow_natCast, zpow_natCast]
  split_ifs with h
  · rw [e1, e2]
    constructor
    · rw [div_le_div_iff₀ h2b hdq]
      have : (d : ℚ) * 2 ^ log2 n ≤ (n : ℚ) * 2 ^ log2 d := by exact_mod_cast h
      linarith
    · rw [div_lt_div_iff₀ hdq h2b]
      have h1 : (n : ℚ) < 2 ^ (log2 n + 1) := by exact_mod_cast ha2
      have h2 : (2 : ℚ) ^ log2 d ≤ d := by exact_mod_cast hb1
      calc (n : ℚ) * 2 ^ log2 d ≤ n * d := by
            apply mul_le_mul_of_nonneg_left h2; positivity
        _ < 2 ^ (log2 n + 1) * d := by
            apply mul_lt_mul_of_pos_right h1 hdq
  · have e4 : (log2 n : Int) - (log2 d : Int) - 1 + 1 = (log2 n : Int) - (log2 d : Int) := by ring
    rw [e4, e1, e3]
    constructor
    · rw [div_le_div_iff₀ (by positivity) hdq]
      have h1 : (d : ℚ) < 2 ^ (log2 d + 1) := by exact_mod_cast hb2
      have h2 : (2 : ℚ) ^ log2 n ≤ n := by exact_mod_cast ha1
      calc (2 : ℚ) ^ log2 n * d ≤ 2 ^ log2 n * 2 ^ (log2 d + 1) := by
            apply mul_le_mul_of_nonneg_left h1.le; positivity
        _ ≤ n * 2 ^ (log2 d + 1) := by
            apply mul_le_mul_of_nonneg_right h2; positivity
    · rw [div_lt_div_iff₀ hdq h2b]
      push_neg at h
      have : (n : ℚ) * 2 ^ log2 d < (d : ℚ) * 2 ^ log2 n := by exact_mod_cast h
      linarith

theorem floorLog2_spec (q : ℚ) (hq : q ≠ 0) :
    pow2 (floorLog2 q) ≤ |q| ∧ |q| < pow2 (floorLog2 q + 1) := by
  have hn : 0 < q.num.natAbs := Int.natAbs_pos.mpr (Rat.num_ne_zero.mpr hq)
  have hd : 0 < q.den := q.den_pos
  rw [abs_eq_natAbs_div]
  exact floorLog2_aux _ _ hn hd

/-- The exponent is determined by the bracket. -/
theorem floorLog2_unique (q : ℚ) (e : Int) (h1 : pow2 e ≤ |q|) (h2 : |q| < pow2 (e + 1)) :
    floorLog2 q = e := by
  have hq : q ≠ 0 := by
    rintro rfl
    have := pow2_pos e
    simp at h1
    linarith
  obtain ⟨s1, s2⟩ := floorLog2_spec q hq
  by_contra hne
  rcases lt_or_gt_of_ne hne with h | h
  · have : pow2 (floorLog2 q + 1) ≤ pow2 e := pow2_le (by omega)
    linarith
  · have : pow2 (e + 1) ≤ pow2 (floorLog2 q) := pow2_le (by omega)
    linarith

theorem floorLog2_mono {a b : ℚ} (ha : a ≠ 0) (hab : |a| ≤ |b|) : floorLog2 a ≤ floorLog2 b := by
  have hb : b ≠ 0 := by
    rintro rfl
    simp at hab
    exact ha hab
  obtain ⟨a1, _⟩ := floorLog2_spec a ha
  obtain ⟨_, b2⟩ := floorLog2_spec b hb
  by_contra h
  push_neg at h
  have : pow2 (floorLog2 b + 1) ≤ pow2 (floorLog2 a) := pow2_le (by omega)
  linarith

theorem floorLog2_neg (q : ℚ) : floorLog2 (-q) = floorLog2 q := by
  unfold floorLog2
  simp

/-! ### roundEven -/

theorem roundEven_intCast (n : Int) : roundEven (n : ℚ) = n := by
  unfold roundEven
  simp

theorem roundEven_sub_le (x : ℚ) : |(roundEven x : ℚ) - x| ≤ 1 / 2 := by
  unfold roundEven
  have h1 := Int.floor_le x
  have h2 := Int.lt_floor_add_one x
  simp only []
  split_ifs with a b c
  · rw [abs_le]; constructor <;> linarith
  · push_cast; rw [abs_le]; constructor <;> linarith
  · rw [abs_le]; constructor <;> linarith
  · push_cast; rw [abs_le]; constructor <;> linarith

theorem roundEven_mono {x y : ℚ} (h : x ≤ y) : roundEven x ≤ roundEven y := by
  have hf : Int.floor x ≤ Int.floor y := Int.floor_mono h
  rcases hf.lt_or_eq with hlt | heq
  · -- distinct floors: roundEven x ≤ ⌊x⌋ + 1 ≤ ⌊y⌋ ≤ roundEven y
    have hx : roundEven x ≤ Int.floor x + 1 := by
      unfold roundEven; simp only []; split_ifs <;> omega
    have hy : Int.floor y ≤ roundEven y := by
      unfold roundEven; simp only []; split_ifs <;> omega
    omega
  · unfold roundEven
    simp only []
    rw [← heq]
    have hxy : x - (Int.floor x : ℚ) ≤ y - (Int.floor x : ℚ) := by linarith
    split_ifs <;> first | omega | (exfalso; linarith)

theorem roundEven_neg (x : ℚ) : roundEven (-x) = -roundEven x := by
  by_cases hx : (Int.floor x : ℚ) = x
  · rw [← hx, ← Int.cast_neg, roundEven_intCast, roundEven_intCast]
  · have hlt : (Int.floor x : ℚ) < x := lt_of_le_of_ne (Int.floor_le x) hx
    have hfl : Int.floor (-x) = -(Int.floor x) - 1 := by
      rw [Int.floor_eq_iff]
      have := Int.lt_floor_add_one x
      push_cast
      constructor <;> linarith
    unfold roundEven
    simp only []
    rw [hfl]
    push_cast
    have h2 := Int.lt_floor_add_one x
    split_ifs <;> first | omega | (exfalso; linarith)

theorem roundEven_nonneg {x : ℚ} (h : 0 ≤ x) : 0 ≤ roundEven x := by
  have := roundEven_mono h
  rwa [show (0 : ℚ) = ((0 : Int) : ℚ) by simp, roundEven_intCast] at this

theorem le_roundEven {x : ℚ} {n : Int} (h : (n : ℚ) ≤ x) : n ≤ roundEven x := by
  have := roundEven_mono h
  rwa [roundEven_intCast] at this

theorem roundEven_le {x : ℚ} {n : Int} (h : x ≤ (n : ℚ)) : roundEven x ≤ n := by
  have := roundEven_mono h
  rwa [roundEven_intCast] at this

theorem roundTo_zero (p : Nat) (emin : Int) : roundTo p emin 0 = 0 := by
  simp [roundTo]

theorem roundTo_neg (p : Nat) (emin : Int) (q : ℚ) : roundTo p emin (-q) = -roundTo p emin q := by
  unfold roundTo
  by_cases hq : q = 0
  · simp [hq]
  · have hq2 : -q ≠ 0 := neg_ne_zero.mpr hq
    simp only [hq, hq2, if_false, floorLog2_neg, neg_div, roundEven_neg]
    push_cast
    ring

/-- The scaled value `q / 2 ^ k` that `roundTo` rounds to an integer. -/
theorem roundTo_eq (p : Nat) (emin : Int) (q : ℚ) (hq : q ≠ 0) :
    roundTo p emin q =
      (roundEven (q / pow2 (max (floorLog2 q - ((p - 1 : Nat) : Int)) emin)) : ℚ) *
        pow2 (max (floorLog2 q - ((p - 1 : Nat) : Int)) emin) := by
  simp [roundTo, hq]

theorem pow2_sub_mul (a b : Int) : pow2 (a - b) * pow2 b = pow2 a := by
  rw [← pow2_add]; congr 1; ring

theorem pow2_toNat {j : Int} (h : 0 ≤ j) : pow2 j = (((2 : Int) ^ j.toNat : Int) : ℚ) := by
  lift j to Nat using h
  simp [pow2]

/-- Numbers `m * 2 ^ j` with `|m| < 2 ^ p` and `emin ≤ j` are left unchanged. -/
theorem roundTo_exact (p : Nat) (emin : Int) (m j : Int) (hj : emin ≤ j)
    (hm : |m| < 2 ^ p) (hp : 1 ≤ p) : roundTo p emin (m * pow2 j) = m * pow2 j := by
  by_cases hq : (m : ℚ) * pow2 j = 0
  · rw [hq, roundTo_zero]
  · rw [roundTo_eq _ _ _ hq]
    obtain ⟨s1, s2⟩ := floorLog2_spec _ hq
    set e := floorLog2 ((m : ℚ) * pow2 j) with he
    have hlt : |(m : ℚ) * pow2 j| < pow2 (p + j) := by
      rw [abs_mul, abs_of_pos (pow2_pos j), pow2_add]
      apply mul_lt_mul_of_pos_right _ (pow2_pos j)
      rw [pow2_natCast]
      have : ((|m| : Int) : ℚ) < ((2 ^ p : Int) : ℚ) := by exact_mod_cast hm
      simpa using this
    have helt : e < p + j := by
      by_contra h
      push_neg at h
      have := pow2_le h
      linarith
    have hk : max (e - ((p - 1 : Nat) : Int)) emin ≤ j := by
      apply max_le _ hj
      have : ((p - 1 : Nat) : Int) = (p : Int) - 1 := by omega
      omega
    set k := max (e - ((p - 1 : Nat) : Int)) emin with hkdef
    have hdiv : (m : ℚ) * pow2 j / pow2 k = ((m * 2 ^ (j - k).toNat : Int) : ℚ) := by
      rw [← pow2_sub_mul j k, ← mul_assoc, mul_div_assoc, div_self (pow2_pos k).ne', mul_one,
        pow2_toNat (by omega : 0 ≤ j - k)]
      push_cast
      ring
    rw [hdiv, roundEven_intCast, ← hdiv, div_mul_cancel₀ _ (pow2_pos k).ne']

theorem roundTo_nonneg (p : Nat) (emin : Int) {q : ℚ} (h : 0 ≤ q) : 0 ≤ roundTo p emin q := by
  by_cases hq : q = 0
  · simp [hq, roundTo_zero]
  · rw [roundTo_eq _ _ _ hq]
    apply mul_nonneg _ (pow2_pos _).le
    have : 0 ≤ roundEven (q / pow2 (max (floorLog2 q - ((p - 1 : Nat) : Int)) emin)) :=
      roundEven_nonneg (div_nonneg h (pow2_pos _).le)
    exact_mod_cast this

/-- Upper bound of the rounded value of a positive number. -/
theorem roundTo_le_pow2 (p : Nat) (emin : Int) {q : ℚ} (h : 0 < q) :
    roundTo p emin q ≤
      pow2 (max (floorLog2 q + 1) (max (floorLog2 q - ((p - 1 : Nat) : Int)) emin)) := by
  have hq : q ≠ 0 := h.ne'
  rw [roundTo_eq _ _ _ hq]
  obtain ⟨s1, s2⟩ := floorLog2_spec _ hq
  rw [abs_of_pos h] at s1 s2
  set e := floorLog2 q with he
  set k := max (e - ((p - 1 : Nat) : Int)) emin with hk
  by_cases hc : 0 ≤ e + 1 - k
  · have hx : q / pow2 k ≤ (((2 : Int) ^ (e + 1 - k).toNat : Int) : ℚ) := by
      rw [← pow2_toNat hc, div_le_iff₀ (pow2_pos k), pow2_sub_mul]
      exact s2.le
    have := roundEven_le hx
    have h3 : (roundEven (q / pow2 k) : ℚ) ≤ pow2 (e + 1 - k) := by
      rw [pow2_toNat hc]; exact_mod_cast this
    calc (roundEven (q / pow2 k) : ℚ) * pow2 k ≤ pow2 (e + 1 - k) * pow2 k :=
          mul_le_mul_of_nonneg_right h3 (pow2_pos k).le
      _ = pow2 (e + 1) := pow2_sub_mul _ _
      _ ≤ pow2 (max (e + 1) k) := pow2_le (le_max_left _ _)
  · push_neg at hc
    have hx : q / pow2 k ≤ ((1 : Int) : ℚ) := by
      rw [div_le_iff₀ (pow2_pos k)]
      have : pow2 (e + 1) ≤ pow2 k := pow2_le (by omega)
      simp
      linarith
    have := roundEven_le hx
    have h3 : (roundEven (q / pow2 k) : ℚ) ≤ 1 := by exact_mod_cast this
    calc (roundEven (q / pow2 k) : ℚ) * pow2 k ≤ 1 * pow2 k :=
          mul_le_mul_of_nonneg_right h3 (pow2_pos k).le
      _ = pow2 k := one_mul _
      _ ≤ pow2 (max (e + 1) k) := pow2_le (le_max_right _ _)

/-- Lower bound of the rounded value of a positive number in the normal range. -/
theorem pow2_le_roundTo (p : Nat) (emin : Int) {q : ℚ} (h : 0 < q)
    (hn : emin ≤ floorLog2 q - ((p - 1 : Nat) : Int)) :
    pow2 (floorLog2 q) ≤ roundTo p emin q := by
  have hq : q ≠ 0 := h.ne'
  rw [roundTo_eq _ _ _ hq]
  obtain ⟨s1, s2⟩ := floorLog2_spec _ hq
  rw [abs_of_pos h] at s1 s2
  set e := floorLog2 q with he
  rw [max_eq_left hn]
  set k := e - ((p - 1 : Nat) : Int) with hk
  have hc : 0 ≤ e - k := by omega
  have hx : (((2 : Int) ^ (e - k).toNat : Int) : ℚ) ≤ q / pow2 k := by
    rw [← pow2_toNat hc, le_div_iff₀ (pow2_pos k), pow2_sub_mul]
    exact s1
  have := le_roundEven hx
  have h3 : pow2 (e - k) ≤ (roundEven (q / pow2 k) : ℚ) := by
    rw [pow2_toNat hc]; exact_mod_cast this
  calc pow2 e = pow2 (e - k) * pow2 k := (pow2_sub_mul _ _).symm
    _ ≤ (roundEven (q / pow2 k) : ℚ) * pow2 k := mul_le_mul_of_nonneg_right h3 (pow2_pos k).le

theorem roundTo_mono_pos (p : Nat) (emin : Int) {a b : ℚ} (ha : 0 < a) (hab : a ≤ b) :
    roundTo p emin a ≤ roundTo p emin b := by
  have hb : 0 < b := lt_of_lt_of_le ha hab
  have he : floorLog2 a ≤ floorLog2 b :=
    floorLog2_mono ha.ne' (by rwa [abs_of_pos ha, abs_of_pos hb])
  by_cases hk : max (floorLog2 a - ((p - 1 : Nat) : Int)) emin =
      max (floorLog2 b - ((p - 1 : Nat) : Int)) emin
  · rw [roundTo_eq _ _ _ ha.ne', roundTo_eq _ _ _ hb.ne', hk]
    apply mul_le_mul_of_nonneg_right _ (pow2_pos _).le
    have : roundEven (a / pow2 (max (floorLog2 b - ((p - 1 : Nat) : Int)) emin)) ≤
        roundEven (b / pow2 (max (floorLog2 b - ((p - 1 : Nat) : Int)) emin)) :=
      roundEven_mono (div_le_div_of_nonneg_right hab (pow2_pos _).le)
    exact_mod_cast this
  · have hn : emin ≤ floorLog2 b - ((p - 1 : Nat) : Int) := by
      by_contra hcon
      push_neg at hcon
      apply hk
      rw [max_eq_right hcon.le, max_eq_right (by omega)]
    have hlt : floorLog2 a < floorLog2 b := by
      rcases he.lt_or_eq with h | h
      · exact h
      · exact absurd (by rw [h]) hk
    calc roundTo p emin a
        ≤ pow2 (max (floorLog2 a + 1) (max (floorLog2 a - ((p - 1 : Nat) : Int)) emin)) :=
          roundTo_le_pow2 p emin ha
      _ ≤ pow2 (floorLog2 b) := by
          apply pow2_le
          apply max_le (by omega)
          apply max_le (by omega) (by omega)
      _ ≤ roundTo p emin b := pow2_le_roundTo p emin hb hn

theorem roundTo_mono (p : Nat) (emin : Int) {a b : ℚ} (hab : a ≤ b) :
    roundTo p emin a ≤ roundTo p emin b := by
  rcases lt_trichotomy 0 a with ha | ha | ha
  · exact roundTo_mono_pos p emin ha hab
  · rw [← ha, roundTo_zero]
    exact roundTo_nonneg p emin (by rw [ha]; exact hab)
  · rcases le_or_lt 0 b with hb | hb
    · have h1 : roundTo p emin a ≤ 0 := by
        have := roundTo_nonneg p emin (neg_nonneg.mpr ha.le)
        rw [roundTo_neg] at this
        linarith
      exact le_trans h1 (roundTo_nonneg p emin hb)
    · have := roundTo_mono_pos p emin (neg_pos.mpr hb) (neg_le_neg hab)
      rw [roundTo_neg, roundTo_neg] at this
      linarith

/-- The rounded value is `m * 2 ^ k` with `|m| ≤ 2 ^ p` and `emin ≤ k`. -/
theorem roundTo_repr (p : Nat) (emin : Int) (hp : 1 ≤ p) (q : ℚ) :
    ∃ m k : Int, emin ≤ k ∧ |m| ≤ 2 ^ p ∧ roundTo p emin q = m * pow2 k := by
  by_cases hq : q = 0
  · exact ⟨0, emin, le_refl _, by simp, by simp [hq, roundTo_zero]⟩
  · wlog hpos : 0 < q generalizing q
    · have hneg : 0 < -q := by
        rcases lt_or_gt_of_ne hq with h | h
        · linarith
        · exact absurd h hpos
      obtain ⟨m, k, h1, h2, h3⟩ := this (-q) (neg_ne_zero.mpr hq) hneg
      refine ⟨-m, k, h1, by simpa using h2, ?_⟩
      rw [roundTo_neg] at h3
      push_cast
      linarith
    · obtain ⟨s1, s2⟩ := floorLog2_spec _ hq
      rw [abs_of_pos hpos] at s1 s2
      refine ⟨roundEven (q / pow2 (max (floorLog2 q - ((p - 1 : Nat) : Int)) emin)),
        max (floorLog2 q - ((p - 1 : Nat) : Int)) emin, le_max_right _ _, ?_, roundTo_eq _ _ _ hq⟩
      have hk1 : floorLog2 q - ((p - 1 : Nat) : Int) ≤
          max (floorLog2 q - ((p - 1 : Nat) : Int)) emin := le_max_left _ _
      generalize max (floorLog2 q - ((p - 1 : Nat) : Int)) emin = k at hk1 ⊢
      have h0 : 0 ≤ roundEven (q / pow2 k) := roundEven_nonneg (div_nonneg hpos.le (pow2_pos _).le)
      rw [abs_of_nonneg h0]
      apply roundEven_le
      rw [div_le_iff₀ (pow2_pos k)]
      have : pow2 (floorLog2 q + 1) ≤ pow2 (p + k) := pow2_le (by omega)
      have h2 : pow2 (p + k) = (((2 : Int) ^ p : Int) : ℚ) * pow2 k := by
        rw [pow2_add, pow2_natCast]; push_cast; ring
      linarith

theorem roundTo_idem (p : Nat) (emin : Int) (hp : 1 ≤ p) (q : ℚ) :
    roundTo p emin (roundTo p emin q) = roundTo p emin q := by
  obtain ⟨m, k, h1, h2, h3⟩ := roundTo_repr p emin hp q
  rw [h3]
  rcases h2.lt_or_eq with h | h
  · exact roundTo_exact p emin m k h1 h hp
  · -- |m| = 2 ^ p: renormalise
    have h2dvd : (2 : Int) ∣ m := by
      have : (2 : Int) ∣ |m| := by
        rw [h]; exact dvd_pow_self 2 (by omega)
      exact (dvd_abs 2 m).mp this
    obtain ⟨c, rfl⟩ := h2dvd
    have hm : ((2 * c : Int) : ℚ) * pow2 k = (c : ℚ) * pow2 (k + 1) := by
      rw [pow2_add]
      have : pow2 1 = 2 := by simp [pow2]
      rw [this]
      push_cast
      ring
    rw [hm]
    apply roundTo_exact p emin _ _ (by omega) _ hp
    have h2p : (2 : Int) ^ p = 2 * 2 ^ (p - 1) := by
      rw [← pow_succ']; congr 1; omega
    rw [abs_mul, h2p] at h
    have hpos : (0 : Int) < 2 ^ (p - 1) := by positivity
    have : |c| = 2 ^ (p - 1) := by
      have h2 : |(2 : Int)| = 2 := by norm_num
      rw [h2] at h
      omega
    rw [this, h2p]
    omega

/-! ### The two formats -/

theorem fl_zero : fl 0 = 0 := roundTo_zero 24 (-149)

theorem fl_neg (q : ℚ) : fl (-q) = -fl q := roundTo_neg 24 (-149) q

theorem fl_nonneg {q : ℚ} (h : 0 ≤ q) : 0 ≤ fl q := roundTo_nonneg 24 (-149) h

theorem fl_mono {a b : ℚ} (h : a ≤ b) : fl a ≤ fl b := roundTo_mono 24 (-149) h

theorem fl_idem (q : ℚ) : fl (fl q) = fl q := roundTo_idem 24 (-149) (by norm_num) q

theorem fl_nonpos {q : ℚ} (h : q ≤ 0) : fl q ≤ 0 := by
  have := fl_mono h
  rwa [fl_zero] at this

/-- Integers up to `2 ^ 24` in magnitude are binary32 numbers. -/
theorem fl_intCast (n : Int) (h : |n| ≤ 2 ^ 24) : fl (n : ℚ) = n := by
  rcases h.lt_or_eq with h | h
  · have := roundTo_exact 24 (-149) n 0 (by norm_num) h (by norm_num)
    simpa [pow2, fl] using this
  · have h2 : n = 2 ^ 24 ∨ n = -2 ^ 24 := by
      rcases abs_cases n with ⟨h1, _⟩ | ⟨h1, _⟩ <;> [left; right] <;> omega
    have e : ((2 ^ 24 : Int) : ℚ) = ((2 ^ 23 : Int) : ℚ) * pow2 1 := by
      simp [pow2]; norm_num
    have := roundTo_exact 24 (-149) (2 ^ 23) 1 (by norm_num) (by norm_num) (by norm_num)
    rw [← e] at this
    rcases h2 with rfl | rfl
    · exact this
    · have h3 := fl_neg ((2 ^ 24 : Int) : ℚ)
      unfold fl at h3 ⊢
      rw [this] at h3
      simpa using h3

theorem ofInt_eq (n : Int) (h : |n| ≤ 2 ^ 24) : ofInt n = n := fl_intCast n h

theorem dbl_zero : dbl 0 = 0 := roundTo_zero 53 (-1074)

theorem dbl_nonneg {q : ℚ} (h : 0 ≤ q) : 0 ≤ dbl q := roundTo_nonneg 53 (-1074) h

theorem dbl_mono {a b : ℚ} (h : a ≤ b) : dbl a ≤ dbl b := roundTo_mono 53 (-1074) h

/-! ## Binary32: the undeformed lattice -/

theorem lattice_length_b32 (x y w h : Int) : (lattice x y w h).length = 16 := by
  simp [lattice]

theorem initLoop_eq_b32 (os : List Object) (x y w h : Int) (hl : os.length = 16) :
    (List.range GRID_HEIGHT).foldl (fun objs gridY =>
    (List.range GRID_WIDTH).foldl (fun objs gridX =>
      modifyObject objs (gridY * GRID_WIDTH + gridX) (fun o =>
        objectInit o
          (fl (ofInt x + fl (ofInt ((gridX : Int) * w) / ofInt ((GRID_WIDTH - 1 : Nat) : Int))))
          (fl (ofInt y + fl (ofInt ((gridY : Int) * h) / ofInt ((GRID_HEIGHT - 1 : Nat) : Int))))
          0 0)) objs) os
    = (List.range 16).map (fun i => latticeObject x y w h false (i % 4) (i / 4)) := by
  obtain ⟨a0, a1, a2, a3, a4, a5, a6, a7, a8, a9, a10, a11, a12, a13, a14, a15, rfl⟩ :=
    list_length_16 os hl
  rfl

theorem getObject_unpinned_immobile_b32 (x y w h : Int) (a : Nat) :
    (getObject ((List.range 16).map (fun i => latticeObject x y w h false (i % 4) (i / 4))) a).immobile
      = false := by
  by_cases ha : a < 16
  · simp [getObject, List.getD_eq_getElem?_getD, List.getElem?_map, List.getElem?_range ha,
      latticeObject]
  · rw [getObject_of_le _ _ (by simpa using ha)]
    rfl

theorem modelInitObjects_eq_b32 (m : Model) (x y w h : Int) (hl : m.objects.length = 16) :
    modelInitObjects m x y w h
      = { m with objects := lattice x y w h, anchorObject := some 5 } := by
  unfold modelInitObjects
  simp only [initLoop_eq_b32 m.objects x y w h hl]
  unfold modelSetMiddleAnchor
  cases ha : m.anchorObject with
  | none => rfl
  | some a =>
    have hself : modifyObject ((List.range 16).map
          (fun i => latticeObject x y w h false (i % 4) (i / 4))) a
            (fun o => { o with immobile := false })
        = (List.range 16).map (fun i => latticeObject x y w h false (i % 4) (i / 4)) := by
      apply modifyObject_eq_self
      have := getObject_unpinned_immobile_b32 x y w h a
      cases hg : getObject ((List.range 16).map
          (fun i => latticeObject x y w h false (i % 4) (i / 4))) a
      simp_all
    simp only [hself]
    rfl

theorem modelInitSprings_eq_b32 (m : Model) (x y w h : Int) :
    modelInitSprings m x y w h = { m with springs := gridSprings w h } := by
  simp [modelInitSprings, modelAddSpring, gridSprings, range4, range16, GRID_WIDTH, GRID_HEIGHT]

theorem createModel_eq_b32 (x y w h : Int) :
    createModel true true x y w h = some (latticeModel x y w h) := by
  unfold createModel latticeModel
  simp only [Bool.not_true, Bool.false_eq_true, if_false]
  rw [modelInitObjects_eq_b32 _ _ _ _ _ (by simp [GRID_WIDTH, GRID_HEIGHT]),
    modelInitSprings_eq_b32]

/-! ## C1 in binary32: bounding box of a fresh model -/

/-- A coordinate of the undeformed lattice: it starts at the rectangle's edge,
ends at the opposite edge and stays between the two, as long as the edges and
three times the extent are integers that binary32 represents. -/
theorem lattice_coord (x w : Int) (g : Nat) (hg : g ≤ 3) (hw : 0 ≤ w) (hx : |x| ≤ 2 ^ 24)
    (hxw : |x + w| ≤ 2 ^ 24) (h3 : 3 * w ≤ 2 ^ 24) :
    (x : ℚ) ≤ fl (ofInt x + fl (ofInt ((g : Int) * w) / ofInt ((GRID_WIDTH - 1 : Nat) : Int))) ∧
    fl (ofInt x + fl (ofInt ((g : Int) * w) / ofInt ((GRID_WIDTH - 1 : Nat) : Int))) ≤ (x : ℚ) + w ∧
    (g = 0 → fl (ofInt x + fl (ofInt ((g : Int) * w) / ofInt ((GRID_WIDTH - 1 : Nat) : Int))) = x) ∧
    (g = 3 →
      fl (ofInt x + fl (ofInt ((g : Int) * w) / ofInt ((GRID_WIDTH - 1 : Nat) : Int))) = (x : ℚ) + w) := by
  have hgw : |(g : Int) * w| ≤ 2 ^ 24 := by
    rw [abs_of_nonneg (mul_nonneg (by positivity) hw)]
    have : (g : Int) * w ≤ 3 * w := mul_le_mul_of_nonneg_right (by exact_mod_cast hg) hw
    omega
  have e3 : ofInt ((GRID_WIDTH - 1 : Nat) : Int) = 3 := by
    rw [ofInt_eq _ (by simp [GRID_WIDTH])]
    simp [GRID_WIDTH]
  rw [ofInt_eq x hx, ofInt_eq _ hgw, e3]
  have hwq : (0 : ℚ) ≤ w := by exact_mod_cast hw
  have hgq : (g : ℚ) ≤ 3 := by exact_mod_cast hg
  have hg0 : (0 : ℚ) ≤ (g : ℚ) := by positivity
  have hflw : fl (w : ℚ) = w := fl_intCast w (by rw [abs_of_nonneg hw]; omega)
  have hflx : fl (x : ℚ) = x := fl_intCast x hx
  have hflxw : fl ((x : ℚ) + w) = (x : ℚ) + w := by
    have := fl_intCast (x + w) hxw
    push_cast at this
    exact this
  have ht0 : 0 ≤ fl ((((g : Int) * w : Int) : ℚ) / 3) := by
    apply fl_nonneg
    push_cast
    positivity
  have ht1 : fl ((((g : Int) * w : Int) : ℚ) / 3) ≤ w := by
    rw [← hflw]
    apply fl_mono
    push_cast
    have : (g : ℚ) * w ≤ 3 * w := mul_le_mul_of_nonneg_right hgq hwq
    linarith
  refine ⟨?_, ?_, ?_, ?_⟩
  · calc (x : ℚ) = fl (x : ℚ) := hflx.symm
      _ ≤ _ := fl_mono (by linarith)
  · calc fl ((x : ℚ) + fl ((((g : Int) * w : Int) : ℚ) / 3)) ≤ fl ((x : ℚ) + w) :=
          fl_mono (by linarith)
      _ = (x : ℚ) + w := hflxw
  · intro h0
    subst h0
    simp [fl_zero, hflx]
  · intro h3
    subst h3
    have : (((3 : Nat) : Int) * w : Int) = 3 * w := by norm_num
    rw [this]
    have e : (((3 * w : Int)) : ℚ) / 3 = w := by push_cast; ring
    rw [e, hflw, hflxw]

theorem lattice_xs_b32 (x y w h : Int) :
    (lattice x y w h).map (fun o => o.position.x)
      = (List.range 16).map (fun i =>
          fl (ofInt x + fl (ofInt (((i % 4 : Nat) : Int) * w) / ofInt ((GRID_WIDTH - 1 : Nat) : Int)))) := by
  simp [lattice, latticeObject]

theorem lattice_ys_b32 (x y w h : Int) :
    (lattice x y w h).map (fun o => o.position.y)
      = (List.range 16).map (fun i =>
          fl (ofInt y + fl (ofInt (((i / 4 : Nat) : Int) * h) / ofInt ((GRID_HEIGHT - 1 : Nat) : Int)))) := by
  simp [lattice, latticeObject]

/-- The scan of `modelCalcBounds` on one axis over sixteen positions that start
at `lo`, reach `hi` and stay between the two. -/
theorem boundsAxis_sixteen (f : Nat → ℚ) (lo hi : ℚ) (h0 : f 0 = lo) (k : Nat) (hk : 0 < k)
    (hk16 : k < 16) (hhi : f k = hi) (hall : ∀ i < 16, lo ≤ f i ∧ f i ≤ hi) :
    ((List.range 16).map f).foldl boundsAxis (MAXSHORT, MINSHORT)
      = (min lo MAXSHORT, max hi MINSHORT) := by
  have hr : (List.range 16).map f = f 0 :: ((List.range 15).map (fun i => f (i + 1))) := by
    rw [range16]
    rfl
  rw [hr, h0]
  apply foldl_boundsAxis_from_sentinels
  · intro p hp
    obtain ⟨i, hi, rfl⟩ := List.mem_map.mp hp
    exact (hall (i + 1) (by have := List.mem_range.mp hi; omega)).1
  · rw [← hhi]
    exact List.mem_map.mpr ⟨k - 1, List.mem_range.mpr (by omega), by congr 1; omega⟩
  · intro p hp
    obtain ⟨i, hi, rfl⟩ := List.mem_map.mp hp
    exact (hall (i + 1) (by have := List.mem_range.mp hi; omega)).2

theorem lattice_bounds_b32 (x y w h : Int) (hw : 0 ≤ w) (hh : 0 ≤ h)
    (hx : |x| ≤ 2 ^ 24) (hxw : |x + w| ≤ 2 ^ 24) (h3w : 3 * w ≤ 2 ^ 24)
    (hy : |y| ≤ 2 ^ 24) (hyh : |y + h| ≤ 2 ^ 24) (h3h : 3 * h ≤ 2 ^ 24) :
    (lattice x y w h).foldl boundsStep (⟨MAXSHORT, MAXSHORT⟩, ⟨MINSHORT, MINSHORT⟩)
      = (⟨min (x : ℚ) MAXSHORT, min (y : ℚ) MAXSHORT⟩,
         ⟨max ((x : ℚ) + w) MINSHORT, max ((y : ℚ) + h) MINSHORT⟩) := by
  rw [foldl_boundsStep, lattice_xs_b32, lattice_ys_b32]
  rw [boundsAxis_sixteen _ (x : ℚ) ((x : ℚ) + w) _ 3 (by norm_num) (by norm_num),
    boundsAxis_sixteen _ (y : ℚ) ((y : ℚ) + h) _ 12 (by norm_num) (by norm_num)]
  · exact (lattice_coord y h (12 / 4) (by norm_num) hh hy hyh h3h).2.2.2 rfl
  · intro i hi
    have := lattice_coord y h (i / 4) (by omega) hh hy hyh h3h
    exact ⟨this.1, this.2.1⟩
  · exact (lattice_coord y h (0 / 4) (by norm_num) hh hy hyh h3h).2.2.1 rfl
  · exact (lattice_coord x w (3 % 4) (by norm_num) hw hx hxw h3w).2.2.2 rfl
  · intro i hi
    have := lattice_coord x w (i % 4) (by omega) hw hx hxw h3w
    exact ⟨this.1, this.2.1⟩
  · exact (lattice_coord x w (0 % 4) (by norm_num) hw hx hxw h3w).2.2.1 rfl

/-- C1, counterexamples in binary32 arithmetic: (1) for the rectangle
`(40000, 0, 400, 200)` the bounding box has `topLeft.x = 32767`, the sentinel
of `modelCalcBounds`, not `40000`; (2) for the rectangle
`(0, 0, 16777217, 200)` the lattice coordinate `(3 * width) / 3` is rounded
twice and the bounding box has `bottomRight.x = 16777218`, not `16777217`. -/
theorem createModel_box_counterexample :
    (0 : Int) < 400 ∧ (0 : Int) < 200 ∧ (0 : Int) < 16777217 ∧
    (createModel true true 40000 0 400 200).map (fun m => m.topLeft.x) = some 32767 ∧
    (createModel true true 0 0 16777217 200).map (fun m => m.bottomRight.x) = some 16777218 ∧
    (createModel true true 0 0 16777217 200).map (fun m => m.bottomRight.x)
      ≠ some (((0 : Int) : ℚ) + ((16777217 : Int) : ℚ)) := by
  decide!

/-- C1, as amended: for every rectangle with positive width and height whose
edges `x`, `y`, `x + width`, `y + height` and extents `3 * width`,
`3 * height` are at most `2 ^ 24` in magnitude (integers that binary32
represents), `createModel` yields a model whose bounding box is the
rectangle's corners clamped at the sentinels of `modelCalcBounds`:
`topLeft = (min x 32767, min y 32767)` and
`bottomRight = (max (x + width) (-32768), max (y + height) (-32768))`.  Hence
it equals the rectangle's corners `(x, y)` and `(x + width, y + height)`
whenever these lie in the range `-32768 .. 32767` of the sentinels. -/
theorem createModel_box (x y width height : Int) (hw : 0 < width) (hh : 0 < height)
    (hx : |x| ≤ 2 ^ 24) (hxw : |x + width| ≤ 2 ^ 24) (h3w : 3 * width ≤ 2 ^ 24)
    (hy : |y| ≤ 2 ^ 24) (hyh : |y + height| ≤ 2 ^ 24) (h3h : 3 * height ≤ 2 ^ 24) :
    ∃ m, createModel true true x y width height = some m ∧
      m.topLeft = ⟨min (x : ℚ) MAXSHORT, min (y : ℚ) MAXSHORT⟩ ∧
      m.bottomRight = ⟨max ((x : ℚ) + width) MINSHORT, max ((y : ℚ) + height) MINSHORT⟩ ∧
      (x ≤ 32767 → y ≤ 32767 → -32768 ≤ x + width → -32768 ≤ y + height →
        m.topLeft = ⟨x, y⟩ ∧ m.bottomRight = ⟨(x : ℚ) + width, (y : ℚ) + height⟩) := by
  have hb := lattice_bounds_b32 x y width height (le_of_lt hw) (le_of_lt hh) hx hxw h3w hy hyh h3h
  refine ⟨_, createModel_eq_b32 x y width height, ?_, ?_, ?_⟩
  · simp only [latticeModel, modelCalcBounds, hb]
  · simp only [latticeModel, modelCalcBounds, hb]
  · intro hx1 hy1 hxw1 hyh1
    have hx' : (x : ℚ) ≤ MAXSHORT := by unfold MAXSHORT; exact_mod_cast hx1
    have hy' : (y : ℚ) ≤ MAXSHORT := by unfold MAXSHORT; exact_mod_cast hy1
    have hxw' : MINSHORT ≤ (x : ℚ) + width := by unfold MINSHORT; exact_mod_cast hxw1
    have hyh' : MINSHORT ≤ (y : ℚ) + height := by unfold MINSHORT; exact_mod_cast hyh1
    simp only [latticeModel, modelCalcBounds, hb,
      min_eq_left hx', min_eq_left hy', max_eq_left hxw', max_eq_left hyh', and_self]

/-- C1, witness: the rectangle `(0, 0, 400, 200)` of the scenario. -/
theorem createModel_box_witness :
    ∃ m, createModel true true 0 0 400 200 = some m ∧
      m.topLeft = ⟨min ((0 : Int) : ℚ) MAXSHORT, min ((0 : Int) : ℚ) MAXSHORT⟩ ∧
      m.bottomRight = ⟨max (((0 : Int) : ℚ) + ((400 : Int) : ℚ)) MINSHORT,
        max (((0 : Int) : ℚ) + ((200 : Int) : ℚ)) MINSHORT⟩ ∧
      ((0 : Int) ≤ 32767 → (0 : Int) ≤ 32767 → -32768 ≤ (0 : Int) + 400 →
        -32768 ≤ (0 : Int) + 200 →
        m.topLeft = ⟨((0 : Int) : ℚ), ((0 : Int) : ℚ)⟩ ∧
        m.bottomRight = ⟨((0 : Int) : ℚ) + ((400 : Int) : ℚ),
          ((0 : Int) : ℚ) + ((200 : Int) : ℚ)⟩) :=
  createModel_box 0 0 400 200 (by decide) (by decide) (by decide) (by decide) (by decide)
    (by decide) (by decide) (by decide)

/-! ## C25 and C29 in binary32: the Bezier patch -/

theorem getObject_lattice_b32 (x y w h : Int) (i : Nat) (hi : i < 16) :
    getObject (lattice x y w h) i = latticeObject x y w h (i == 5) (i % 4) (i / 4) := by
  simp [getObject, lattice, List.getD_eq_getElem?_getD, List.getElem?_map,
    List.getElem?_range hi]

theorem modelStep_snd_b32 (m : Model) (friction k time : ℚ)
    (h : Int.floor (fl (m.steps + fl (time / 15))) ≠ 0) :
    (modelStep m friction k time).2
      = (if (Nat.iterate (subStep m.springs friction k) (subStepCount m time)
              { objects := m.objects, velocitySum := 0, forceSum := 0 }).forceSum > 20
         then (if (Nat.iterate (subStep m.springs friction k) (subStepCount m time)
              { objects := m.objects, velocitySum := 0, forceSum := 0 }).velocitySum > 1 / 2
            then 0 ||| WobblyVelocity else 0) ||| WobblyForce
         else (if (Nat.iterate (subStep m.springs friction k) (subStepCount m time)
              { objects := m.objects, velocitySum := 0, forceSum := 0 }).velocitySum > 1 / 2
            then 0 ||| WobblyVelocity else 0)) := by
  unfold modelStep subStepCount
  simp only
  rw [if_neg h]

theorem modelStep_fst_b32 (m : Model) (friction k time : ℚ) :
    (modelStep m friction k time).1
      = if Int.floor (fl (m.steps + fl (time / 15))) = 0 then
          { m with steps := fl (fl (m.steps + fl (time / 15))
              - ofInt (Int.floor (fl (m.steps + fl (time / 15))))) }
        else
          modelCalcBounds
            { m with
              steps := fl (fl (m.steps + fl (time / 15))
                - ofInt (Int.floor (fl (m.steps + fl (time / 15)))))
              objects := (Nat.iterate (subStep m.springs friction k) (subStepCount m time)
                { objects := m.objects, velocitySum := 0, forceSum := 0 }).objects } := by
  unfold modelStep subStepCount
  simp only
  split_ifs <;> rfl

theorem modelStep_objects_b32 (m : Model) (friction k time : ℚ) :
    (modelStep m friction k time).1.objects
      = (Nat.iterate (subStep m.springs friction k) (subStepCount m time)
          { objects := m.objects, velocitySum := 0, forceSum := 0 }).objects := by
  rw [modelStep_fst_b32]
  unfold subStepCount
  split_ifs with h
  · rw [h]
    rfl
  · rfl

/-- A coordinate of the lattice of a rectangle whose extent is `3 * a`. -/
theorem lattice_third (x a : Int) (g : Nat) (hg : g ≤ 3) (ha : 0 ≤ a) (hx : |x| ≤ 2 ^ 24)
    (hxw : |x + 3 * a| ≤ 2 ^ 24) (h9 : 9 * a ≤ 2 ^ 24) :
    fl (ofInt x + fl (ofInt ((g : Int) * (3 * a)) / ofInt ((GRID_WIDTH - 1 : Nat) : Int)))
      = (x : ℚ) + g * a := by
  have hg' : (g : Int) ≤ 3 := by exact_mod_cast hg
  have hg0 : (0 : Int) ≤ g := by positivity
  have hga : (g : Int) * a ≤ 3 * a := mul_le_mul_of_nonneg_right hg' ha
  have hga0 : 0 ≤ (g : Int) * a := mul_nonneg hg0 ha
  have e1 : ofInt ((g : Int) * (3 * a)) = ((g : Int) * (3 * a) : Int) := by
    apply ofInt_eq
    rw [abs_of_nonneg (by nlinarith)]
    nlinarith
  have e3 : ofInt ((GRID_WIDTH - 1 : Nat) : Int) = 3 := by
    rw [ofInt_eq _ (by simp [GRID_WIDTH])]
    simp [GRID_WIDTH]
  have e2 : ((((g : Int) * (3 * a) : Int)) : ℚ) / 3 = (((g : Int) * a : Int) : ℚ) := by
    push_cast; ring
  have e4 : fl ((((g : Int) * a : Int)) : ℚ) = (((g : Int) * a : Int) : ℚ) :=
    fl_intCast _ (by rw [abs_of_nonneg hga0]; omega)
  have e5 : fl (((x + (g : Int) * a : Int)) : ℚ) = ((x + (g : Int) * a : Int) : ℚ) := by
    apply fl_intCast
    rw [abs_le] at hx hxw ⊢
    constructor <;> omega
  rw [ofInt_eq x hx, e1, e3, e2, e4]
  have : (x : ℚ) + (((g : Int) * a : Int) : ℚ) = ((x + (g : Int) * a : Int) : ℚ) := by push_cast; ring
  rw [this, e5]
  push_cast
  ring

theorem pad_third (a : Int) (ha : 0 ≤ a) (h3 : 3 * a ≤ 2 ^ 24) :
    fl (ofInt (3 * a) / ofInt ((GRID_WIDTH - 1 : Nat) : Int)) = a := by
  have e3 : ofInt ((GRID_WIDTH - 1 : Nat) : Int) = 3 := by
    rw [ofInt_eq _ (by simp [GRID_WIDTH])]
    simp [GRID_WIDTH]
  rw [ofInt_eq _ (by rw [abs_of_nonneg (by omega)]; exact h3), e3]
  have : (((3 * a : Int)) : ℚ) / 3 = a := by push_cast; ring
  rw [this]
  exact fl_intCast a (by rw [abs_of_nonneg ha]; omega)

theorem mem_gridSprings (w h : Int) (sp : Spring) (hsp : sp ∈ gridSprings w h) :
    ∃ i, i < 16 ∧
      ((0 < i % 4 ∧ sp = springInit (i - 1) i
          (fl (ofInt w / ofInt ((GRID_WIDTH - 1 : Nat) : Int))) 0) ∨
       (0 < i / 4 ∧ sp = springInit (i - GRID_WIDTH) i 0
          (fl (ofInt h / ofInt ((GRID_HEIGHT - 1 : Nat) : Int))))) := by
  unfold gridSprings at hsp
  rw [List.mem_flatMap] at hsp
  obtain ⟨i, hi, hmem⟩ := hsp
  refine ⟨i, List.mem_range.mp hi, ?_⟩
  rw [List.mem_append] at hmem
  rcases hmem with h1 | h1
  · left
    split_ifs at h1 with hc
    · exact ⟨hc, by simpa using h1⟩
    · simp at h1
  · right
    split_ifs at h1 with hc
    · exact ⟨hc, by simpa using h1⟩
    · simp at h1

/-- A spring whose computed elongation is zero leaves masses whose accumulated
forces are binary32 numbers as they are. -/
theorem springExertForces_rest (l : List Object) (sp : Spring) (k : ℚ)
    (hx : fl (fl ((getObject l sp.b).position.x - (getObject l sp.a).position.x) - sp.offset.x) = 0)
    (hy : fl (fl ((getObject l sp.b).position.y - (getObject l sp.a).position.y) - sp.offset.y) = 0)
    (hf : ∀ i, fl (getObject l i).force.x = (getObject l i).force.x ∧
      fl (getObject l i).force.y = (getObject l i).force.y) :
    springExertForces l sp k = l := by
  have hx2 : fl (fl ((getObject l sp.a).position.x - (getObject l sp.b).position.x)
      + sp.offset.x) = 0 := by
    have e : (getObject l sp.a).position.x - (getObject l sp.b).position.x
        = -((getObject l sp.b).position.x - (getObject l sp.a).position.x) := by ring
    rw [e, fl_neg]
    have e2 : -fl ((getObject l sp.b).position.x - (getObject l sp.a).position.x) + sp.offset.x
        = -(fl ((getObject l sp.b).position.x - (getObject l sp.a).position.x) - sp.offset.x) := by
      ring
    rw [e2, fl_neg, hx, neg_zero]
  have hy2 : fl (fl ((getObject l sp.a).position.y - (getObject l sp.b).position.y)
      + sp.offset.y) = 0 := by
    have e : (getObject l sp.a).position.y - (getObject l sp.b).position.y
        = -((getObject l sp.b).position.y - (getObject l sp.a).position.y) := by ring
    rw [e, fl_neg]
    have e2 : -fl ((getObject l sp.b).position.y - (getObject l sp.a).position.y) + sp.offset.y
        = -(fl ((getObject l sp.b).position.y - (getObject l sp.a).position.y) - sp.offset.y) := by
      ring
    rw [e2, fl_neg, hy, neg_zero]
  have happ : ∀ o : Object, fl o.force.x = o.force.x → fl o.force.y = o.force.y →
      objectApplyForce o 0 0 = o := by
    intro o h1 h2
    unfold objectApplyForce
    simp [h1, h2]
  unfold springExertForces
  simp only [hx, hy, hx2, hy2, mul_zero, fl_zero]
  rw [modifyObject_eq_self l sp.a _ (happ _ (hf _).1 (hf _).2),
    modifyObject_eq_self l sp.b _ (happ _ (hf _).1 (hf _).2)]

theorem atRest_getObject_b32 (l : List Object) (x y w h : Int)
    (hl : l.map (fun o => { o with theta := 0 }) = lattice x y w h) (i : Nat) (hi : i < 16) :
    (getObject l i).position = (latticeObject x y w h (i == 5) (i % 4) (i / 4)).position ∧
    (getObject l i).velocity = ⟨0, 0⟩ ∧ (getObject l i).force = ⟨0, 0⟩ := by
  have hlen : l.length = 16 := by
    have := congrArg List.length hl
    rw [List.length_map, lattice_length_b32] at this
    exact this
  have h1 := getObject_map_of_lt l (fun o => { o with theta := 0 }) i (by rw [hlen]; exact hi)
  rw [hl, getObject_lattice_b32 x y w h i hi] at h1
  refine ⟨?_, ?_, ?_⟩
  · exact (congrArg Object.position h1).symm
  · exact (congrArg Object.velocity h1).symm
  · exact (congrArg Object.force h1).symm

theorem atRest_mem_b32 (l : List Object) (x y w h : Int)
    (hl : l.map (fun o => { o with theta := 0 }) = lattice x y w h) (o : Object) (ho : o ∈ l) :
    o.velocity = ⟨0, 0⟩ ∧ o.force = ⟨0, 0⟩ ∧ fl o.position.x = o.position.x ∧
      fl o.position.y = o.position.y := by
  have hmem : ({ o with theta := 0 } : Object) ∈ lattice x y w h := by
    rw [← hl]
    exact List.mem_map.mpr ⟨o, ho, rfl⟩
  unfold lattice at hmem
  obtain ⟨i, _, hi⟩ := List.mem_map.mp hmem
  have hp : o.position = (latticeObject x y w h (i == 5) (i % 4) (i / 4)).position :=
    (congrArg Object.position hi).symm
  refine ⟨(congrArg Object.velocity hi).symm, (congrArg Object.force hi).symm, ?_, ?_⟩
  · rw [hp]
    exact fl_idem _
  · rw [hp]
    exact fl_idem _

theorem atRest_force_b32 (l : List Object) (x y w h : Int)
    (hl : l.map (fun o => { o with theta := 0 }) = lattice x y w h) (i : Nat) :
    fl (getObject l i).force.x = (getObject l i).force.x ∧
      fl (getObject l i).force.y = (getObject l i).force.y := by
  by_cases hi : i < 16
  · rw [(atRest_getObject_b32 l x y w h hl i hi).2.2]
    exact ⟨fl_zero, fl_zero⟩
  · have hlen : l.length = 16 := by
      have := congrArg List.length hl
      rw [List.length_map, lattice_length_b32] at this
      exact this
    rw [getObject_of_le l i (by omega)]
    exact ⟨fl_zero, fl_zero⟩

theorem atRest_springExertForces_b32 (l : List Object) (x y a b : Int) (k : ℚ)
    (ha : 0 ≤ a) (hx : |x| ≤ 2 ^ 24) (hxw : |x + 3 * a| ≤ 2 ^ 24) (h9a : 9 * a ≤ 2 ^ 24)
    (hb : 0 ≤ b) (hy : |y| ≤ 2 ^ 24) (hyh : |y + 3 * b| ≤ 2 ^ 24) (h9b : 9 * b ≤ 2 ^ 24)
    (hl : l.map (fun o => { o with theta := 0 }) = lattice x y (3 * a) (3 * b))
    (sp : Spring) (hsp : sp ∈ gridSprings (3 * a) (3 * b)) :
    springExertForces l sp k = l := by
  have hfa : fl (a : ℚ) = a := fl_intCast a (by rw [abs_of_nonneg ha]; omega)
  have hfb : fl (b : ℚ) = b := fl_intCast b (by rw [abs_of_nonneg hb]; omega)
  obtain ⟨i, hi, hcase⟩ := mem_gridSprings _ _ sp hsp
  apply springExertForces_rest _ _ _ _ _ (atRest_force_b32 l x y _ _ hl)
  · rcases hcase with ⟨hpos, rfl⟩ | ⟨hpos, rfl⟩
    · simp only [springInit]
      rw [(atRest_getObject_b32 l x y _ _ hl i hi).1,
        (atRest_getObject_b32 l x y _ _ hl (i - 1) (by omega)).1]
      simp only [latticeObject]
      rw [lattice_third x a (i % 4) (by omega) ha hx hxw h9a,
        lattice_third x a ((i - 1) % 4) (by omega) ha hx hxw h9a, pad_third a ha (by omega)]
      have e : (i - 1) % 4 + 1 = i % 4 := by omega
      have e2 : (x : ℚ) + ((i % 4 : Nat) : ℚ) * a - (x + (((i - 1) % 4 : Nat) : ℚ) * a) = a := by
        rw [← e]; push_cast; ring
      rw [e2, hfa, sub_self, fl_zero]
    · simp only [springInit]
      rw [(atRest_getObject_b32 l x y _ _ hl i hi).1,
        (atRest_getObject_b32 l x y _ _ hl (i - GRID_WIDTH) (by omega)).1]
      simp only [latticeObject]
      have e : (i - GRID_WIDTH) % 4 = i % 4 := by
        simp only [GRID_WIDTH]; omega
      rw [e, sub_self, fl_zero, sub_self, fl_zero]
  · rcases hcase with ⟨hpos, rfl⟩ | ⟨hpos, rfl⟩
    · simp only [springInit]
      rw [(atRest_getObject_b32 l x y _ _ hl i hi).1,
        (atRest_getObject_b32 l x y _ _ hl (i - 1) (by omega)).1]
      simp only [latticeObject]
      have e : (i - 1) / 4 = i / 4 := by omega
      rw [e, sub_self, fl_zero, sub_self, fl_zero]
    · simp only [springInit]
      rw [(atRest_getObject_b32 l x y _ _ hl i hi).1,
        (atRest_getObject_b32 l x y _ _ hl (i - GRID_WIDTH) (by omega)).1]
      simp only [latticeObject]
      have hy1 := lattice_third y b (i / 4) (by omega) hb hy hyh h9b
      have hy2 := lattice_third y b ((i - GRID_WIDTH) / 4) (by omega) hb hy hyh h9b
      have hp := pad_third b hb (by omega)
      simp only [GRID_WIDTH, GRID_HEIGHT] at hy1 hy2 hp ⊢
      rw [hy1, hy2, hp]
      have e : (i - 4) / 4 + 1 = i / 4 := by omega
      have e2 : (y : ℚ) + ((i / 4 : Nat) : ℚ) * b - (y + (((i - 4) / 4 : Nat) : ℚ) * b) = b := by
        rw [← e]; push_cast; ring
      rw [e2, hfb, sub_self, fl_zero]

theorem atRest_exertAll_b32 (l : List Object) (x y a b : Int) (k : ℚ)
    (ha : 0 ≤ a) (hx : |x| ≤ 2 ^ 24) (hxw : |x + 3 * a| ≤ 2 ^ 24) (h9a : 9 * a ≤ 2 ^ 24)
    (hb : 0 ≤ b) (hy : |y| ≤ 2 ^ 24) (hyh : |y + 3 * b| ≤ 2 ^ 24) (h9b : 9 * b ≤ 2 ^ 24)
    (hl : l.map (fun o => { o with theta := 0 }) = lattice x y (3 * a) (3 * b))
    (springs : List Spring) (hs : ∀ sp ∈ springs, sp ∈ gridSprings (3 * a) (3 * b)) :
    exertAll springs k l = l := by
  unfold exertAll
  induction springs with
  | nil => rfl
  | cons sp rest ih =>
    simp only [List.foldl_cons]
    rw [atRest_springExertForces_b32 l x y a b k ha hx hxw h9a hb hy hyh h9b hl sp
      (hs sp (List.mem_cons_self _ _))]
    exact ih (fun sp2 hsp2 => hs sp2 (List.mem_cons_of_mem _ hsp2))

theorem modelStepObject_atRest_b32 (o : Object) (c : ℚ) (hv : o.velocity = ⟨0, 0⟩)
    (hf : o.force = ⟨0, 0⟩) (hpx : fl o.position.x = o.position.x)
    (hpy : fl o.position.y = o.position.y) :
    ({ (modelStepObject o c).object with theta := 0 } : Object) = { o with theta := 0 } ∧
    (modelStepObject o c).velocity = 0 ∧ (modelStepObject o c).force = 0 := by
  cases o with
  | mk force position velocity theta immobile vertEdge horzEdge =>
    simp only at hv hf hpx hpy
    subst hv hf
    cases immobile <;> simp [modelStepObject, MASS, fl_zero, dbl_zero, hpx, hpy]

theorem stepObjects_atRest_b32 (c : ℚ) (l : List Object)
    (hl : ∀ o ∈ l, o.velocity = ⟨0, 0⟩ ∧ o.force = ⟨0, 0⟩ ∧ fl o.position.x = o.position.x ∧
      fl o.position.y = o.position.y) :
    (stepObjects c l 0 0).velocitySum = 0 ∧ (stepObjects c l 0 0).forceSum = 0 ∧
    (stepObjects c l 0 0).objects.map (fun o => { o with theta := 0 })
      = l.map (fun o => { o with theta := 0 }) := by
  induction l with
  | nil => exact ⟨rfl, rfl, rfl⟩
  | cons o rest ih =>
    obtain ⟨hv, hf, hpx, hpy⟩ := hl o (List.mem_cons_self _ _)
    obtain ⟨h1, h2, h3⟩ := modelStepObject_atRest_b32 o c hv hf hpx hpy
    obtain ⟨g1, g2, g3⟩ := ih (fun o2 ho2 => hl o2 (List.mem_cons_of_mem _ ho2))
    simp only [stepObjects, List.map_cons]
    rw [h2, h3, add_zero, fl_zero, g1, g2, g3, h1]
    exact ⟨rfl, rfl, rfl⟩

theorem iterate_subStep_atRest_b32 (x y a b : Int) (c k : ℚ)
    (ha : 0 ≤ a) (hx : |x| ≤ 2 ^ 24) (hxw : |x + 3 * a| ≤ 2 ^ 24) (h9a : 9 * a ≤ 2 ^ 24)
    (hb : 0 ≤ b) (hy : |y| ≤ 2 ^ 24) (hyh : |y + 3 * b| ≤ 2 ^ 24) (h9b : 9 * b ≤ 2 ^ 24)
    (n : Nat) (st : StepState) (hv : st.velocitySum = 0) (hf : st.forceSum = 0)
    (hl : st.objects.map (fun o => { o with theta := 0 }) = lattice x y (3 * a) (3 * b)) :
    (Nat.iterate (subStep (gridSprings (3 * a) (3 * b)) c k) n st).velocitySum = 0 ∧
    (Nat.iterate (subStep (gridSprings (3 * a) (3 * b)) c k) n st).forceSum = 0 ∧
    (Nat.iterate (subStep (gridSprings (3 * a) (3 * b)) c k) n st).objects.map
        (fun o => { o with theta := 0 }) = lattice x y (3 * a) (3 * b) := by
  induction n generalizing st with
  | zero => exact ⟨hv, hf, hl⟩
  | succ n ih =>
    rw [Function.iterate_succ_apply]
    have hex := atRest_exertAll_b32 st.objects x y a b k ha hx hxw h9a hb hy hyh h9b hl
      (gridSprings (3 * a) (3 * b)) (fun _ hsp => hsp)
    unfold exertAll at hex
    obtain ⟨h1, h2, h3⟩ := stepObjects_atRest_b32 c st.objects
      (atRest_mem_b32 st.objects x y _ _ hl)
    apply ih
    · unfold subStep
      simp only
      rw [hex, hv, hf]
      exact h1
    · unfold subStep
      simp only
      rw [hex, hv, hf]
      exact h2
    · unfold subStep
      simp only
      rw [hex, hv, hf]
      exact h3.trans hl

theorem lattice_atRest_b32 (x y w h : Int) :
    (lattice x y w h).map (fun o => { o with theta := 0 }) = lattice x y w h := by
  unfold lattice
  rw [List.map_map]
  rfl

/-- C27, counterexample in binary32 arithmetic: on the model that
`createModel` builds for the scenario's rectangle `(0, 0, 400, 200)`, one
`modelStep` of 16 ms with the default friction and spring constant runs one
sub-step and gives mass 2 the velocity `(5368709 / 4398046511104, 0)`, about
`1.22e-6`, not zero: the lattice coordinates `400 / 3` and `800 / 3` and the
rest offset `400 / 3` are rounded, and the springs are not at rest. -/
theorem lattice_equilibrium_counterexample :
    createModel true true 0 0 400 200 = some (latticeModel 0 0 400 200) ∧
    (getObject (latticeModel 0 0 400 200).objects 2).velocity = ⟨0, 0⟩ ∧
    Int.floor (fl ((latticeModel 0 0 400 200).steps + fl (16 / 15))) = 1 ∧
    (getObject (modelStep (latticeModel 0 0 400 200) 3 8 16).1.objects 2).velocity
      = ⟨5368709 / 4398046511104, 0⟩ := by
  refine ⟨createModel_eq_b32 0 0 400 200, by decide!, by decide!, by decide!⟩

/-- C27, as amended: for the model that `createModel` builds from a rectangle
whose width and height are multiples of 3 (and whose edges `x`, `y`,
`x + width`, `y + height` and extents `3 * width`, `3 * height` are at most
`2 ^ 24` in magnitude), every friction, every spring constant `k` and every
elapsed time that gives at least one sub-step, `modelStep` leaves the position
and the velocity of every mass unchanged and returns 0 (settled): the lattice
coordinates and the rest offsets are then integers that binary32 represents,
and every spring force is exactly zero. -/
theorem lattice_equilibrium_thirds (x y a b : Int) (friction k t : ℚ) (m : Model)
    (ha : 0 ≤ a) (hx : |x| ≤ 2 ^ 24) (hxw : |x + 3 * a| ≤ 2 ^ 24) (h9a : 9 * a ≤ 2 ^ 24)
    (hb : 0 ≤ b) (hy : |y| ≤ 2 ^ 24) (hyh : |y + 3 * b| ≤ 2 ^ 24) (h9b : 9 * b ≤ 2 ^ 24)
    (hm : createModel true true x y (3 * a) (3 * b) = some m)
    (ht : 1 ≤ Int.floor (fl (m.steps + fl (t / 15)))) :
    (modelStep m friction k t).2 = 0 ∧
    ∀ i, i < 16 →
      (getObject (modelStep m friction k t).1.objects i).position
        = (getObject m.objects i).position ∧
      (getObject (modelStep m friction k t).1.objects i).velocity
        = (getObject m.objects i).velocity := by
  rw [createModel_eq_b32] at hm
  have hobj : m.objects = lattice x y (3 * a) (3 * b) := by
    rw [← Option.some.inj hm]
    rfl
  have hspr : m.springs = gridSprings (3 * a) (3 * b) := by
    rw [← Option.some.inj hm]
    rfl
  obtain ⟨h1, h2, h3⟩ := iterate_subStep_atRest_b32 x y a b friction k ha hx hxw h9a hb hy hyh h9b
    (subStepCount m t) { objects := m.objects, velocitySum := 0, forceSum := 0 } rfl rfl
    (by simp only [hobj]; exact lattice_atRest_b32 x y _ _)
  rw [← hspr] at h1 h2 h3
  constructor
  · rw [modelStep_snd_b32 m friction k t (by omega), h1, h2]
    norm_num
  · intro i hi
    rw [modelStep_objects_b32]
    obtain ⟨a1, a2, _⟩ := atRest_getObject_b32 _ x y _ _ h3 i hi
    obtain ⟨b1, b2, _⟩ := atRest_getObject_b32 m.objects x y _ _
      (by rw [hobj]; exact lattice_atRest_b32 x y _ _) i hi
    exact ⟨a1.trans b1.symm, a2.trans b2.symm⟩

/-- C27, witness: the rectangle `(0, 0, 300, 150)` with the default friction
and spring constant and a tick of 16 ms. -/
theorem lattice_equilibrium_thirds_witness :
    (modelStep (latticeModel 0 0 (3 * 100) (3 * 50)) 3 8 16).2 = 0 ∧
    ∀ i, i < 16 →
      (getObject (modelStep (latticeModel 0 0 (3 * 100) (3 * 50)) 3 8 16).1.objects i).position
        = (getObject (latticeModel 0 0 (3 * 100) (3 * 50)).objects i).position ∧
      (getObject (modelStep (latticeModel 0 0 (3 * 100) (3 * 50)) 3 8 16).1.objects i).velocity
        = (getObject (latticeModel 0 0 (3 * 100) (3 * 50)).objects i).velocity :=
  lattice_equilibrium_thirds 0 0 100 50 3 8 16 (latticeModel 0 0 (3 * 100) (3 * 50))
    (by decide) (by decide) (by decide) (by decide) (by decide) (by decide) (by decide) (by decide)
    (createModel_eq_b32 0 0 (3 * 100) (3 * 50)) (by decide!)

/-! ## C22 in binary32: the two forces of a spring -/

/-- The force on the second endpoint of a spring is the negation of the force
on the first: rounding is symmetric. -/
theorem springForce_neg (k pa pb off : ℚ) :
    fl (k * fl ((1 / 2) * fl (fl (pa - pb) + off)))
      = -fl (k * fl ((1 / 2) * fl (fl (pb - pa) - off))) := by
  have e1 : pa - pb = -(pb - pa) := by ring
  have e2 : -fl (pb - pa) + off = -(fl (pb - pa) - off) := by ring
  rw [e1, fl_neg, e2, fl_neg, mul_neg, fl_neg, mul_neg, fl_neg]

theorem some_getD {α : Type} (o : Option α) (d : α) (h : o.isSome = true) :
    o = some (o.getD d) := by
  cases o with
  | none => simp at h
  | some a => rfl

/-- C22, counterexample in binary32 arithmetic: in the state reached by
`wobbly_init` on the scenario's rectangle, a grab at `(267, 0)` (nearest mass:
mass 2) and a move by `(100, 30)`, every accumulated force is zero, and after
all the springs have exerted their forces the total accumulated force is
`(-1 / 16384, 0)`, not zero: the forces that a mass accumulates are rounded
sum by sum. -/
theorem springExertForces_total_counterexample :
    wobbly_init true true true scenarioSurface = some initSurface ∧
    wobbly_move_notify (wobbly_grab_notify true true initSurface 267 0) 100 30
      = some pulledSurface ∧
    pulledSurface.ww.model = some pulledModel ∧
    pulledModel.anchorObject = some 2 ∧
    (∀ o ∈ pulledModel.objects, o.force = ⟨0, 0⟩) ∧
    (∀ sp ∈ pulledModel.springs,
      sp.a < pulledModel.objects.length ∧ sp.b < pulledModel.objects.length) ∧
    totalForce (exertAll pulledModel.springs 8 pulledModel.objects) = ⟨-1 / 16384, 0⟩ := by
  have h : ((wobbly_init true true true scenarioSurface).isSome = true ∧
      (wobbly_move_notify (wobbly_grab_notify true true initSurface 267 0) 100 30).isSome
        = true ∧
      pulledSurface.ww.model.isSome = true) ∧
      pulledModel.anchorObject = some 2 ∧
      (∀ o ∈ pulledModel.objects, o.force = ⟨0, 0⟩) ∧
      (∀ sp ∈ pulledModel.springs,
        sp.a < pulledModel.objects.length ∧ sp.b < pulledModel.objects.length) ∧
      totalForce (exertAll pulledModel.springs 8 pulledModel.objects) = ⟨-1 / 16384, 0⟩ := by
    decide!
  exact ⟨some_getD (wobbly_init true true true scenarioSurface) scenarioSurface h.1.1,
    some_getD (wobbly_move_notify (wobbly_grab_notify true true initSurface 267 0) 100 30)
      initSurface h.1.2.1,
    some_getD pulledSurface.ww.model (latticeModel 0 0 400 200) h.1.2.2, h.2⟩

/-- C22, as amended: for every spring whose endpoints `a` and `b` are distinct
masses of the model, with rest offset `o`, `springExertForces` computes the
force `f = fl (k * fl (0.5 * fl (fl (b.position - a.position) - o)))` (every
operation rounded to binary32), replaces the accumulated force `F` of `a` by
`fl (F + f)` and the accumulated force `G` of `b` by `fl (G - f)`: the force
on `b` is exactly the negation of the force on `a`.  No other mass and no
position or velocity is changed. -/
theorem springExertForces_opposite_rounded (l : List Object) (sp : Spring) (k : ℚ)
    (ha : sp.a < l.length) (hb : sp.b < l.length) (hne : sp.a ≠ sp.b) :
    (getObject (springExertForces l sp k) sp.a).force
      = ⟨fl ((getObject l sp.a).force.x + fl (k * fl ((1 / 2) *
            fl (fl ((getObject l sp.b).position.x - (getObject l sp.a).position.x)
              - sp.offset.x)))),
         fl ((getObject l sp.a).force.y + fl (k * fl ((1 / 2) *
            fl (fl ((getObject l sp.b).position.y - (getObject l sp.a).position.y)
              - sp.offset.y))))⟩ ∧
    (getObject (springExertForces l sp k) sp.b).force
      = ⟨fl ((getObject l sp.b).force.x - fl (k * fl ((1 / 2) *
            fl (fl ((getObject l sp.b).position.x - (getObject l sp.a).position.x)
              - sp.offset.x)))),
         fl ((getObject l sp.b).force.y - fl (k * fl ((1 / 2) *
            fl (fl ((getObject l sp.b).position.y - (getObject l sp.a).position.y)
              - sp.offset.y))))⟩ ∧
    (∀ i, i ≠ sp.a → i ≠ sp.b → getObject (springExertForces l sp k) i = getObject l i) ∧
    (∀ i, (getObject (springExertForces l sp k) i).position = (getObject l i).position ∧
      (getObject (springExertForces l sp k) i).velocity = (getObject l i).velocity) := by
  refine ⟨?_, ?_, ?_, ?_⟩
  · unfold springExertForces
    simp only
    rw [getObject_modifyObject, if_neg (fun hc => hne hc.1.symm), getObject_modifyObject,
      if_pos ⟨rfl, ha⟩]
    rfl
  · unfold springExertForces
    simp only
    rw [getObject_modifyObject, if_pos ⟨rfl, by rw [length_modifyObject]; exact hb⟩,
      getObject_modifyObject, if_neg (fun hc => hne hc.1)]
    simp only [objectApplyForce, springForce_neg, Point.mk.injEq]
    constructor <;> (congr 1; ring)
  · intro i hia hib
    unfold springExertForces
    simp only
    rw [getObject_modifyObject, if_neg (fun hc => hib hc.1.symm), getObject_modifyObject,
      if_neg (fun hc => hia hc.1.symm)]
  · intro i
    unfold springExertForces
    simp only
    rw [getObject_modifyObject]
    split_ifs with h1
    · rw [getObject_modifyObject]
      split_ifs with h2
      · rw [← h1.1, ← h2.1]
        exact ⟨rfl, rfl⟩
      · rw [← h1.1]
        exact ⟨rfl, rfl⟩
    · rw [getObject_modifyObject]
      split_ifs with h2
      · rw [← h2.1]
        exact ⟨rfl, rfl⟩
      · exact ⟨rfl, rfl⟩

/-- C22, witness: the first spring of the scenario's model, with mass 0
displaced to `(-7, 3)`. -/
theorem springExertForces_opposite_rounded_witness :
    (getObject (springExertForces
        (modifyObject (latticeModel 0 0 400 200).objects 0
          (fun o => { o with position := ⟨-7, 3⟩ }))
        (springInit 0 1 (fl (400 / 3)) 0) 8) 1).force
      = ⟨-28, 12⟩ :=
  ((springExertForces_opposite_rounded
    (modifyObject (latticeModel 0 0 400 200).objects 0 (fun o => { o with position := ⟨-7, 3⟩ }))
    (springInit 0 1 (fl (400 / 3)) 0) 8 (by decide) (by decide) (by decide)).2.1).trans
    (by decide!)

/-! ## Binary32: every reachable surface has a model and, while grabbed, an anchor -/

theorem length_springExertForces_b32 (l : List Object) (sp : Spring) (k : ℚ) :
    (springExertForces l sp k).length = l.length := by
  unfold springExertForces
  simp only [length_modifyObject]

theorem length_stepObjects_b32 (c : ℚ) (l : List Object) (vs fs : ℚ) :
    (stepObjects c l vs fs).objects.length = l.length := by
  induction l generalizing vs fs with
  | nil => rfl
  | cons o rest ih =>
    simp only [stepObjects, List.length_cons, ih]

theorem length_exertAll_b32 (sps : List Spring) (k : ℚ) (l : List Object) :
    (exertAll sps k l).length = l.length := by
  unfold exertAll
  induction sps generalizing l with
  | nil => rfl
  | cons sp rest ih =>
    simp only [List.foldl_cons]
    rw [ih, length_springExertForces_b32]

theorem subStep_eq_b32 (sps : List Spring) (c k : ℚ) (st : StepState) :
    subStep sps c k st = stepObjects c (exertAll sps k st.objects) st.velocitySum st.forceSum :=
  rfl

theorem length_subStep_b32 (sps : List Spring) (c k : ℚ) (st : StepState) :
    (subStep sps c k st).objects.length = st.objects.length := by
  rw [subStep_eq_b32, length_stepObjects_b32, length_exertAll_b32]

theorem length_iterate_subStep_b32 (sps : List Spring) (c k : ℚ) (n : Nat) (st : StepState) :
    (Nat.iterate (subStep sps c k) n st).objects.length = st.objects.length := by
  induction n generalizing st with
  | zero => rfl
  | succ n ih =>
    rw [Function.iterate_succ_apply, ih, length_subStep_b32]

theorem modelStep_anchorObject_b32 (m : Model) (friction k time : ℚ) :
    (modelStep m friction k time).1.anchorObject = m.anchorObject := by
  rw [modelStep_fst_b32]
  split_ifs <;> rfl

theorem modelStep_length_b32 (m : Model) (friction k time : ℚ) :
    (modelStep m friction k time).1.objects.length = m.objects.length := by
  rw [modelStep_objects_b32, length_iterate_subStep_b32]

/-- The scan of `modelFindNearestObject` over the first `n + 1` masses returns
an index among them, its distance, which is minimal, and which is smaller
than the distance of every mass before it. -/
theorem nearest_fold_spec_b32 (objs : List Object) (x y : ℚ) (n : Nat) :
    ((List.range (n + 1)).foldl (nearestStep objs x y) (0, 0)).1 < n + 1 ∧
    ((List.range (n + 1)).foldl (nearestStep objs x y) (0, 0)).2
      = objectDistance (getObject objs
          ((List.range (n + 1)).foldl (nearestStep objs x y) (0, 0)).1) x y ∧
    (∀ j, j < n + 1 →
      ((List.range (n + 1)).foldl (nearestStep objs x y) (0, 0)).2
        ≤ objectDistance (getObject objs j) x y) ∧
    (∀ j, j < ((List.range (n + 1)).foldl (nearestStep objs x y) (0, 0)).1 →
      ((List.range (n + 1)).foldl (nearestStep objs x y) (0, 0)).2
        < objectDistance (getObject objs j) x y) := by
  induction n with
  | zero =>
    have h0 : (List.range (0 + 1)).foldl (nearestStep objs x y) (0, 0)
        = (0, objectDistance (getObject objs 0) x y) := by
      simp [List.range_succ, nearestStep]
    rw [h0]
    refine ⟨Nat.zero_lt_one, rfl, ?_, ?_⟩
    · intro j hj
      have : j = 0 := by omega
      subst this
      exact le_refl _
    · intro j hj
      exact absurd hj (Nat.not_lt_zero _)
  | succ n ih =>
    obtain ⟨h1, h2, h3, h4⟩ := ih
    rw [List.range_succ, List.foldl_append, List.foldl_cons, List.foldl_nil]
    generalize (List.range (n + 1)).foldl (nearestStep objs x y) (0, 0) = r at h1 h2 h3 h4
    unfold nearestStep
    simp only [Nat.add_one_ne_zero, false_or]
    by_cases hlt : objectDistance (getObject objs (n + 1)) x y < r.2
    · rw [if_pos hlt]
      refine ⟨Nat.lt_succ_self _, rfl, ?_, ?_⟩
      · intro j hj
        rcases Nat.lt_succ_iff_lt_or_eq.mp hj with h | h
        · exact le_trans (le_of_lt hlt) (h3 j h)
        · rw [h]
      · intro j hj
        exact lt_of_lt_of_le hlt (h3 j hj)
    · rw [if_neg hlt]
      refine ⟨Nat.lt_succ_of_lt h1, h2, ?_, h4⟩
      intro j hj
      rcases Nat.lt_succ_iff_lt_or_eq.mp hj with h | h
      · exact h3 j h
      · rw [h]
        exact not_lt.mp hlt

theorem modelFindNearestObject_lt_b32 (m : Model) (x y : ℚ)
    (hl : m.objects.length = 16) : modelFindNearestObject m x y < 16 := by
  unfold modelFindNearestObject Model.numObjects
  rw [hl]
  exact (nearest_fold_spec_b32 m.objects x y 15).1

theorem length_grabKick_b32 (anchor : Nat) (l : List Object) (s : Spring) :
    (grabKick anchor l s).length = l.length := by
  unfold grabKick
  split_ifs <;> simp only [length_modifyObject]

theorem length_foldl_grabKick_b32 (anchor : Nat) (sps : List Spring) (l : List Object) :
    (sps.foldl (grabKick anchor) l).length = l.length := by
  induction sps generalizing l with
  | nil => rfl
  | cons sp rest ih =>
    simp only [List.foldl_cons]
    rw [ih, length_grabKick_b32]

theorem wobbly_grab_notify_eq_b32 (a b : Bool) (s : Surface) (x y : Int) (m : Model)
    (hm : s.ww.model = some m) :
    wobbly_grab_notify a b s x y
      = { s with
          ww := { s.ww with
            model := some { m with
              objects := m.springs.foldl
                (grabKick (modelFindNearestObject { m with objects := releaseAnchor m }
                  (ofInt x) (ofInt y)))
                (modifyObject (releaseAnchor m)
                  (modelFindNearestObject { m with objects := releaseAnchor m } (ofInt x) (ofInt y))
                  (fun o => { o with immobile := true }))
              anchorObject :=
                some (modelFindNearestObject { m with objects := releaseAnchor m }
                  (ofInt x) (ofInt y)) }
            grabbed := true
            wobbly := s.ww.wobbly ||| WobblyInitial } } := by
  unfold wobbly_grab_notify wobblyEnsureModel
  simp only [hm, if_true]
  rfl

theorem wobbly_move_notify_not_grabbed_b32 (s : Surface) (dx dy : Int)
    (hg : s.ww.grabbed = false) : wobbly_move_notify s dx dy = some s := by
  unfold wobbly_move_notify
  simp [hg]

theorem wobbly_move_notify_eq_b32 (s : Surface) (dx dy : Int) (m : Model) (a : Nat)
    (hm : s.ww.model = some m) (ha : m.anchorObject = some a) (hg : s.ww.grabbed = true) :
    wobbly_move_notify s dx dy
      = some { s with
          ww := { s.ww with
            model := some { m with
              objects := modifyObject m.objects a (fun o =>
                { o with position :=
                    ⟨fl (o.position.x + ofInt dx), fl (o.position.y + ofInt dy)⟩ }) }
            wobbly := s.ww.wobbly ||| WobblyInitial }
          synced := false } := by
  unfold wobbly_move_notify
  simp only [hm, ha, hg, if_true]

theorem grabbable_init (a b c : Bool) (s0 s : Surface) (h : wobbly_init a b c s0 = some s) :
    Grabbable s := by
  unfold wobbly_init wobblyEnsureModel at h
  cases a
  · simp at h
  · cases b
    · simp [createModel] at h
    · cases c
      · simp [createModel] at h
      · simp only [Bool.not_true, Bool.false_eq_true, if_false, createModel_eq_b32] at h
        have hs := Option.some.inj h
        subst hs
        refine ⟨_, rfl, lattice_length_b32 _ _ _ _, ?_⟩
        intro hg
        simp at hg

theorem grabbable_grab (a b : Bool) (s : Surface) (x y : Int) (h : Grabbable s) :
    Grabbable (wobbly_grab_notify a b s x y) := by
  obtain ⟨m, hm, hlen, _⟩ := h
  rw [wobbly_grab_notify_eq_b32 a b s x y m hm]
  have hlen0 : (releaseAnchor m).length = 16 := by rw [releaseAnchor_length, hlen]
  have hlt := modelFindNearestObject_lt_b32 { m with objects := releaseAnchor m }
    (ofInt x) (ofInt y) hlen0
  refine ⟨_, rfl, ?_, fun _ => ⟨_, rfl, hlt⟩⟩
  simp only
  rw [length_foldl_grabKick_b32, length_modifyObject, hlen0]

theorem grabbable_ungrab (s : Surface) (h : Grabbable s) : Grabbable (wobbly_ungrab_notify s) := by
  obtain ⟨m, hm, hlen, hgr⟩ := h
  cases hg : s.ww.grabbed with
  | false =>
    rw [wobbly_ungrab_notify_not_grabbed s hg]
    exact ⟨m, hm, hlen, hgr⟩
  | true =>
    rw [wobbly_ungrab_notify_eq s m hm hg]
    refine ⟨_, rfl, ?_, ?_⟩
    · simp only
      rw [releaseAnchor_length, hlen]
    · intro hc
      simp at hc

theorem grabbable_move (s s' : Surface) (dx dy : Int) (h : Grabbable s)
    (hs : wobbly_move_notify s dx dy = some s') : Grabbable s' := by
  obtain ⟨m, hm, hlen, hgr⟩ := h
  cases hg : s.ww.grabbed with
  | false =>
    rw [wobbly_move_notify_not_grabbed_b32 s dx dy hg] at hs
    rw [← Option.some.inj hs]
    exact ⟨m, hm, hlen, hgr⟩
  | true =>
    obtain ⟨a, ha, hlt⟩ := hgr hg
    rw [wobbly_move_notify_eq_b32 s dx dy m a hm ha hg] at hs
    rw [← Option.some.inj hs]
    refine ⟨_, rfl, ?_, fun _ => ⟨a, ha, hlt⟩⟩
    simp only
    rw [length_modifyObject, hlen]

theorem grabbable_resize (s : Surface) (h : Grabbable s) : Grabbable (wobbly_resize_notify s) := by
  obtain ⟨m, hm, hlen, hgr⟩ := h
  unfold wobbly_resize_notify
  simp only [hm]
  by_cases hw : s.ww.wobbly = 0
  · simp only [hw, if_true]
    rw [modelInitObjects_eq_b32 _ _ _ _ _ hlen, modelInitSprings_eq_b32]
    exact ⟨_, rfl, lattice_length_b32 _ _ _ _, fun _ => ⟨5, rfl, by norm_num⟩⟩
  · simp only [hw, if_false]
    rw [modelInitSprings_eq_b32]
    exact ⟨_, rfl, hlen, hgr⟩

theorem grabbable_tick (s s' : Surface) (ms : Int) (h : Grabbable s)
    (hs : wobbly_prepare_paint s ms = some s') : Grabbable s' := by
  obtain ⟨m, hm, hlen, hgr⟩ := h
  unfold wobbly_prepare_paint at hs
  simp only [hm] at hs
  generalize ofInt (if s.ww.wobbly &&& WobblyVelocity ≠ 0 then ms else 16) = time at hs
  split_ifs at hs with h1 h2 h3
  · rw [← Option.some.inj hs]
    refine ⟨_, rfl, ?_, ?_⟩
    · rw [modelCalcBounds_objects, modelStep_length_b32, hlen]
    · intro hg
      rw [modelCalcBounds_anchorObject, modelStep_anchorObject_b32]
      exact hgr hg
  · rw [← Option.some.inj hs]
    refine ⟨_, rfl, ?_, ?_⟩
    · rw [modelStep_length_b32, hlen]
    · intro hg
      rw [modelStep_anchorObject_b32]
      exact hgr hg
  · rw [← Option.some.inj hs]
    exact ⟨m, hm, hlen, hgr⟩
  · rw [← Option.some.inj hs]
    exact ⟨m, hm, hlen, hgr⟩

theorem reachable_grabbable (s : Surface) (h : Reachable s) : Grabbable s := by
  induction h with
  | init a b c s0 s hs => exact grabbable_init a b c s0 s hs
  | grab a b s x y _ ih => exact grabbable_grab a b s x y ih
  | move s s' dx dy _ hs ih => exact grabbable_move s s' dx dy ih hs
  | resize s _ ih => exact grabbable_resize s ih
  | ungrab s _ ih => exact grabbable_ungrab s ih
  | tick s s' ms _ hs ih => exact grabbable_tick s s' ms ih hs
  | owner s t _ ih => exact ih

/-! ## C6 in binary32: moving the anchor while grabbed -/

theorem reachable_initSurface_b32 : Reachable initSurface :=
  Reachable.init true true true scenarioSurface initSurface rfl

theorem reachable_grabbedSurface_b32 : Reachable grabbedSurface :=
  Reachable.grab true true initSurface 200 100 reachable_initSurface_b32

theorem move_step_b32 (s : Surface) (dx dy : Int) (m : Model) (a : Nat)
    (hm : s.ww.model = some m) (ha : m.anchorObject = some a) (hlt : a < m.objects.length)
    (hg : s.ww.grabbed = true) :
    ∃ s' m', wobbly_move_notify s dx dy = some s' ∧ s'.ww.model = some m' ∧
      m'.anchorObject = some a ∧ m'.objects.length = m.objects.length ∧
      s'.ww.grabbed = true ∧
      (getObject m'.objects a).position
        = ⟨fl ((getObject m.objects a).position.x + ofInt dx),
           fl ((getObject m.objects a).position.y + ofInt dy)⟩ ∧
      (∀ i, i ≠ a → getObject m'.objects i = getObject m.objects i) ∧
      (∀ i, (getObject m'.objects i).velocity = (getObject m.objects i).velocity) ∧
      s'.ww.wobbly = s.ww.wobbly ||| WobblyInitial ∧ s'.synced = false := by
  refine ⟨_, _, wobbly_move_notify_eq_b32 s dx dy m a hm ha hg, rfl, ha, ?_, hg, ?_, ?_, ?_,
    rfl, rfl⟩
  · simp only
    exact length_modifyObject _ _ _
  · simp only
    rw [getObject_modifyObject, if_pos ⟨rfl, hlt⟩]
  · intro i hi
    simp only
    rw [getObject_modifyObject, if_neg (fun hc => hi hc.1.symm)]
  · intro i
    simp only
    rw [getObject_modifyObject]
    split_ifs with h
    · rw [h.1]
    · rfl

theorem moveTimes_exact (dx : Int) (n : Nat) (s : Surface) (m : Model) (a : Nat) (X : Int)
    (hm : s.ww.model = some m) (ha : m.anchorObject = some a) (hlt : a < m.objects.length)
    (hg : s.ww.grabbed = true) (hX : (getObject m.objects a).position.x = X)
    (hb : |X| + n * |dx| ≤ 2 ^ 24) :
    ∃ sn mn, moveTimes dx 0 n s = some sn ∧ sn.ww.model = some mn ∧
      (getObject mn.objects a).position.x = (X : ℚ) + n * dx := by
  induction n generalizing s m X with
  | zero =>
    refine ⟨s, m, rfl, hm, ?_⟩
    simp [hX]
  | succ n ih =>
    obtain ⟨s', m', hs', hm', ha', hlen', hg', hpos, _, _, _, _⟩ :=
      move_step_b32 s dx 0 m a hm ha hlt hg
    have hdx : |dx| ≤ 2 ^ 24 := by
      have h0 : 0 ≤ |X| := abs_nonneg X
      have h1 : 0 ≤ (n : Int) * |dx| := mul_nonneg (by positivity) (abs_nonneg dx)
      push_cast at hb
      nlinarith
    have hsum : |X + dx| + n * |dx| ≤ 2 ^ 24 := by
      have := abs_add X dx
      push_cast at hb
      nlinarith
    have hX' : (getObject m'.objects a).position.x = ((X + dx : Int) : ℚ) := by
      rw [hpos]
      simp only
      rw [hX, ofInt_eq dx hdx]
      have := fl_intCast (X + dx) (by
        have h1 : 0 ≤ (n : Int) * |dx| := mul_nonneg (by positivity) (abs_nonneg dx)
        omega)
      push_cast at this ⊢
      exact this
    obtain ⟨sn, mn, hsn, hmn, hposn⟩ :=
      ih s' m' (X + dx) hm' ha' (by rw [hlen']; exact hlt) hg' hX' hsum
    refine ⟨sn, mn, ?_, hmn, ?_⟩
    · show (wobbly_move_notify s dx 0).bind (moveTimes dx 0 n) = some sn
      rw [hs']
      exact hsn
    · rw [hposn]
      push_cast
      ring

/-- C6, counterexample in binary32 arithmetic: on the scenario's surface after
`wobbly_init` and a grab at `(200, 100)`, the anchor is mass 10 at
`x = 8738133 / 32768 = 266.66665...`; five moves by `(+50, 0)` increase its `x`
by `8191999 / 32768 = 249.99996...`, not by 250: each move stores the rounded
sum. -/
theorem move_while_grabbed_counterexample :
    grabbedSurface.ww.grabbed = true ∧ grabbedSurface.ww.model = some grabbedModel ∧
    grabbedModel.anchorObject = some 10 ∧
    moveTimes 50 0 5 grabbedSurface = some movedSurface ∧
    movedSurface.ww.model = some movedModel ∧
    (getObject grabbedModel.objects 10).position.x = 8738133 / 32768 ∧
    (getObject movedModel.objects 10).position.x - (getObject grabbedModel.objects 10).position.x
      = 8191999 / 32768 ∧
    (getObject movedModel.objects 10).position.x - (getObject grabbedModel.objects 10).position.x
      ≠ 5 * ((50 : Int) : ℚ) := by
  have h : grabbedSurface.ww.grabbed = true ∧
      (grabbedSurface.ww.model.isSome = true ∧
        (moveTimes 50 0 5 grabbedSurface).isSome = true ∧
        movedSurface.ww.model.isSome = true) ∧
      grabbedModel.anchorObject = some 10 ∧
      (getObject grabbedModel.objects 10).position.x = 8738133 / 32768 ∧
      (getObject movedModel.objects 10).position.x
          - (getObject grabbedModel.objects 10).position.x
        = 8191999 / 32768 ∧
      (getObject movedModel.objects 10).position.x
          - (getObject grabbedModel.objects 10).position.x
        ≠ 5 * ((50 : Int) : ℚ) := by
    decide!
  exact ⟨h.1, some_getD grabbedSurface.ww.model (latticeModel 0 0 400 200) h.2.1.1, h.2.2.1,
    some_getD (moveTimes 50 0 5 grabbedSurface) grabbedSurface h.2.1.2.1,
    some_getD movedSurface.ww.model (latticeModel 0 0 400 200) h.2.1.2.2, h.2.2.2⟩

/-- C6, as amended: while grabbed, in every reachable state,
`wobbly_move_notify (dx, dy)` succeeds, replaces the position `(x, y)` of the
anchor mass by `(fl (x + dx), fl (y + dy))` (the sums rounded to binary32),
sets the `Initial` bit of the bitmask (the other bits are kept), marks the
surface unsynced, and leaves the position of every other mass and the velocity
of every mass unchanged; and when the anchor's `x` is an integer `X` with
`|X| + n * |dx| ≤ 2 ^ 24`, so that no sum is rounded, `n` consecutive moves by
`(dx, 0)` succeed and increase the anchor's `x` by exactly `n * dx`. -/
theorem move_while_grabbed_rounded (s : Surface) (hr : Reachable s)
    (hg : s.ww.grabbed = true) (dx dy : Int) :
    ∃ m a, s.ww.model = some m ∧ m.anchorObject = some a ∧ a < 16 ∧
      (∃ s' m', wobbly_move_notify s dx dy = some s' ∧ s'.ww.model = some m' ∧
        (getObject m'.objects a).position
          = ⟨fl ((getObject m.objects a).position.x + ofInt dx),
             fl ((getObject m.objects a).position.y + ofInt dy)⟩ ∧
        s'.ww.wobbly = s.ww.wobbly ||| WobblyInitial ∧
        s'.ww.wobbly &&& WobblyInitial = WobblyInitial ∧
        s'.synced = false ∧
        (∀ i, i ≠ a → (getObject m'.objects i).position = (getObject m.objects i).position) ∧
        (∀ i, (getObject m'.objects i).velocity = (getObject m.objects i).velocity)) ∧
      (∀ (X : Int) (n : Nat), (getObject m.objects a).position.x = X →
        |X| + n * |dx| ≤ 2 ^ 24 →
        ∃ sn mn, moveTimes dx 0 n s = some sn ∧ sn.ww.model = some mn ∧
          (getObject mn.objects a).position.x = (X : ℚ) + n * dx) := by
  obtain ⟨m, hm, hlen, hgr⟩ := reachable_grabbable s hr
  obtain ⟨a, ha, hlt⟩ := hgr hg
  have hlt' : a < m.objects.length := by rw [hlen]; exact hlt
  refine ⟨m, a, hm, ha, hlt, ?_, ?_⟩
  · obtain ⟨s', m', hs', hm', _, _, _, hpos, hother, hvel, hw, hsync⟩ :=
      move_step_b32 s dx dy m a hm ha hlt' hg
    refine ⟨s', m', hs', hm', hpos, hw, ?_, hsync, ?_, hvel⟩
    · rw [hw]
      exact lor_one_land_one _
    · intro i hi
      rw [hother i hi]
  · intro X n hX hb
    exact moveTimes_exact dx n s m a X hm ha hlt' hg hX hb

/-- C6, witness: the scenario's surface after `wobbly_init` and a grab at
`(1, 1)`, which is reachable and grabbed, moved by `(50, 0)`. -/
theorem move_while_grabbed_rounded_witness :
    cornerSurface.ww.grabbed = true ∧
    ∃ m a, cornerSurface.ww.model = some m ∧ m.anchorObject = some a ∧ a < 16 ∧
      (∃ s' m', wobbly_move_notify cornerSurface 50 0 = some s' ∧ s'.ww.model = some m' ∧
        (getObject m'.objects a).position
          = ⟨fl ((getObject m.objects a).position.x + ofInt 50),
             fl ((getObject m.objects a).position.y + ofInt 0)⟩ ∧
        s'.ww.wobbly = cornerSurface.ww.wobbly ||| WobblyInitial ∧
        s'.ww.wobbly &&& WobblyInitial = WobblyInitial ∧
        s'.synced = false ∧
        (∀ i, i ≠ a → (getObject m'.objects i).position = (getObject m.objects i).position) ∧
        (∀ i, (getObject m'.objects i).velocity = (getObject m.objects i).velocity)) ∧
      (∀ (X : Int) (n : Nat), (getObject m.objects a).position.x = X →
        |X| + n * |(50 : Int)| ≤ 2 ^ 24 →
        ∃ sn mn, moveTimes 50 0 n cornerSurface = some sn ∧ sn.ww.model = some mn ∧
          (getObject mn.objects a).position.x = (X : ℚ) + n * (50 : Int)) :=
  ⟨by decide!, move_while_grabbed_rounded cornerSurface
    (Reachable.grab true true initSurface 1 1 reachable_initSurface_b32) (by decide!) 50 0⟩

/-! ## C19 in binary32: the time accumulator -/

/-- A binary32 number is `m * 2 ^ k` with `|m| < 2 ^ 24` and `-149 ≤ k`. -/
theorem fl_repr (q : ℚ) : ∃ m k : Int, -149 ≤ k ∧ |m| < 2 ^ 24 ∧ fl q = m * pow2 k := by
  obtain ⟨m, k, h1, h2, h3⟩ := roundTo_repr 24 (-149) (by norm_num) q
  rcases h2.lt_or_eq with h | h
  · exact ⟨m, k, h1, h, h3⟩
  · have h2dvd : (2 : Int) ∣ m := by
      have : (2 : Int) ∣ |m| := by
        rw [h]; exact dvd_pow_self 2 (by norm_num)
      exact (dvd_abs 2 m).mp this
    obtain ⟨c, rfl⟩ := h2dvd
    refine ⟨c, k + 1, by omega, ?_, ?_⟩
    · rw [abs_mul] at h
      have h2 : |(2 : Int)| = 2 := by norm_num
      rw [h2] at h
      omega
    · unfold fl
      rw [h3, pow2_add]
      have : pow2 1 = 2 := by simp [pow2]
      rw [this]
      push_cast
      ring

theorem fl_exact (m k : Int) (hk : -149 ≤ k) (hm : |m| < 2 ^ 24) :
    fl ((m : ℚ) * pow2 k) = m * pow2 k :=
  roundTo_exact 24 (-149) m k hk hm (by norm_num)

/-- The integer part of a non-negative binary32 number converts to `float`
without rounding, and subtracting it is exact: the result is the fractional
part. -/
theorem fl_sub_floor (q : ℚ) (hq : 0 ≤ fl q) :
    ofInt (Int.floor (fl q)) = Int.floor (fl q) ∧
    fl (fl q - ofInt (Int.floor (fl q))) = Int.fract (fl q) := by
  obtain ⟨m, k, hk, hm, hrep⟩ := fl_repr q
  have hm0 : 0 ≤ m := by
    by_contra hneg
    push_neg at hneg
    have : (m : ℚ) * pow2 k < 0 := mul_neg_of_neg_of_pos (by exact_mod_cast hneg) (pow2_pos k)
    rw [hrep] at hq
    linarith
  rw [abs_of_nonneg hm0] at hm
  by_cases hk0 : 0 ≤ k
  · -- an integer
    have hint : fl q = ((m * 2 ^ k.toNat : Int) : ℚ) := by
      rw [hrep, pow2_toNat hk0]
      push_cast
      ring
    have hfloor : Int.floor (fl q) = m * 2 ^ k.toNat := by
      rw [hint, Int.floor_intCast]
    have hof : ofInt (Int.floor (fl q)) = Int.floor (fl q) := by
      unfold ofInt
      rw [hfloor, ← hint, fl_idem]
    refine ⟨hof, ?_⟩
    rw [hof, Int.self_sub_floor, hint, Int.fract_intCast, fl_zero]
  · push_neg at hk0
    obtain ⟨d, hd⟩ : ∃ d : Nat, k = -(d : Int) := ⟨(-k).toNat, by omega⟩
    subst hd
    have hp : pow2 (-(d : Int)) = 1 / ((2 ^ d : Nat) : ℚ) := by
      rw [pow2_eq, zpow_neg, zpow_natCast]
      push_cast
      ring
    have hval : fl q = (m : ℚ) / ((2 ^ d : Nat) : ℚ) := by
      rw [hrep, hp]
      ring
    have hfloor : Int.floor (fl q) = m / ((2 ^ d : Nat) : Int) := by
      rw [hval]
      exact Rat.floor_intCast_div_natCast m (2 ^ d)
    have hdpos : (0 : Int) < ((2 ^ d : Nat) : Int) := by positivity
    have hn0 : 0 ≤ m / ((2 ^ d : Nat) : Int) := Int.ediv_nonneg hm0 hdpos.le
    have hnle : m / ((2 ^ d : Nat) : Int) ≤ m := Int.ediv_le_self _ hm0
    have hof : ofInt (Int.floor (fl q)) = Int.floor (fl q) := by
      rw [hfloor]
      exact ofInt_eq _ (by rw [abs_of_nonneg hn0]; omega)
    refine ⟨hof, ?_⟩
    rw [hof, Int.self_sub_floor]
    have hfract : Int.fract (fl q) = ((m % ((2 ^ d : Nat) : Int) : Int) : ℚ) * pow2 (-(d : Int)) := by
      rw [← Int.self_sub_floor, hfloor, hval, hp]
      have hdq : ((2 ^ d : Nat) : ℚ) ≠ 0 := by positivity
      have hmod : (m : ℚ) = ((m / ((2 ^ d : Nat) : Int) : Int) : ℚ) * ((2 ^ d : Nat) : ℚ)
          + ((m % ((2 ^ d : Nat) : Int) : Int) : ℚ) := by
        have := Int.ediv_add_emod m ((2 ^ d : Nat) : Int)
        have h2 : ((((2 ^ d : Nat) : Int) * (m / ((2 ^ d : Nat) : Int))
            + m % ((2 ^ d : Nat) : Int) : Int) : ℚ) = (m : ℚ) := by rw [this]
        push_cast at h2 ⊢
        linarith
      have key : ∀ (M N R D : ℚ), D ≠ 0 → M = N * D + R → M / D - N = R * (1 / D) := by
        intro M N R D hD h
        rw [h]
        field_simp
        ring
      exact key _ _ _ _ hdq hmod
    rw [hfract]
    apply fl_exact _ _ hk
    have h1 : 0 ≤ m % ((2 ^ d : Nat) : Int) := Int.emod_nonneg _ hdpos.ne'
    have h2 : m % ((2 ^ d : Nat) : Int) ≤ m := by
      have := Int.ediv_add_emod m ((2 ^ d : Nat) : Int)
      have h3 : 0 ≤ ((2 ^ d : Nat) : Int) * (m / ((2 ^ d : Nat) : Int)) :=
        mul_nonneg hdpos.le hn0
      omega
    rw [abs_of_nonneg h1]
    omega

theorem modelStep_steps_b32 (m : Model) (friction k time : ℚ) :
    (modelStep m friction k time).1.steps
      = fl (fl (m.steps + fl (time / 15)) - ofInt (Int.floor (fl (m.steps + fl (time / 15))))) := by
  rw [modelStep_fst_b32]
  split_ifs <;> rfl

/-- C19, counterexample in binary32 arithmetic: starting from accumulator 0
(the model that `createModel` builds for the scenario's rectangle), fifteen
calls of `modelStep` with 17 ms run 16 sub-steps in total and leave the
accumulator at `8388607 / 8388608 = 0.99999988...`, while
`floor ((15 * 17) / 15) = 17` and one call with 255 ms runs 17 sub-steps: the
number of sub-steps depends on how the time is split into calls. -/
theorem modelStep_accumulator_counterexample :
    (latticeModel 0 0 400 200).steps = 0 ∧
    totalSubSteps 3 8 (List.replicate 15 17) (latticeModel 0 0 400 200) = 16 ∧
    (stepTimes 3 8 (List.replicate 15 17) (latticeModel 0 0 400 200)).steps
      = 8388607 / 8388608 ∧
    Int.floor ((List.replicate 15 (17 : ℚ)).sum / 15) = 17 ∧
    totalSubSteps 3 8 [255] (latticeModel 0 0 400 200) = 17 := by
  refine ⟨by decide!, by decide!, by decide!, by decide!, by decide!⟩

/-- C19, as amended: for every model whose accumulator `s` satisfies
`0 ≤ s < 1` and every elapsed time `t ≥ 0`, with `s' = fl (s + fl (t / 15))`
the accumulated time as binary32 computes it, `modelStep` runs exactly
`floor s'` sub-steps (its masses are those obtained by iterating the sub-step
that many times) and leaves the accumulator equal to `s' - floor s'` (this
subtraction is exact), which is again in `[0, 1)`. -/
theorem modelStep_accumulator_rounded (m : Model) (friction k t : ℚ) (h0 : 0 ≤ m.steps)
    (_h1 : m.steps < 1) (ht : 0 ≤ t) :
    ((subStepCount m t : Nat) : Int) = Int.floor (fl (m.steps + fl (t / 15))) ∧
    (modelStep m friction k t).1.objects
      = (Nat.iterate (subStep m.springs friction k) (subStepCount m t)
          { objects := m.objects, velocitySum := 0, forceSum := 0 }).objects ∧
    (modelStep m friction k t).1.steps
      = fl (m.steps + fl (t / 15)) - Int.floor (fl (m.steps + fl (t / 15))) ∧
    0 ≤ (modelStep m friction k t).1.steps ∧ (modelStep m friction k t).1.steps < 1 := by
  have hs : 0 ≤ fl (m.steps + fl (t / 15)) :=
    fl_nonneg (add_nonneg h0 (fl_nonneg (div_nonneg ht (by norm_num))))
  have hsteps : (modelStep m friction k t).1.steps = Int.fract (fl (m.steps + fl (t / 15))) := by
    rw [modelStep_steps_b32]
    exact (fl_sub_floor _ hs).2
  refine ⟨?_, modelStep_objects_b32 m friction k t, ?_, ?_, ?_⟩
  · unfold subStepCount
    exact Int.toNat_of_nonneg (Int.floor_nonneg.mpr hs)
  · rw [hsteps, Int.self_sub_floor]
  · rw [hsteps]
    exact Int.fract_nonneg _
  · rw [hsteps]
    exact Int.fract_lt_one _

/-- C19, witness: the scenario's model, whose accumulator is 0, and 17 ms. -/
theorem modelStep_accumulator_rounded_witness :
    ((subStepCount (latticeModel 0 0 400 200) 17 : Nat) : Int)
      = Int.floor (fl ((latticeModel 0 0 400 200).steps + fl (17 / 15))) ∧
    (modelStep (latticeModel 0 0 400 200) 3 8 17).1.objects
      = (Nat.iterate (subStep (latticeModel 0 0 400 200).springs 3 8)
          (subStepCount (latticeModel 0 0 400 200) 17)
          { objects := (latticeModel 0 0 400 200).objects, velocitySum := 0, forceSum := 0 }).objects ∧
    (modelStep (latticeModel 0 0 400 200) 3 8 17).1.steps
      = fl ((latticeModel 0 0 400 200).steps + fl (17 / 15))
        - Int.floor (fl ((latticeModel 0 0 400 200).steps + fl (17 / 15))) ∧
    0 ≤ (modelStep (latticeModel 0 0 400 200) 3 8 17).1.steps ∧
    (modelStep (latticeModel 0 0 400 200) 3 8 17).1.steps < 1 :=
  modelStep_accumulator_rounded (latticeModel 0 0 400 200) 3 8 17 (by decide!) (by decide!)
    (by norm_num)

/-! ## C20 in binary32: the bitmask returned by `modelStep` -/

theorem stepObjects_sums_b32 (c : ℚ) (l : List Object) (vs fs : ℚ) :
    (stepObjects c l vs fs).velocitySum
      = accumulate vs (l.map (fun o => (modelStepObject o c).velocity)) ∧
    (stepObjects c l vs fs).forceSum
      = accumulate fs (l.map (fun o => (modelStepObject o c).force)) ∧
    (stepObjects c l vs fs).objects = l.map (fun o => (modelStepObject o c).object) := by
  induction l generalizing vs fs with
  | nil => exact ⟨rfl, rfl, rfl⟩
  | cons o rest ih =>
    obtain ⟨h1, h2, h3⟩ := ih (fl (vs + (modelStepObject o c).velocity))
      (fl (fs + (modelStepObject o c).force))
    simp only [stepObjects, List.map_cons, accumulate, List.foldl_cons]
    exact ⟨h1, h2, by rw [h3]⟩

theorem modelStepObject_velocity_b32 (o : Object) (c : ℚ) :
    (modelStepObject o c).velocity = velocityMagnitude (modelStepObject o c).object := by
  unfold modelStepObject velocityMagnitude
  simp only
  split_ifs <;> simp [dbl_zero, fl_zero]

theorem modelStepObject_force_b32 (o : Object) (c : ℚ) :
    (modelStepObject o c).force = forceMagnitude c o := by
  unfold modelStepObject forceMagnitude
  simp only
  split_ifs <;> rfl

theorem subStep_sums_b32 (springs : List Spring) (c k : ℚ) (st : StepState) :
    (subStep springs c k st).velocitySum
      = accumulate st.velocitySum ((subStep springs c k st).objects.map velocityMagnitude) ∧
    (subStep springs c k st).forceSum
      = accumulate st.forceSum ((exertAll springs k st.objects).map (forceMagnitude c)) := by
  rw [subStep_eq_b32]
  obtain ⟨h1, h2, h3⟩ := stepObjects_sums_b32 c (exertAll springs k st.objects)
    st.velocitySum st.forceSum
  have hfun : (fun o => (modelStepObject o c).velocity)
      = velocityMagnitude ∘ fun o => (modelStepObject o c).object :=
    funext (fun o => modelStepObject_velocity_b32 o c)
  have hfun2 : (fun o => (modelStepObject o c).force) = forceMagnitude c :=
    funext (fun o => modelStepObject_force_b32 o c)
  rw [h1, h2, h3, List.map_map, hfun, hfun2]
  exact ⟨rfl, rfl⟩

theorem subStep_objects_b32 (springs : List Spring) (c k : ℚ) (st st' : StepState)
    (h : st.objects = st'.objects) :
    (subStep springs c k st).objects = (subStep springs c k st').objects := by
  rw [subStep_eq_b32, subStep_eq_b32, (stepObjects_sums_b32 _ _ _ _).2.2,
    (stepObjects_sums_b32 _ _ _ _).2.2, h]

theorem iterate_subStep_objects_b32 (springs : List Spring) (c k : ℚ) (n : Nat)
    (st : StepState) :
    (Nat.iterate (subStep springs c k) n st).objects = objectsAfter springs c k n st.objects := by
  unfold objectsAfter
  induction n with
  | zero => rfl
  | succ n ih =>
    rw [Function.iterate_succ_apply', Function.iterate_succ_apply']
    exact subStep_objects_b32 springs c k _ _ ih

theorem iterate_subStep_sums_b32 (springs : List Spring) (c k : ℚ) (n : Nat)
    (objects : List Object) :
    (Nat.iterate (subStep springs c k) n
        { objects := objects, velocitySum := 0, forceSum := 0 }).velocitySum
      = velocitySumOver springs c k n objects ∧
    (Nat.iterate (subStep springs c k) n
        { objects := objects, velocitySum := 0, forceSum := 0 }).forceSum
      = forceSumOver springs c k n objects := by
  induction n with
  | zero => exact ⟨rfl, rfl⟩
  | succ n ih =>
    obtain ⟨h1, h2⟩ := ih
    obtain ⟨g1, g2⟩ := subStep_sums_b32 springs c k (Nat.iterate (subStep springs c k) n
      { objects := objects, velocitySum := 0, forceSum := 0 })
    have hobj : (subStep springs c k (Nat.iterate (subStep springs c k) n
        { objects := objects, velocitySum := 0, forceSum := 0 })).objects
        = objectsAfter springs c k (n + 1) objects := by
      have := iterate_subStep_objects_b32 springs c k (n + 1)
        { objects := objects, velocitySum := 0, forceSum := 0 }
      rw [Function.iterate_succ_apply'] at this
      exact this
    rw [Function.iterate_succ_apply', g1, g2, h1, h2, hobj, iterate_subStep_objects_b32]
    unfold velocitySumOver forceSumOver
    rw [List.range_succ, List.foldl_append, List.foldl_append]
    exact ⟨rfl, rfl⟩

theorem modelStep_snd_lt_b32 (m : Model) (friction k time : ℚ) :
    (modelStep m friction k time).2 < 8 := by
  unfold modelStep
  simp only
  split_ifs <;> dsimp only <;> decide

theorem modelStep_bits_b32 (m : Model) (friction k t : ℚ)
    (ht : 1 ≤ Int.floor (fl (m.steps + fl (t / 15)))) :
    (modelStep m friction k t).2
      = (if velocitySumOver m.springs friction k (subStepCount m t) m.objects > 1 / 2
          then WobblyVelocity else 0) |||
        (if forceSumOver m.springs friction k (subStepCount m t) m.objects > 20
          then WobblyForce else 0) ∧
    ((modelStep m friction k t).2 &&& WobblyVelocity ≠ 0 ↔
      velocitySumOver m.springs friction k (subStepCount m t) m.objects > 1 / 2) ∧
    ((modelStep m friction k t).2 &&& WobblyForce ≠ 0 ↔
      forceSumOver m.springs friction k (subStepCount m t) m.objects > 20) ∧
    (modelStep m friction k t).2 &&& WobblyInitial = 0 ∧
    (modelStep m friction k t).2 < 8 ∧
    (subStepCount m t = 1 →
      velocitySumOver m.springs friction k (subStepCount m t) m.objects
        = accumulate 0 ((modelStep m friction k t).1.objects.map velocityMagnitude)) := by
  obtain ⟨h1, h2⟩ := iterate_subStep_sums_b32 m.springs friction k (subStepCount m t) m.objects
  have hr := modelStep_snd_b32 m friction k t (by omega)
  rw [h1, h2] at hr
  refine ⟨?_, ?_, ?_, ?_, modelStep_snd_lt_b32 m friction k t, ?_⟩
  · rw [hr]
    split_ifs <;> decide
  · rw [hr]
    by_cases a : forceSumOver m.springs friction k (subStepCount m t) m.objects > 20 <;>
    by_cases b : velocitySumOver m.springs friction k (subStepCount m t) m.objects > 1 / 2 <;>
    simp only [a, b, if_true, if_false, iff_true, iff_false] <;> decide
  · rw [hr]
    by_cases a : forceSumOver m.springs friction k (subStepCount m t) m.objects > 20 <;>
    by_cases b : velocitySumOver m.springs friction k (subStepCount m t) m.objects > 1 / 2 <;>
    simp only [a, b, if_true, if_false, iff_true, iff_false] <;> decide
  · rw [hr]
    split_ifs <;> decide
  · intro hone
    rw [modelStep_objects_b32, iterate_subStep_objects_b32, hone]
    unfold velocitySumOver
    have hrange : List.range 1 = [0] := rfl
    rw [hrange]
    rfl

/-- C20, counterexample in binary32 arithmetic: in the state reached by
`wobbly_init` on the rectangle `(0, 0, 10, 10)`, a grab at `(3, 3)` (anchor:
mass 5) and a move by `(1, 0)`, `modelStep` with 16 ms runs one sub-step; the
springs have then accumulated on the masses forces whose magnitudes before
they are cleared sum to `4325377 / 131072 = 33.0...`, more than 20, yet the
returned bitmask has `HasForce` clear: the sub-step records no force for the
immobile anchor, and the sum it compares with 20 is
`4456451 / 262144 = 17.0...`. -/
theorem modelStep_force_counterexample :
    wobbly_init true true true smallSurface = some smallInit ∧
    wobbly_move_notify (wobbly_grab_notify true true smallInit 3 3) 1 0 = some smallMoved ∧
    smallMoved.ww.model = some smallMovedModel ∧
    smallMovedModel.anchorObject = some 5 ∧ subStepCount smallMovedModel 16 = 1 ∧
    (modelStep smallMovedModel WOBBLY_FRICTION WOBBLY_SPRING_K 16).2 &&& WobblyForce = 0 ∧
    ((exertAll smallMovedModel.springs WOBBLY_SPRING_K smallMovedModel.objects).map
      (preClearForce WOBBLY_FRICTION)).sum = 4325377 / 131072 ∧
    (20 : ℚ) < 4325377 / 131072 ∧
    forceSumOver smallMovedModel.springs WOBBLY_FRICTION WOBBLY_SPRING_K 1 smallMovedModel.objects
      = 4456451 / 262144 := by
  have h : ((wobbly_init true true true smallSurface).isSome = true ∧
      (wobbly_move_notify (wobbly_grab_notify true true smallInit 3 3) 1 0).isSome = true ∧
      smallMoved.ww.model.isSome = true) ∧
      smallMovedModel.anchorObject = some 5 ∧ subStepCount smallMovedModel 16 = 1 ∧
      1 ≤ Int.floor (fl (smallMovedModel.steps + fl (16 / 15))) ∧
      ((exertAll smallMovedModel.springs WOBBLY_SPRING_K smallMovedModel.objects).map
        (preClearForce WOBBLY_FRICTION)).sum = 4325377 / 131072 ∧
      (20 : ℚ) < 4325377 / 131072 ∧
      forceSumOver smallMovedModel.springs WOBBLY_FRICTION WOBBLY_SPRING_K 1
        smallMovedModel.objects = 4456451 / 262144 := by
    decide!
  have hbit := (modelStep_bits_b32 smallMovedModel WOBBLY_FRICTION WOBBLY_SPRING_K 16
    h.2.2.2.1).2.2.1
  rw [h.2.2.1, h.2.2.2.2.2.2] at hbit
  have hclear : (modelStep smallMovedModel WOBBLY_FRICTION WOBBLY_SPRING_K 16).2 &&& WobblyForce
      = 0 := by
    by_contra hne
    have := hbit.mp hne
    norm_num at this
  exact ⟨some_getD (wobbly_init true true true smallSurface) smallSurface h.1.1,
    some_getD (wobbly_move_notify (wobbly_grab_notify true true smallInit 3 3) 1 0) smallInit
      h.1.2.1,
    some_getD smallMoved.ww.model (latticeModel 0 0 10 10) h.1.2.2, h.2.1, h.2.2.1, hclear,
    h.2.2.2.2.1, h.2.2.2.2.2.1, h.2.2.2.2.2.2⟩

/-- C20, as amended: for every `modelStep` call that runs at least one
sub-step, the returned bitmask has `HasVelocity` set if and only if
`velocitySum > 0.5` and `HasForce` set if and only if `forceSum > 20`, and no
other bit, where the two sums are `float` sums accumulated over all the
sub-steps of the call and, within a sub-step, over the masses in index order:
`velocitySum` of the velocity magnitude `|vx| + |vy|` of each mass after the
sub-step, and `forceSum` of the force magnitude `|fx| + |fy|` of each mass
other than the immobile anchor, taken after the friction has been subtracted
and before the force is cleared (the anchor contributes 0 to both sums).
When the call runs exactly one sub-step, `velocitySum` is the accumulated sum
of the velocity magnitudes after the call. -/
theorem modelStep_bits_rounded (m : Model) (friction k t : ℚ)
    (ht : 1 ≤ Int.floor (fl (m.steps + fl (t / 15)))) :
    (modelStep m friction k t).2
      = (if velocitySumOver m.springs friction k (subStepCount m t) m.objects > 1 / 2
          then WobblyVelocity else 0) |||
        (if forceSumOver m.springs friction k (subStepCount m t) m.objects > 20
          then WobblyForce else 0) ∧
    ((modelStep m friction k t).2 &&& WobblyVelocity ≠ 0 ↔
      velocitySumOver m.springs friction k (subStepCount m t) m.objects > 1 / 2) ∧
    ((modelStep m friction k t).2 &&& WobblyForce ≠ 0 ↔
      forceSumOver m.springs friction k (subStepCount m t) m.objects > 20) ∧
    (modelStep m friction k t).2 &&& WobblyInitial = 0 ∧
    (modelStep m friction k t).2 < 8 ∧
    (subStepCount m t = 1 →
      velocitySumOver m.springs friction k (subStepCount m t) m.objects
        = accumulate 0 ((modelStep m friction k t).1.objects.map velocityMagnitude)) :=
  modelStep_bits_b32 m friction k t ht

/-- C20, witness: the model of the counterexample, where one sub-step records
the force sum `4456451 / 262144 = 17.0...`. -/
theorem modelStep_bits_rounded_witness :
    ((modelStep smallMovedModel 3 8 16).2 &&& WobblyForce ≠ 0 ↔
      forceSumOver smallMovedModel.springs 3 8 (subStepCount smallMovedModel 16)
        smallMovedModel.objects > 20) :=
  (modelStep_bits_rounded smallMovedModel 3 8 16 (by decide!)).2.2.1

/-! ## C18 in binary32: the mesh produced by `wobbly_add_geometry` -/

/-- C18, counterexample in binary32 arithmetic: on the scenario's surface
after `wobbly_init` and a grab (it is animating), with `x_cells` set to 3 by
its owner, the first texture coordinate of the vertex at column 1, row 0 is
`5592405 / 16777216 = 0.33333331...`: it is not `1 / 3`, and not even the
binary32 number nearest to `1 / 3`, which is `11184811 / 33554432`. -/
theorem wobbly_add_geometry_mesh_counterexample :
    grabbedSurface.ww.wobbly ≠ 0 ∧
    ((wobbly_add_geometry true true { grabbedSurface with x_cells := 3 }).map
      (fun s => s.uv.getD (2 * (0 * 4 + 1)) 0)) = some (5592405 / 16777216) ∧
    (5592405 / 16777216 : ℚ) ≠ ((1 : Nat) : ℚ) / ((3 : Int) : ℚ) ∧
    fl (1 / 3) = 11184811 / 33554432 := by
  decide!

/-- C18, as amended: when the surface is animating (non-zero bitmask) and has
a model, with `x_cells >= 1`, `y_cells >= 1` and non-zero width and height,
`wobbly_add_geometry` (both `realloc` calls succeeding) produces
`(x_cells+1)*(y_cells+1)` vertices and as many texture coordinates, two floats
each, in row-major order: the vertex at column `i`, row `j` is
`bezierPatchEvaluate (u_i, v_j)` and its texture coordinate is
`(u_i, fl (1 - v_j))`, where `u_i = fl (fl (i * cell_w) / width)` with
`cell_w = fl (width / x_cells)` and `v_j = fl (fl (j * cell_h) / height)` with
`cell_h = fl (height / y_cells)` are the parameters as binary32 computes them,
and `1 - v_j` is computed in `double` before it is stored. -/
theorem wobbly_add_geometry_mesh_rounded (s : Surface) (m : Model) (hm : s.ww.model = some m)
    (hw : s.ww.wobbly ≠ 0) (hx : 1 ≤ s.x_cells) (hy : 1 ≤ s.y_cells)
    (_hwidth : s.width ≠ 0) (_hheight : s.height ≠ 0) :
    ∃ s', wobbly_add_geometry true true s = some s' ∧
      s'.v.length = 2 * ((s.x_cells + 1).toNat * (s.y_cells + 1).toNat) ∧
      s'.uv.length = 2 * ((s.x_cells + 1).toNat * (s.y_cells + 1).toNat) ∧
      ∀ i j : Nat, (i : Int) ≤ s.x_cells → (j : Int) ≤ s.y_cells →
        (s'.v.getD (2 * (j * (s.x_cells + 1).toNat + i)) 0,
         s'.v.getD (2 * (j * (s.x_cells + 1).toNat + i) + 1) 0)
          = bezierPatchEvaluate m
              (fl (fl (ofInt i * fl (ofInt s.width / ofInt s.x_cells)) / ofInt s.width))
              (fl (fl (ofInt j * fl (ofInt s.height / ofInt s.y_cells)) / ofInt s.height)) ∧
        (s'.uv.getD (2 * (j * (s.x_cells + 1).toNat + i)) 0,
         s'.uv.getD (2 * (j * (s.x_cells + 1).toNat + i) + 1) 0)
          = (fl (fl (ofInt i * fl (ofInt s.width / ofInt s.x_cells)) / ofInt s.width),
             fl (dbl (1 - fl (fl (ofInt j * fl (ofInt s.height / ofInt s.y_cells))
               / ofInt s.height)))) := by
  have hpos : (0 : Int) < s.y_cells + 1 ∧ (0 : Int) < s.x_cells + 1 := by omega
  unfold wobbly_add_geometry
  simp only [hw, ne_eq, not_false_eq_true, if_true, hpos, and_self, hm, Bool.not_true,
    Bool.or_self, Bool.false_eq_true, if_false]
  refine ⟨_, rfl, ?_, ?_, ?_⟩
  · exact (grid_getD (fun x y => bezierPatchEvaluate m
      (fl (fl (ofInt x * fl (ofInt s.width / ofInt s.x_cells)) / ofInt s.width))
      (fl (fl (ofInt y * fl (ofInt s.height / ofInt s.y_cells)) / ofInt s.height)))
      (s.y_cells + 1).toNat (s.x_cells + 1).toNat 0 0 (by omega) (by omega)).1
  · exact (grid_getD (fun x y =>
      (fl (fl (ofInt x * fl (ofInt s.width / ofInt s.x_cells)) / ofInt s.width),
       fl (dbl (1 - fl (fl (ofInt y * fl (ofInt s.height / ofInt s.y_cells)) / ofInt s.height)))))
      (s.y_cells + 1).toNat (s.x_cells + 1).toNat 0 0 (by omega) (by omega)).1
  · intro i j hi hj
    obtain ⟨_, a1, a2⟩ := grid_getD (fun x y => bezierPatchEvaluate m
      (fl (fl (ofInt x * fl (ofInt s.width / ofInt s.x_cells)) / ofInt s.width))
      (fl (fl (ofInt y * fl (ofInt s.height / ofInt s.y_cells)) / ofInt s.height)))
      (s.y_cells + 1).toNat (s.x_cells + 1).toNat i j (by omega) (by omega)
    obtain ⟨_, b1, b2⟩ := grid_getD (fun x y =>
      (fl (fl (ofInt x * fl (ofInt s.width / ofInt s.x_cells)) / ofInt s.width),
       fl (dbl (1 - fl (fl (ofInt y * fl (ofInt s.height / ofInt s.y_cells)) / ofInt s.height)))))
      (s.y_cells + 1).toNat (s.x_cells + 1).toNat i j (by omega) (by omega)
    simp only at a1 a2 b1 b2 ⊢
    rw [a1, a2, b1, b2]
    exact ⟨rfl, rfl⟩

/-- C18, witness: the scenario's surface of 8 by 8 cells after `wobbly_init`
and a grab, which is animating. -/
theorem wobbly_add_geometry_mesh_rounded_witness :
    ∃ m s', grabbedSurface.ww.model = some m ∧
      wobbly_add_geometry true true grabbedSurface = some s' ∧
      s'.v.length = 2 * ((grabbedSurface.x_cells + 1).toNat * (grabbedSurface.y_cells + 1).toNat) ∧
      (s'.uv.getD (2 * (1 * (grabbedSurface.x_cells + 1).toNat + 1)) 0,
       s'.uv.getD (2 * (1 * (grabbedSurface.x_cells + 1).toNat + 1) + 1) 0)
        = (fl (fl (ofInt (1 : Nat) * fl (ofInt grabbedSurface.width / ofInt grabbedSurface.x_cells))
              / ofInt grabbedSurface.width),
           fl (dbl (1 - fl (fl (ofInt (1 : Nat) * fl (ofInt grabbedSurface.height
              / ofInt grabbedSurface.y_cells)) / ofInt grabbedSurface.height)))) := by
  obtain ⟨s', h1, h2, _, h4⟩ := wobbly_add_geometry_mesh_rounded grabbedSurface
    (grabbedSurface.ww.model.getD (latticeModel 0 0 400 200))
    (some_getD grabbedSurface.ww.model (latticeModel 0 0 400 200) (by decide!))
    (by decide!) (by decide) (by decide) (by decide) (by decide)
  exact ⟨_, s', some_getD grabbedSurface.ww.model (latticeModel 0 0 400 200) (by decide!), h1, h2,
    (h4 1 1 (by decide) (by decide)).2⟩

/-! ## C5 in binary32: the nearest object -/

theorem nearest_scenario_b32 :
    modelFindNearestObject (latticeModel 0 0 400 200) (ofInt 200) (ofInt 100) = 10 ∧
    ([5, 6, 9, 10].map (fun i =>
      objectDistance (getObject (latticeModel 0 0 400 200).objects i) (ofInt 200) (ofInt 100))
      = [9769531 / 131072, 9769529 / 131072, 9769531 / 131072, 9769528 / 131072]) := by
  decide!

/-- C5, counterexample in binary32 arithmetic: for the model built from the
rectangle `(0, 0, 400, 200)` and the query `(200, 100)` the scan returns mass
10, not mass 5: the lattice coordinates `400/3`, `800/3` and `200/3` are
rounded, and the distances the code computes for masses 5, 6, 9 and 10 are
`9769531/131072`, `9769529/131072`, `9769531/131072` and `9769528/131072`, not
equal.  And the computed distance need not order the masses as the Euclidean
distance does: in `tieModel`, queried at `(0, 0)`, mass 1 at `(1, 0)` is
strictly nearer than mass 0 at `(1, 1/8192)`, both computed distances are 1,
and the scan returns mass 0. -/
theorem modelFindNearestObject_counterexample :
    createModel true true 0 0 400 200 = some (latticeModel 0 0 400 200) ∧
    modelFindNearestObject (latticeModel 0 0 400 200) (ofInt 200) (ofInt 100) = 10 ∧
    ([5, 6, 9, 10].map (fun i =>
      objectDistance (getObject (latticeModel 0 0 400 200).objects i) (ofInt 200) (ofInt 100))
      = [9769531 / 131072, 9769529 / 131072, 9769531 / 131072, 9769528 / 131072]) ∧
    tieModel.objects.length = 16 ∧
    modelFindNearestObject tieModel 0 0 = 0 ∧
    squaredDistance (getObject tieModel.objects 1) 0 0
      < squaredDistance (getObject tieModel.objects 0) 0 0 ∧
    objectDistance (getObject tieModel.objects 0) 0 0 = 1 ∧
    objectDistance (getObject tieModel.objects 1) 0 0 = 1 := by
  refine ⟨createModel_eq_b32 0 0 400 200, nearest_scenario_b32.1, nearest_scenario_b32.2, ?_⟩
  decide!

/-- C5, as amended: for every model of sixteen masses and every query point
`(x, y)`, `modelFindNearestObject` returns the smallest index among the masses
whose distance to `(x, y)`, as `objectDistance` computes it in binary32
arithmetic, is minimal over all sixteen masses: no mass has a smaller
computed distance, and every mass of smaller index has a strictly larger
one.  For the model built from the rectangle `(0, 0, 400, 200)` and the query
`(200, 100)` it returns mass 10. -/
theorem modelFindNearestObject_least_computed :
    (∀ (m : Model) (x y : ℚ), m.objects.length = 16 →
      modelFindNearestObject m x y < 16 ∧
      (∀ j, j < 16 →
        objectDistance (getObject m.objects (modelFindNearestObject m x y)) x y
          ≤ objectDistance (getObject m.objects j) x y) ∧
      (∀ j, j < modelFindNearestObject m x y →
        objectDistance (getObject m.objects (modelFindNearestObject m x y)) x y
          < objectDistance (getObject m.objects j) x y)) ∧
    (∀ m0, createModel true true 0 0 400 200 = some m0 →
      modelFindNearestObject m0 (ofInt 200) (ofInt 100) = 10) := by
  constructor
  · intro m x y hl
    unfold modelFindNearestObject Model.numObjects
    rw [hl]
    obtain ⟨h1, h2, h3, h4⟩ := nearest_fold_spec_b32 m.objects x y 15
    refine ⟨h1, ?_, ?_⟩
    · intro j hj
      have := h3 j hj
      rwa [h2] at this
    · intro j hj
      have := h4 j hj
      rwa [h2] at this
  · intro m0 hm0
    rw [createModel_eq_b32] at hm0
    cases hm0
    exact nearest_scenario_b32.1

/-- C5, witness: the model built from the rectangle `(0, 0, 400, 200)`,
queried at `(200, 100)`. -/
theorem modelFindNearestObject_least_computed_witness :
    (latticeModel 0 0 400 200).objects.length = 16 ∧
    createModel true true 0 0 400 200 = some (latticeModel 0 0 400 200) ∧
    modelFindNearestObject (latticeModel 0 0 400 200) (ofInt 200) (ofInt 100) = 10 ∧
    (∀ j, j < 16 →
      objectDistance (getObject (latticeModel 0 0 400 200).objects
          (modelFindNearestObject (latticeModel 0 0 400 200) (ofInt 200) (ofInt 100)))
          (ofInt 200) (ofInt 100)
        ≤ objectDistance (getObject (latticeModel 0 0 400 200).objects j)
          (ofInt 200) (ofInt 100)) :=
  ⟨by decide, createModel_eq_b32 0 0 400 200,
    modelFindNearestObject_least_computed.2 _ (createModel_eq_b32 0 0 400 200),
    (modelFindNearestObject_least_computed.1 (latticeModel 0 0 400 200) (ofInt 200) (ofInt 100)
      (by decide)).2.1⟩

/-! ## C17 in binary32: the bounding box misses the first mass -/

/-- C17, a state where the bounding box is not the extremes of the positions:
the scenario's surface after `wobbly_init`, a grab at `(1, 1)` (anchor:
mass 0) and a move by `(500, 300)` is reachable; `modelStep` with the default
friction and spring constant and 16 ms, as the next tick calls it, runs one
sub-step, and afterwards mass 0 is at `(500, 300)` while the bottom-right
corner of the bounding box is `(400, 200)`.  In the scan of `modelCalcBounds`
the test against the maximum is the `else` branch of the test against the
minimum: mass 0, scanned first, lowers the minimum from the initial `MAXSHORT`
and is never compared with the maximum. -/
theorem modelCalcBounds_misses_first_mass :
    Reachable draggedSurface ∧ draggedSurface.ww.model = some draggedModel ∧
    draggedModel.anchorObject = some 0 ∧
    subStepCount draggedModel (ofInt 16) = 1 ∧
    (getObject (modelStep draggedModel WOBBLY_FRICTION WOBBLY_SPRING_K (ofInt 16)).1.objects
      0).position = ⟨500, 300⟩ ∧
    (modelStep draggedModel WOBBLY_FRICTION WOBBLY_SPRING_K (ofInt 16)).1.bottomRight
      = ⟨400, 200⟩ := by
  have h : ((wobbly_move_notify cornerSurface 500 300).isSome = true ∧
      draggedSurface.ww.model.isSome = true) ∧
      draggedModel.anchorObject = some 0 ∧
      subStepCount draggedModel (ofInt 16) = 1 ∧
      (getObject (modelStep draggedModel WOBBLY_FRICTION WOBBLY_SPRING_K (ofInt 16)).1.objects
        0).position = ⟨500, 300⟩ ∧
      (modelStep draggedModel WOBBLY_FRICTION WOBBLY_SPRING_K (ofInt 16)).1.bottomRight
        = ⟨400, 200⟩ := by
    decide!
  refine ⟨?_, some_getD draggedSurface.ww.model (latticeModel 0 0 400 200) h.1.2, h.2⟩
  exact Reachable.move cornerSurface draggedSurface 500 300
    (Reachable.grab true true initSurface 1 1 reachable_initSurface_b32)
    (some_getD (wobbly_move_notify cornerSurface 500 300) cornerSurface h.1.1)

/-! ## C28 in binary32: friction and the total velocity -/

/-- The rounding error of `fl`: at most `2^-24` relative to the argument, or
`2^-150` near zero. -/
theorem fl_err (q : ℚ) : |fl q - q| ≤ pow2 (-24) * |q| + pow2 (-150) := by
  by_cases hq : q = 0
  · subst hq
    rw [fl_zero]
    simp only [sub_zero, abs_zero, mul_zero, zero_add]
    exact (pow2_pos _).le
  · have hspec := floorLog2_spec q hq
    have hrw : fl q - q =
        ((roundEven (q / pow2 (max (floorLog2 q - ((24 - 1 : Nat) : Int)) (-149))) : ℚ)
          - q / pow2 (max (floorLog2 q - ((24 - 1 : Nat) : Int)) (-149)))
          * pow2 (max (floorLog2 q - ((24 - 1 : Nat) : Int)) (-149)) := by
      unfold fl
      rw [roundTo_eq _ _ _ hq, sub_mul, div_mul_cancel₀ _ (pow2_pos _).ne']
    rw [hrw, abs_mul, abs_of_pos (pow2_pos _)]
    have hre := roundEven_sub_le (q / pow2 (max (floorLog2 q - ((24 - 1 : Nat) : Int)) (-149)))
    have hk : pow2 (max (floorLog2 q - ((24 - 1 : Nat) : Int)) (-149))
        ≤ 2 * (pow2 (-24) * |q| + pow2 (-150)) := by
      rcases le_total (floorLog2 q - ((24 - 1 : Nat) : Int)) (-149) with h | h
      · rw [max_eq_right h]
        have e : pow2 (-149) = 2 * pow2 (-150) := by
          rw [show (-149 : Int) = 1 + -150 by norm_num, pow2_add]
          norm_num [pow2]
        rw [e]
        have := mul_nonneg (pow2_pos (-24)).le (abs_nonneg q)
        linarith
      · rw [max_eq_left h]
        have e : pow2 (floorLog2 q - ((24 - 1 : Nat) : Int))
            = 2 * (pow2 (-24) * pow2 (floorLog2 q)) := by
          rw [show floorLog2 q - ((24 - 1 : Nat) : Int) = 1 + (-24 + floorLog2 q) by
            norm_num; ring, pow2_add, pow2_add]
          norm_num [pow2]
        rw [e]
        have h1 := mul_le_mul_of_nonneg_left hspec.1 (pow2_pos (-24)).le
        have := (pow2_pos (-150)).le
        linarith
    calc |(roundEven (q / pow2 (max (floorLog2 q - ((24 - 1 : Nat) : Int)) (-149))) : ℚ)
          - q / pow2 (max (floorLog2 q - ((24 - 1 : Nat) : Int)) (-149))|
          * pow2 (max (floorLog2 q - ((24 - 1 : Nat) : Int)) (-149))
        ≤ 1 / 2 * pow2 (max (floorLog2 q - ((24 - 1 : Nat) : Int)) (-149)) :=
          mul_le_mul_of_nonneg_right hre (pow2_pos _).le
      _ ≤ 1 / 2 * (2 * (pow2 (-24) * |q| + pow2 (-150))) :=
          mul_le_mul_of_nonneg_left hk (by norm_num)
      _ = pow2 (-24) * |q| + pow2 (-150) := by ring

/-- Rounding does not leave an interval whose end is a small multiple of a
power of two. -/
theorem fl_abs_le (x : ℚ) (m : Nat) (g : Int) (hm : m < 2 ^ 24) (hg : -149 ≤ g)
    (h : |x| ≤ m * pow2 g) : |fl x| ≤ m * pow2 g := by
  have hex : fl ((m : ℚ) * pow2 g) = m * pow2 g := by
    have := roundTo_exact 24 (-149) (m : Int) g hg
      (by rw [abs_of_nonneg (by positivity)]; exact_mod_cast hm) (by norm_num)
    simpa [fl] using this
  rw [abs_le] at h ⊢
  constructor
  · have := fl_mono h.1
    rwa [fl_neg, hex] at this
  · have := fl_mono h.2
    rwa [hex] at this

/-- The rounding error of the velocity update of `modelStepObject`. -/
theorem velocity_step_err (c F v Φ V : ℚ) (hc0 : 0 ≤ c) (hc : c ≤ 50) (hF : |F| ≤ Φ)
    (hv : |v| ≤ V) :
    |fl (v + fl (fl (F - fl (c * v)) / 50)) - (v + (F - c * v) / 50)|
      ≤ pow2 (-24) * (6 * V + Φ / 10) + 3 * pow2 (-150) := by
  have hu : pow2 (-24) = 1 / 16777216 := by rw [pow2_eq]; norm_num
  have hη := (pow2_pos (-150)).le
  have hW : |c * v| ≤ 50 * V := by
    rw [abs_mul, abs_of_nonneg hc0]
    exact mul_le_mul hc hv (abs_nonneg v) (by norm_num)
  have hA := fl_err (c * v)
  have hB := fl_err (F - fl (c * v))
  have hC := fl_err (fl (F - fl (c * v)) / 50)
  have hD := fl_err (v + fl (fl (F - fl (c * v)) / 50))
  rw [hu] at hA hB hC hD ⊢
  have t1 : |fl (c * v)| ≤ |c * v| + |fl (c * v) - c * v| := by
    have := abs_add (c * v) (fl (c * v) - c * v)
    rwa [add_sub_cancel] at this
  have x2 : |F - fl (c * v)| ≤ |F| + |fl (c * v)| := abs_sub _ _
  have t2 : |fl (F - fl (c * v))| ≤ |F - fl (c * v)| + |fl (F - fl (c * v)) - (F - fl (c * v))| := by
    have := abs_add (F - fl (c * v)) (fl (F - fl (c * v)) - (F - fl (c * v)))
    rwa [add_sub_cancel] at this
  have x3 : |fl (F - fl (c * v)) / 50| = |fl (F - fl (c * v))| / 50 := by
    rw [abs_div]; norm_num
  have t3 : |fl (fl (F - fl (c * v)) / 50)| ≤ |fl (F - fl (c * v)) / 50|
      + |fl (fl (F - fl (c * v)) / 50) - fl (F - fl (c * v)) / 50| := by
    have := abs_add (fl (F - fl (c * v)) / 50)
      (fl (fl (F - fl (c * v)) / 50) - fl (F - fl (c * v)) / 50)
    rwa [add_sub_cancel] at this
  have x4 : |v + fl (fl (F - fl (c * v)) / 50)| ≤ |v| + |fl (fl (F - fl (c * v)) / 50)| :=
    abs_add _ _
  have hV0 : 0 ≤ V := le_trans (abs_nonneg v) hv
  have hΦ0 : 0 ≤ Φ := le_trans (abs_nonneg F) hF
  have split : fl (v + fl (fl (F - fl (c * v)) / 50)) - (v + (F - c * v) / 50)
      = (fl (v + fl (fl (F - fl (c * v)) / 50)) - (v + fl (fl (F - fl (c * v)) / 50)))
        + (fl (fl (F - fl (c * v)) / 50) - fl (F - fl (c * v)) / 50)
        + (fl (F - fl (c * v)) - (F - fl (c * v))) / 50
        - (fl (c * v) - c * v) / 50 := by ring
  rw [split]
  have tri := abs_sub
    ((fl (v + fl (fl (F - fl (c * v)) / 50)) - (v + fl (fl (F - fl (c * v)) / 50)))
        + (fl (fl (F - fl (c * v)) / 50) - fl (F - fl (c * v)) / 50)
        + (fl (F - fl (c * v)) - (F - fl (c * v))) / 50)
    ((fl (c * v) - c * v) / 50)
  have tri2 := abs_add
    ((fl (v + fl (fl (F - fl (c * v)) / 50)) - (v + fl (fl (F - fl (c * v)) / 50)))
        + (fl (fl (F - fl (c * v)) / 50) - fl (F - fl (c * v)) / 50))
    ((fl (F - fl (c * v)) - (F - fl (c * v))) / 50)
  have tri3 := abs_add
    (fl (v + fl (fl (F - fl (c * v)) / 50)) - (v + fl (fl (F - fl (c * v)) / 50)))
    (fl (fl (F - fl (c * v)) / 50) - fl (F - fl (c * v)) / 50)
  have d1 : |(fl (F - fl (c * v)) - (F - fl (c * v))) / 50|
      = |fl (F - fl (c * v)) - (F - fl (c * v))| / 50 := by
    rw [abs_div]; norm_num
  have d2 : |(fl (c * v) - c * v) / 50| = |fl (c * v) - c * v| / 50 := by
    rw [abs_div]; norm_num
  rw [d1] at tri2
  rw [d2] at tri
  rw [x3] at t3 hC
  have n1 := abs_nonneg (fl (c * v) - c * v)
  have n2 := abs_nonneg (fl (F - fl (c * v)) - (F - fl (c * v)))
  have n3 := abs_nonneg (c * v)
  linarith

theorem springExertForces_pull (l : List Object) (sp : Spring) (k : ℚ) :
    springExertForces l sp k
      = modifyObject (modifyObject l sp.a (fun o =>
          objectApplyForce o (springPull l sp k).x (springPull l sp k).y)) sp.b
          (fun o => objectApplyForce o (-(springPull l sp k).x) (-(springPull l sp k).y)) := by
  unfold springExertForces springPull
  simp only
  rw [springForce_neg k _ _ sp.offset.x, springForce_neg k _ _ sp.offset.y]

theorem map_frame_springExertForces (l : List Object) (sp : Spring) (k : ℚ) :
    (springExertForces l sp k).map (fun o => (o.position, o.velocity, o.immobile))
      = l.map (fun o => (o.position, o.velocity, o.immobile)) := by
  unfold springExertForces
  simp only
  rw [map_modifyObject, map_modifyObject]
  · intro o; rfl
  · intro o; rfl

theorem map_frame_exertAll (springs : List Spring) (k : ℚ) (l : List Object) :
    (exertAll springs k l).map (fun o => (o.position, o.velocity, o.immobile))
      = l.map (fun o => (o.position, o.velocity, o.immobile)) := by
  unfold exertAll
  induction springs generalizing l with
  | nil => rfl
  | cons sp rest ih =>
    simp only [List.foldl_cons]
    rw [ih, map_frame_springExertForces]

theorem getObject_frame {α : Type} (f : Object → α) (l : List Object) (i : Nat) :
    f (getObject l i) = (l.map f).getD i (f Object.blank) := by
  unfold getObject
  simp only [List.getD_eq_getElem?_getD, List.getElem?_map]
  cases l[i]? <;> rfl

theorem springPull_congr (l l0 : List Object) (sp : Spring) (k : ℚ)
    (h : l.map (fun o => (o.position, o.velocity, o.immobile))
      = l0.map (fun o => (o.position, o.velocity, o.immobile))) :
    springPull l sp k = springPull l0 sp k := by
  have hpos : ∀ i, (getObject l i).position = (getObject l0 i).position := by
    intro i
    have h1 := getObject_frame (fun o => (o.position, o.velocity, o.immobile)) l i
    have h2 := getObject_frame (fun o => (o.position, o.velocity, o.immobile)) l0 i
    rw [h, ← h2] at h1
    exact congrArg Prod.fst h1
  unfold springPull
  simp only [hpos]

theorem mem_of_map_eq {α : Type} (f : Object → α) (l l0 : List Object)
    (h : l.map f = l0.map f) (o : Object) (ho : o ∈ l) : ∃ o0 ∈ l0, f o = f o0 := by
  have hmem : f o ∈ l.map f := List.mem_map.mpr ⟨o, ho, rfl⟩
  rw [h] at hmem
  obtain ⟨o0, ho0, heq⟩ := List.mem_map.mp hmem
  exact ⟨o0, ho0, heq.symm⟩

theorem getObject_mem_b32 (l : List Object) (i : Nat) (hi : i < l.length) : getObject l i ∈ l := by
  unfold getObject
  rw [List.getD_eq_getElem?_getD, List.getElem?_eq_getElem hi]
  exact List.getElem_mem hi

theorem mem_modifyObject (l : List Object) (i : Nat) (f : Object → Object) (o : Object)
    (ho : o ∈ modifyObject l i f) : o = f (getObject l i) ∨ o ∈ l := by
  unfold modifyObject at ho
  rcases List.mem_or_eq_of_mem_set ho with h | h
  · exact Or.inr h
  · exact Or.inl h

/-- One spring: the accumulated forces stay bounded, and the total force
changes by two rounding errors only. -/
theorem springExertForces_total_err (l : List Object) (sp : Spring) (k : ℚ) (j : Nat) (g : Int)
    (ha : sp.a < l.length) (hb : sp.b < l.length) (hne : sp.a ≠ sp.b)
    (hj : j + 1 < 2 ^ 24) (hg : -149 ≤ g)
    (hP : |(springPull l sp k).x| ≤ pow2 g ∧ |(springPull l sp k).y| ≤ pow2 g)
    (hF : ∀ o ∈ l, |o.force.x| ≤ j * pow2 g ∧ |o.force.y| ≤ j * pow2 g) :
    (∀ o ∈ springExertForces l sp k,
      |o.force.x| ≤ ((j + 1 : Nat) : ℚ) * pow2 g ∧ |o.force.y| ≤ ((j + 1 : Nat) : ℚ) * pow2 g) ∧
    |(totalForce (springExertForces l sp k)).x - (totalForce l).x|
      ≤ 2 * (pow2 (-24) * (((j + 1 : Nat) : ℚ) * pow2 g) + pow2 (-150)) ∧
    |(totalForce (springExertForces l sp k)).y - (totalForce l).y|
      ≤ 2 * (pow2 (-24) * (((j + 1 : Nat) : ℚ) * pow2 g) + pow2 (-150)) := by
  have hG := (pow2_pos g).le
  have hu := (pow2_pos (-24)).le
  have hcast : ((j + 1 : Nat) : ℚ) = (j : ℚ) + 1 := by push_cast; ring
  have hsum : ∀ F P : ℚ, |F| ≤ j * pow2 g → |P| ≤ pow2 g →
      |F + P| ≤ ((j + 1 : Nat) : ℚ) * pow2 g := by
    intro F P h1 h2
    rw [hcast]
    calc |F + P| ≤ |F| + |P| := abs_add _ _
      _ ≤ (j + 1) * pow2 g := by linarith
  have hfl : ∀ F P : ℚ, |F| ≤ j * pow2 g → |P| ≤ pow2 g →
      |fl (F + P)| ≤ ((j + 1 : Nat) : ℚ) * pow2 g :=
    fun F P h1 h2 => fl_abs_le _ _ g hj hg (hsum F P h1 h2)
  have herr : ∀ F P : ℚ, |F| ≤ j * pow2 g → |P| ≤ pow2 g →
      |fl (F + P) - (F + P)| ≤ pow2 (-24) * (((j + 1 : Nat) : ℚ) * pow2 g) + pow2 (-150) := by
    intro F P h1 h2
    have := fl_err (F + P)
    have := mul_le_mul_of_nonneg_left (hsum F P h1 h2) hu
    linarith
  have hle : ∀ F : ℚ, |F| ≤ j * pow2 g → |F| ≤ ((j + 1 : Nat) : ℚ) * pow2 g := by
    intro F h
    rw [hcast]
    linarith
  have hoa := hF _ (getObject_mem_b32 l sp.a ha)
  have hob := hF _ (getObject_mem_b32 l sp.b hb)
  have hPx' : |-(springPull l sp k).x| ≤ pow2 g := by rw [abs_neg]; exact hP.1
  have hPy' : |-(springPull l sp k).y| ≤ pow2 g := by rw [abs_neg]; exact hP.2
  have hget : getObject (modifyObject l sp.a (fun o =>
      objectApplyForce o (springPull l sp k).x (springPull l sp k).y)) sp.b = getObject l sp.b := by
    rw [getObject_modifyObject, if_neg (fun hc => hne hc.1)]
  rw [springExertForces_pull]
  refine ⟨?_, ?_, ?_⟩
  · intro o ho
    rcases mem_modifyObject _ _ _ _ ho with h | h
    · rw [h, hget]
      exact ⟨hfl _ _ hob.1 hPx', hfl _ _ hob.2 hPy'⟩
    · rcases mem_modifyObject _ _ _ _ h with h2 | h2
      · rw [h2]
        exact ⟨hfl _ _ hoa.1 hP.1, hfl _ _ hoa.2 hP.2⟩
      · exact ⟨hle _ (hF o h2).1, hle _ (hF o h2).2⟩
  · unfold totalForce
    simp only
    rw [sum_map_modifyObject (fun o => o.force.x) _ sp.b _ (by rw [length_modifyObject]; exact hb),
      sum_map_modifyObject (fun o => o.force.x) _ sp.a _ ha, hget]
    simp only [objectApplyForce]
    have e1 := herr _ _ hoa.1 hP.1
    have e2 := herr _ _ hob.1 hPx'
    have key : (List.map (fun o => o.force.x) l).sum
          + (fl ((getObject l sp.a).force.x + (springPull l sp k).x) - (getObject l sp.a).force.x)
          + (fl ((getObject l sp.b).force.x + -(springPull l sp k).x) - (getObject l sp.b).force.x)
          - (List.map (fun o => o.force.x) l).sum
        = (fl ((getObject l sp.a).force.x + (springPull l sp k).x)
            - ((getObject l sp.a).force.x + (springPull l sp k).x))
          + (fl ((getObject l sp.b).force.x + -(springPull l sp k).x)
            - ((getObject l sp.b).force.x + -(springPull l sp k).x)) := by ring
    rw [key]
    exact le_trans (abs_add _ _) (by linarith)
  · unfold totalForce
    simp only
    rw [sum_map_modifyObject (fun o => o.force.y) _ sp.b _ (by rw [length_modifyObject]; exact hb),
      sum_map_modifyObject (fun o => o.force.y) _ sp.a _ ha, hget]
    simp only [objectApplyForce]
    have e1 := herr _ _ hoa.2 hP.2
    have e2 := herr _ _ hob.2 hPy'
    have key : (List.map (fun o => o.force.y) l).sum
          + (fl ((getObject l sp.a).force.y + (springPull l sp k).y) - (getObject l sp.a).force.y)
          + (fl ((getObject l sp.b).force.y + -(springPull l sp k).y) - (getObject l sp.b).force.y)
          - (List.map (fun o => o.force.y) l).sum
        = (fl ((getObject l sp.a).force.y + (springPull l sp k).y)
            - ((getObject l sp.a).force.y + (springPull l sp k).y))
          + (fl ((getObject l sp.b).force.y + -(springPull l sp k).y)
            - ((getObject l sp.b).force.y + -(springPull l sp k).y)) := by ring
    rw [key]
    exact le_trans (abs_add _ _) (by linarith)

/-- All the springs: the accumulated forces stay bounded, and the total force
is a sum of rounding errors. -/
theorem exertAll_total_err (l0 : List Object) (k : ℚ) (g : Int) (N : Nat) (hN : N < 2 ^ 24)
    (hg : -149 ≤ g) (springs : List Spring) (l : List Object) (j : Nat)
    (hjN : j + springs.length ≤ N)
    (hs : ∀ sp ∈ springs, sp.a < l0.length ∧ sp.b < l0.length ∧ sp.a ≠ sp.b)
    (hpull : ∀ sp ∈ springs,
      |(springPull l0 sp k).x| ≤ pow2 g ∧ |(springPull l0 sp k).y| ≤ pow2 g)
    (hframe : l.map (fun o => (o.position, o.velocity, o.immobile))
      = l0.map (fun o => (o.position, o.velocity, o.immobile)))
    (hF : ∀ o ∈ l, |o.force.x| ≤ j * pow2 g ∧ |o.force.y| ≤ j * pow2 g)
    (hT : |(totalForce l).x| ≤ j * (2 * (pow2 (-24) * (N * pow2 g) + pow2 (-150))) ∧
      |(totalForce l).y| ≤ j * (2 * (pow2 (-24) * (N * pow2 g) + pow2 (-150)))) :
    (∀ o ∈ exertAll springs k l,
      |o.force.x| ≤ ((j + springs.length : Nat) : ℚ) * pow2 g ∧
      |o.force.y| ≤ ((j + springs.length : Nat) : ℚ) * pow2 g) ∧
    |(totalForce (exertAll springs k l)).x|
      ≤ ((j + springs.length : Nat) : ℚ) * (2 * (pow2 (-24) * (N * pow2 g) + pow2 (-150))) ∧
    |(totalForce (exertAll springs k l)).y|
      ≤ ((j + springs.length : Nat) : ℚ) * (2 * (pow2 (-24) * (N * pow2 g) + pow2 (-150))) := by
  induction springs generalizing l j with
  | nil =>
    simp only [List.length_nil, Nat.add_zero]
    exact ⟨hF, hT⟩
  | cons sp rest ih =>
    have hlen : l.length = l0.length := by
      have := congrArg List.length hframe
      simpa using this
    have hsp := hs sp (List.mem_cons_self _ _)
    have hpl := hpull sp (List.mem_cons_self _ _)
    rw [← springPull_congr l l0 sp k hframe] at hpl
    simp only [List.length_cons] at hjN
    obtain ⟨h1, h2, h3⟩ := springExertForces_total_err l sp k j g (hlen ▸ hsp.1) (hlen ▸ hsp.2.1)
      hsp.2.2 (by omega) hg hpl hF
    have hG := (pow2_pos g).le
    have hu := (pow2_pos (-24)).le
    have hjle : ((j + 1 : Nat) : ℚ) * pow2 g ≤ (N : ℚ) * pow2 g := by
      apply mul_le_mul_of_nonneg_right _ hG
      exact_mod_cast (by omega : j + 1 ≤ N)
    have hstep : 2 * (pow2 (-24) * (((j + 1 : Nat) : ℚ) * pow2 g) + pow2 (-150))
        ≤ 2 * (pow2 (-24) * (N * pow2 g) + pow2 (-150)) := by
      have := mul_le_mul_of_nonneg_left hjle hu
      linarith
    have hcast : ((j + 1 : Nat) : ℚ) = (j : ℚ) + 1 := by push_cast; ring
    have hT' : |(totalForce (springExertForces l sp k)).x|
          ≤ ((j + 1 : Nat) : ℚ) * (2 * (pow2 (-24) * (N * pow2 g) + pow2 (-150))) ∧
        |(totalForce (springExertForces l sp k)).y|
          ≤ ((j + 1 : Nat) : ℚ) * (2 * (pow2 (-24) * (N * pow2 g) + pow2 (-150))) := by
      rw [hcast]
      constructor
      · have := abs_add ((totalForce (springExertForces l sp k)).x - (totalForce l).x)
          (totalForce l).x
        rw [sub_add_cancel] at this
        linarith [hT.1]
      · have := abs_add ((totalForce (springExertForces l sp k)).y - (totalForce l).y)
          (totalForce l).y
        rw [sub_add_cancel] at this
        linarith [hT.2]
    have := ih (springExertForces l sp k) (j + 1) (by omega)
      (fun sp2 h => hs sp2 (List.mem_cons_of_mem _ h))
      (fun sp2 h => hpull sp2 (List.mem_cons_of_mem _ h))
      (by rw [map_frame_springExertForces, hframe]) h1 hT'
    have hidx : j + 1 + rest.length = j + (rest.length + 1) := by omega
    rw [hidx] at this
    simpa only [exertAll, List.foldl_cons, List.length_cons] using this

/-- The loop over the masses: the sum of the new velocities, up to the
rounding errors of the velocity updates. -/
theorem totalVelocity_step_err (c Φ V : ℚ) (hc0 : 0 ≤ c) (hc : c ≤ 50) (L : List Object)
    (hL : ∀ o ∈ L, o.immobile = false ∧ (|o.force.x| ≤ Φ ∧ |o.force.y| ≤ Φ) ∧
      (|o.velocity.x| ≤ V ∧ |o.velocity.y| ≤ V)) :
    |(totalVelocity (L.map (fun o => (modelStepObject o c).object))).x
        - ((totalVelocity L).x + ((totalForce L).x - c * (totalVelocity L).x) / 50)|
      ≤ L.length * (pow2 (-24) * (6 * V + Φ / 10) + 3 * pow2 (-150)) ∧
    |(totalVelocity (L.map (fun o => (modelStepObject o c).object))).y
        - ((totalVelocity L).y + ((totalForce L).y - c * (totalVelocity L).y) / 50)|
      ≤ L.length * (pow2 (-24) * (6 * V + Φ / 10) + 3 * pow2 (-150)) := by
  unfold totalVelocity totalForce
  induction L with
  | nil => simp
  | cons o rest ih =>
    obtain ⟨hi, hf, hv⟩ := hL o (List.mem_cons_self _ _)
    obtain ⟨ihx, ihy⟩ := ih (fun o2 ho2 => hL o2 (List.mem_cons_of_mem _ ho2))
    have ex := velocity_step_err c o.force.x o.velocity.x Φ V hc0 hc hf.1 hv.1
    have ey := velocity_step_err c o.force.y o.velocity.y Φ V hc0 hc hf.2 hv.2
    have hvx : (modelStepObject o c).object.velocity.x
        = fl (o.velocity.x + fl (fl (o.force.x - fl (c * o.velocity.x)) / 50)) := by
      simp only [modelStepObject, hi, Bool.false_eq_true, if_false, MASS]
    have hvy : (modelStepObject o c).object.velocity.y
        = fl (o.velocity.y + fl (fl (o.force.y - fl (c * o.velocity.y)) / 50)) := by
      simp only [modelStepObject, hi, Bool.false_eq_true, if_false, MASS]
    simp only [List.map_cons, List.sum_cons, List.length_cons, hvx, hvy] at ihx ihy ⊢
    push_cast
    constructor
    · have key : fl (o.velocity.x + fl (fl (o.force.x - fl (c * o.velocity.x)) / 50))
            + (List.map (fun o => o.velocity.x)
                (List.map (fun o => (modelStepObject o c).object) rest)).sum
            - (o.velocity.x + (List.map (fun o => o.velocity.x) rest).sum
              + (o.force.x + (List.map (fun o => o.force.x) rest).sum
                - c * (o.velocity.x + (List.map (fun o => o.velocity.x) rest).sum)) / 50)
          = (fl (o.velocity.x + fl (fl (o.force.x - fl (c * o.velocity.x)) / 50))
              - (o.velocity.x + (o.force.x - c * o.velocity.x) / 50))
            + ((List.map (fun o => o.velocity.x)
                (List.map (fun o => (modelStepObject o c).object) rest)).sum
              - ((List.map (fun o => o.velocity.x) rest).sum
                + ((List.map (fun o => o.force.x) rest).sum
                  - c * (List.map (fun o => o.velocity.x) rest).sum) / 50)) := by ring
      rw [key]
      exact le_trans (abs_add _ _) (by linarith)
    · have key : fl (o.velocity.y + fl (fl (o.force.y - fl (c * o.velocity.y)) / 50))
            + (List.map (fun o => o.velocity.y)
                (List.map (fun o => (modelStepObject o c).object) rest)).sum
            - (o.velocity.y + (List.map (fun o => o.velocity.y) rest).sum
              + (o.force.y + (List.map (fun o => o.force.y) rest).sum
                - c * (o.velocity.y + (List.map (fun o => o.velocity.y) rest).sum)) / 50)
          = (fl (o.velocity.y + fl (fl (o.force.y - fl (c * o.velocity.y)) / 50))
              - (o.velocity.y + (o.force.y - c * o.velocity.y) / 50))
            + ((List.map (fun o => o.velocity.y)
                (List.map (fun o => (modelStepObject o c).object) rest)).sum
              - ((List.map (fun o => o.velocity.y) rest).sum
                + ((List.map (fun o => o.force.y) rest).sum
                  - c * (List.map (fun o => o.velocity.y) rest).sum) / 50)) := by ring
      rw [key]
      exact le_trans (abs_add _ _) (by linarith)

/-- C28, counterexample in binary32 arithmetic: in the state reached by
`wobbly_init` on the scenario's rectangle, a grab at `(1, 1)` and an ungrab, no
mass is immobile and every accumulated force is zero; the velocities sum to
`(-13981013 / 2097152, -13981013 / 4194304)`, and after one sub-step with the
friction 3 and the spring constant 8 they sum to
`(-1642769 / 262144, -1642769 / 524288)`, which is not `47/50` times the sum
before: the difference is `11 / 104857600` in `x`. -/
theorem subStep_total_velocity_counterexample :
    Reachable kickedSurface ∧ kickedSurface.ww.model = some kickedModel ∧
    (∀ o ∈ kickedModel.objects, o.immobile = false ∧ o.force = ⟨0, 0⟩) ∧
    totalVelocity kickedModel.objects = ⟨-13981013 / 2097152, -13981013 / 4194304⟩ ∧
    totalVelocity (subStep kickedModel.springs WOBBLY_FRICTION WOBBLY_SPRING_K
        { objects := kickedModel.objects, velocitySum := 0, forceSum := 0 }).objects
      = ⟨-1642769 / 262144, -1642769 / 524288⟩ ∧
    (-1642769 / 262144 : ℚ) - 47 / 50 * (-13981013 / 2097152) = 11 / 104857600 := by
  have h : kickedSurface.ww.model.isSome = true ∧
      (∀ o ∈ kickedModel.objects, o.immobile = false ∧ o.force = ⟨0, 0⟩) ∧
      totalVelocity kickedModel.objects = ⟨-13981013 / 2097152, -13981013 / 4194304⟩ ∧
      totalVelocity (subStep kickedModel.springs WOBBLY_FRICTION WOBBLY_SPRING_K
          { objects := kickedModel.objects, velocitySum := 0, forceSum := 0 }).objects
        = ⟨-1642769 / 262144, -1642769 / 524288⟩ ∧
      (-1642769 / 262144 : ℚ) - 47 / 50 * (-13981013 / 2097152) = 11 / 104857600 := by
    decide!
  exact ⟨Reachable.ungrab _ (Reachable.grab true true initSurface 1 1 reachable_initSurface_b32),
    some_getD kickedSurface.ww.model (latticeModel 0 0 400 200) h.1, h.2⟩

/-- C28, as amended: when no mass is immobile, all accumulated forces are zero
and every spring joins two distinct masses of the model, one integration
sub-step (all springs exert forces, then every mass is stepped) multiplies each
component of the sum of the velocity vectors by `1 - friction/50` (`47/50` for
the default friction 3) up to rounding: for a friction between 0 and 50, if
every velocity component has magnitude at most `V` and every spring pulls with
at most `2^g` along each axis (`g >= -149`), then the component of the sum
after the sub-step differs from `1 - friction/50` times the component before
by at most `velocityErrorBound n N g V
= n * (2^-24 * (6 * V + N * 2^g / 10) + 3 * 2^-150)
+ N * (2^-24 * N * 2^g + 2^-150) / 25`, for `n` masses and `N < 2^24`
springs, whatever the positions and the spring offsets are. -/
theorem subStep_total_velocity_rounded (springs : List Spring) (friction k : ℚ)
    (st : StepState) (g : Int) (V : ℚ)
    (hs : ∀ sp ∈ springs,
      sp.a < st.objects.length ∧ sp.b < st.objects.length ∧ sp.a ≠ sp.b)
    (hfree : ∀ o ∈ st.objects, o.immobile = false ∧ o.force = ⟨0, 0⟩)
    (hc : 0 ≤ friction ∧ friction ≤ 50)
    (hN : springs.length < 2 ^ 24) (hg : -149 ≤ g)
    (hpull : ∀ sp ∈ springs,
      |(springPull st.objects sp k).x| ≤ pow2 g ∧ |(springPull st.objects sp k).y| ≤ pow2 g)
    (hV : ∀ o ∈ st.objects, |o.velocity.x| ≤ V ∧ |o.velocity.y| ≤ V) :
    |(totalVelocity (subStep springs friction k st).objects).x
        - (1 - friction / 50) * (totalVelocity st.objects).x|
      ≤ velocityErrorBound st.objects.length springs.length g V ∧
    |(totalVelocity (subStep springs friction k st).objects).y
        - (1 - friction / 50) * (totalVelocity st.objects).y|
      ≤ velocityErrorBound st.objects.length springs.length g V := by
  have hframe := map_frame_exertAll springs k st.objects
  have hzero : totalForce st.objects = ⟨0, 0⟩ :=
    totalForce_of_zero _ (fun o ho => (hfree o ho).2)
  have hδ : 0 ≤ 2 * (pow2 (-24) * ((springs.length : ℚ) * pow2 g) + pow2 (-150)) := by
    have := pow2_pos (-24)
    have := pow2_pos g
    have := pow2_pos (-150)
    positivity
  obtain ⟨hFL, hTx, hTy⟩ := exertAll_total_err st.objects k g springs.length hN hg springs
    st.objects 0 (by omega) hs hpull rfl
    (by
      intro o ho
      rw [(hfree o ho).2]
      simp)
    (by
      rw [hzero]
      simp)
  simp only [Nat.zero_add] at hFL hTx hTy
  have hL : ∀ o ∈ exertAll springs k st.objects, o.immobile = false ∧
      (|o.force.x| ≤ (springs.length : ℚ) * pow2 g ∧ |o.force.y| ≤ (springs.length : ℚ) * pow2 g) ∧
      (|o.velocity.x| ≤ V ∧ |o.velocity.y| ≤ V) := by
    intro o ho
    obtain ⟨o0, ho0, heq⟩ := mem_of_map_eq _ _ _ hframe o ho
    simp only [Prod.mk.injEq] at heq
    refine ⟨?_, hFL o ho, ?_⟩
    · rw [heq.2.2]; exact (hfree o0 ho0).1
    · rw [heq.2.1]; exact hV o0 ho0
  have hvel : totalVelocity (exertAll springs k st.objects) = totalVelocity st.objects := by
    apply totalVelocity_eq_of_map
    have := congrArg (List.map (fun p : Point × Vector × Bool => p.2.1)) hframe
    simpa only [List.map_map, Function.comp_def] using this
  have hlen : (exertAll springs k st.objects).length = st.objects.length :=
    length_exertAll_b32 springs k st.objects
  obtain ⟨ex, ey⟩ := totalVelocity_step_err friction ((springs.length : ℚ) * pow2 g) V hc.1 hc.2
    (exertAll springs k st.objects) hL
  rw [hvel, hlen] at ex ey
  have hobj : (subStep springs friction k st).objects
      = (exertAll springs k st.objects).map (fun o => (modelStepObject o friction).object) := by
    rw [subStep_eq_b32]
    exact (stepObjects_sums_b32 _ _ _ _).2.2
  rw [hobj]
  unfold velocityErrorBound
  constructor
  · have key : (totalVelocity ((exertAll springs k st.objects).map
          (fun o => (modelStepObject o friction).object))).x
          - (1 - friction / 50) * (totalVelocity st.objects).x
        = ((totalVelocity ((exertAll springs k st.objects).map
            (fun o => (modelStepObject o friction).object))).x
            - ((totalVelocity st.objects).x
              + ((totalForce (exertAll springs k st.objects)).x
                - friction * (totalVelocity st.objects).x) / 50))
          + (totalForce (exertAll springs k st.objects)).x / 50 := by ring
    rw [key]
    have hd : |(totalForce (exertAll springs k st.objects)).x / 50|
        = |(totalForce (exertAll springs k st.objects)).x| / 50 := by
      rw [abs_div]; norm_num
    have := abs_add ((totalVelocity ((exertAll springs k st.objects).map
            (fun o => (modelStepObject o friction).object))).x
            - ((totalVelocity st.objects).x
              + ((totalForce (exertAll springs k st.objects)).x
                - friction * (totalVelocity st.objects).x) / 50))
      ((totalForce (exertAll springs k st.objects)).x / 50)
    rw [hd] at this
    linarith
  · have key : (totalVelocity ((exertAll springs k st.objects).map
          (fun o => (modelStepObject o friction).object))).y
          - (1 - friction / 50) * (totalVelocity st.objects).y
        = ((totalVelocity ((exertAll springs k st.objects).map
            (fun o => (modelStepObject o friction).object))).y
            - ((totalVelocity st.objects).y
              + ((totalForce (exertAll springs k st.objects)).y
                - friction * (totalVelocity st.objects).y) / 50))
          + (totalForce (exertAll springs k st.objects)).y / 50 := by ring
    rw [key]
    have hd : |(totalForce (exertAll springs k st.objects)).y / 50|
        = |(totalForce (exertAll springs k st.objects)).y| / 50 := by
      rw [abs_div]; norm_num
    have := abs_add ((totalVelocity ((exertAll springs k st.objects).map
            (fun o => (modelStepObject o friction).object))).y
            - ((totalVelocity st.objects).y
              + ((totalForce (exertAll springs k st.objects)).y
                - friction * (totalVelocity st.objects).y) / 50))
      ((totalForce (exertAll springs k st.objects)).y / 50)
    rw [hd] at this
    linarith

/-- C28, witness: one sub-step of the scenario's model after a grab at
`(1, 1)` and an ungrab, with the friction 3 and the spring constant 8: every
velocity component is at most 8 and every spring pulls with at most `2^0`, and
the bound is below `1/10000`. -/
theorem subStep_total_velocity_rounded_witness :
    (|(totalVelocity (subStep kickedModel.springs 3 8
          { objects := kickedModel.objects, velocitySum := 0, forceSum := 0 }).objects).x
        - (1 - 3 / 50) * (totalVelocity kickedModel.objects).x|
      ≤ velocityErrorBound kickedModel.objects.length kickedModel.springs.length 0 8 ∧
    |(totalVelocity (subStep kickedModel.springs 3 8
          { objects := kickedModel.objects, velocitySum := 0, forceSum := 0 }).objects).y
        - (1 - 3 / 50) * (totalVelocity kickedModel.objects).y|
      ≤ velocityErrorBound kickedModel.objects.length kickedModel.springs.length 0 8) ∧
    velocityErrorBound kickedModel.objects.length kickedModel.springs.length 0 8 < 1 / 10000 := by
  have h : (∀ sp ∈ kickedModel.springs, sp.a < kickedModel.objects.length ∧
        sp.b < kickedModel.objects.length ∧ sp.a ≠ sp.b) ∧
      (∀ o ∈ kickedModel.objects, o.immobile = false ∧ o.force = ⟨0, 0⟩) ∧
      kickedModel.springs.length < 2 ^ 24 ∧
      (∀ sp ∈ kickedModel.springs, |(springPull kickedModel.objects sp 8).x| ≤ pow2 0 ∧
        |(springPull kickedModel.objects sp 8).y| ≤ pow2 0) ∧
      (∀ o ∈ kickedModel.objects, |o.velocity.x| ≤ 8 ∧ |o.velocity.y| ≤ 8) ∧
      velocityErrorBound kickedModel.objects.length kickedModel.springs.length 0 8
        < 1 / 10000 := by
    decide!
  exact ⟨subStep_total_velocity_rounded kickedModel.springs 3 8
    { objects := kickedModel.objects, velocitySum := 0, forceSum := 0 } 0 8
    h.1 h.2.1 ⟨by norm_num, by norm_num⟩ h.2.2.1 (by norm_num) h.2.2.2.1 h.2.2.2.2.1,
    h.2.2.2.2.2⟩

end Binary32

end Wobbly
